import Mathlib

/-!
# DesktopWalker: the simulation core of `src/Main.cpp`

A shallow embedding of the physics integrator (`UpdatePhysics`), the occlusion
query (`IsPointObscured`), the monitor test (`IsInAnyMonitor`), the state
manager (`ChangeState`), the behaviour state machine (`UpdateAI`), the refresh
of the monitors (`UpdateEnvironment`) and the start values of `wWinMain`.

Conventions of the embedding.

* The C++ globals are the fields of one record, `Globals`; every function takes
  the record and returns the updated one.
* `int` and `long` (both 32 bit on the target platform) are `Int`.  Signed
  overflow is undefined behaviour in C++; the theorems about `dx*dx + dy*dy`
  state the range in which it cannot overflow.  One sum is driven out of range by
  the program itself: `posY += velY` in a fall that never lands.  It is modelled
  as the 32 bit addition of the target computes it, modulo `2 ^ 32` (`wrapInt32`).
* `unsigned long` (32 bit) is `Nat` with an explicit `% 2^32`.
* `float` and `double` values are rationals; every conversion and arithmetic
  operation rounds its exact result to 24 resp. 53 significant bits, ties to
  even (`roundFloat`, the IEEE 754 default that the compiler uses for `float`
  and `double` expressions); `sqrt` is correctly rounded (`sqrtDouble`).
* What the operating system supplies in one call is an argument of that call:
  the exit key, the enumerated windows, the clock, the values of `rand()`, the
  movie flag.
* A run of the program is a list of calls (`Call`) applied in order to the start
  values; the window procedure makes them in the order `UpdatePhysics`,
  `UpdateAI` on every timer message, the theorems on runs hold for every order.
-/

namespace DesktopWalker

/-! ## Configuration -/

namespace Config

abbrev GRAVITY : Int := 3
abbrev WALK_SPEED : Int := 4
abbrev LEAP_SPEED : Int := 25
abbrev THRESH_IDLE_TO_WALK : Nat := 150
abbrev THRESH_IDLE_TO_SIT : Nat := 300
abbrev THRESH_IDLE_TO_SLEEP : Nat := 350
abbrev CHANCE_STOP_WALKING : Nat := 100
abbrev CHANCE_STAND_UP : Nat := 50
abbrev CHANCE_WAKE_UP : Nat := 5
abbrev CHANCE_CHECK_JUMP : Nat := 500
abbrev JUMP_UP_BIAS : Nat := 70
abbrev MIN_STATE_TIME : Nat := 2000

end Config

/-! ## Data model -/

inductive State where
  | IDLE
  | WALKING
  | SITTING
  | SLEEPING
  | FALLING
  | PREPARE_JUMP
  | LEAPING
  | WATCHING_MOVIE
  deriving DecidableEq, Repr

/-- The work area of one monitor (`struct RectArea`). -/
structure RectArea where
  left : Int
  top : Int
  right : Int
  bottom : Int
  deriving DecidableEq, Repr

/-- The Win32 `RECT` of one window. -/
structure RECT where
  left : Int
  top : Int
  right : Int
  bottom : Int
  deriving DecidableEq, Repr

/-- The Win32 `POINT` of a jump target. -/
structure POINT where
  x : Int
  y : Int
  deriving DecidableEq, Repr

/-- The global variables of the program that the simulation reads or writes. -/
structure Globals where
  currentState : State
  currentFrameIndex : Int
  lastFrameTime : Nat
  lastStateChangeTime : Nat
  posX : Int
  posY : Int
  velX : Int
  velY : Int
  facingRight : Bool
  targetX : Int
  targetY : Int
  monitors : List RectArea
  windowRects : List RECT
  deriving DecidableEq, Repr

/-- The values the globals are initialised with, before `wWinMain` runs. -/
def initialGlobals : Globals :=
  { currentState := State.FALLING
    currentFrameIndex := 0
    lastFrameTime := 0
    lastStateChangeTime := 0
    posX := 0
    posY := 0
    velX := 0
    velY := 0
    facingRight := true
    targetX := 0
    targetY := 0
    monitors := []
    windowRects := [] }

/-! ## Loops with an early exit -/

/-- The loop `for (i = start; i < start + count; i++) if (p i) return i;`:
the first index in the range at which `p` holds. -/
def firstIndex (p : Nat → Bool) : Nat → Nat → Option Nat
  | 0, _ => none
  | count + 1, start => if p start then some start else firstIndex p count (start + 1)

/-! ## Single and double precision arithmetic -/

/-- Nearest integer of a rational, a tie going to the even neighbour. -/
def roundHalfEven (q : ℚ) : ℤ :=
  let f := ⌊q⌋
  if q - f < 1 / 2 then f
  else if 1 / 2 < q - f then f + 1
  else if f % 2 = 0 then f else f + 1

/-- Rounding of an exact result to `p` significant bits, round to nearest, ties
to even (the IEEE 754 default).  The exponent range is not limited: every value
the program computes is far from overflow and from the subnormal range. -/
def roundFloat (p : ℕ) (x : ℚ) : ℚ :=
  let e := Int.log 2 |x|
  let ulp : ℚ := 2 ^ (e - (p : ℤ) + 1)
  roundHalfEven (x / ulp) * ulp

/-- Conversion to, or result of an operation in, `float` (binary32). -/
def toFloat (x : ℚ) : ℚ := roundFloat 24 x

/-- Conversion to, or result of an operation in, `double` (binary64). -/
def toDouble (x : ℚ) : ℚ := roundFloat 53 x

/-- The cast `(int)` of a floating point value: truncation toward zero. -/
def truncToInt (x : ℚ) : Int :=
  if 0 ≤ x then ⌊x⌋ else ⌈x⌉

/-- The correctly rounded `sqrt` of a double holding the natural number `n`.
With `s = ⌊√(n·4^64)⌋` the exact root lies in `[s, s+1) / 2^64`; it is `s / 2^64`
when `n·4^64` is a square and strictly inside otherwise, where no double and no
midpoint of two doubles lies (`s ≥ 2^64`), so rounding `s + 1/2` gives the
rounding of the root.  The theorems on the leap use only that every double below
the exact root is below this value and every double above it is above
(`le_sqrtDouble`, `sqrtDouble_le`), so that the root of a square is exact. -/
def sqrtDouble (n : ℕ) : ℚ :=
  let N := n * 4 ^ 64
  let s := Nat.sqrt N
  if s * s = N then toDouble ((s : ℚ) / 2 ^ 64)
  else toDouble (((s : ℚ) + 1 / 2) / 2 ^ 64)

/-! ## State manager -/

/-- `ChangeState(newState, reason)`; `now` is the value of `GetTickCount64()`,
stored in an `unsigned long`.  The reason is only logged. -/
def ChangeState (newState : State) (now : Nat) (g : Globals) : Globals :=
  if g.currentState = newState then g
  else
    { g with
      currentState := newState
      lastStateChangeTime := now % 2 ^ 32
      currentFrameIndex := 0
      lastFrameTime := now % 2 ^ 32 }

/-! ## Environment queries -/

/-- `IsInAnyMonitor(x, y)`. -/
def IsInAnyMonitor (monitors : List RectArea) (x y : Int) : Bool :=
  monitors.any fun mon =>
    decide (x ≥ mon.left ∧ x ≤ mon.right ∧ y ≥ mon.top ∧ y ≤ mon.bottom)

/-- The test in the body of the loop of `IsPointObscured`, at index `i`. -/
def coversAt (windowRects : List RECT) (x y : Int) (i : Nat) : Bool :=
  match windowRects[i]? with
  | some r => decide (x ≥ r.left ∧ x ≤ r.right ∧ y ≥ r.top ∧ y ≤ r.bottom)
  | none => false

/-- `IsPointObscured(x, y, ignoreBelowIndex)`. -/
def IsPointObscured (windowRects : List RECT) (x y : Int) (ignoreBelowIndex : Int) : Bool :=
  let limit : Int := if ignoreBelowIndex = -1 then (windowRects.length : Int) else ignoreBelowIndex
  (firstIndex (coversAt windowRects x y) limit.toNat 0).isSome

/-- The loop `for (i = start; i < windowRects.size(); i++)` over the rest of the
window list, left at the first window `r = windowRects[i]` that passes `p i r`. -/
def firstWindow (p : Nat → RECT → Bool) : Nat → List RECT → Option (Nat × RECT)
  | _, [] => none
  | i, r :: rest => if p i r then some (i, r) else firstWindow p (i + 1) rest

/-! ## Physics -/

/-- The value an `int` variable holds after a sum with the exact result `x`: `x`
itself when it fits 32 bits, else `x` reduced modulo `2 ^ 32` into the range from
`-2 ^ 31` to `2 ^ 31 - 1`, as the addition of the target wraps. -/
def wrapInt32 (x : Int) : Int :=
  (x + 2147483648) % 4294967296 - 2147483648

/-- The nested conditions of the window loop of the FALLING branch. -/
def landingTest (windowRects : List RECT) (posX posY velY : Int) (i : Nat) (r : RECT) : Bool :=
  decide (posX ≥ r.left + 10 ∧ posX ≤ r.right - 10) &&
    (decide (posY ≥ r.top ∧ posY ≤ r.top + velY + 15) &&
      !IsPointObscured windowRects posX r.top i)

/-- The nested conditions of the floor loop of the FALLING branch. -/
def floorLandingTest (posX posY : Int) (mon : RectArea) : Bool :=
  decide (posX ≥ mon.left ∧ posX ≤ mon.right) && decide (posY ≥ mon.bottom)

/-- The branch `currentState == FALLING` of `UpdatePhysics`. -/
def fallingTick (now : Nat) (g : Globals) : Globals :=
  let g1 : Globals := { g with posY := wrapInt32 (g.posY + g.velY) }
  let g2 : Globals := { g1 with velY := g1.velY + Config.GRAVITY }
  let g3 : Globals := if g2.velY > 25 then { g2 with velY := 25 } else g2
  if g3.velY > 0 then
    match firstWindow (landingTest g3.windowRects g3.posX g3.posY g3.velY) 0 g3.windowRects with
    | some (_, r) => ChangeState State.IDLE now { g3 with posY := r.top, velY := 0 }
    | none =>
      match g3.monitors.find? (floorLandingTest g3.posX g3.posY) with
      | some mon => ChangeState State.IDLE now { g3 with posY := mon.bottom, velY := 0 }
      | none => g3
  else g3

/-- The branch `currentState == LEAPING` of `UpdatePhysics`. -/
def leapingTick (now : Nat) (g : Globals) : Globals :=
  let dx := g.targetX - g.posX
  let dy := g.targetY - g.posY
  let dist : ℚ := toFloat (sqrtDouble (dx * dx + dy * dy).toNat)
  if dist < (Config.LEAP_SPEED : ℚ) then
    ChangeState State.IDLE now { g with posX := g.targetX, posY := g.targetY }
  else
    let ratio : ℚ := toFloat ((Config.LEAP_SPEED : ℚ) / dist)
    let g1 : Globals := { g with posX := g.posX + truncToInt (toFloat (toFloat dx * ratio)) }
    { g1 with posY := g1.posY + truncToInt (toFloat (toFloat dy * ratio)) }

/-- The local variables of the on-ground branch, next to the globals. -/
structure Ground where
  g : Globals
  supported : Bool
  onFloor : Bool
  myWindowIndex : Int

/-- The nested conditions of the elevator loop. -/
def elevatorTest (windowRects : List RECT) (posX posY : Int) (i : Nat) (r : RECT) : Bool :=
  decide (posX ≥ r.left ∧ posX ≤ r.right) &&
    (decide (posY ≥ r.top - 5 ∧ posY ≤ r.top + 15) &&
      !IsPointObscured windowRects posX r.top i)

/-- Step 1 of the on-ground branch: the elevator check. -/
def elevatorCheck (g : Globals) : Ground :=
  match firstWindow (elevatorTest g.windowRects g.posX g.posY) 0 g.windowRects with
  | some (i, r) =>
    { g := { g with posY := r.top }, supported := true, onFloor := false, myWindowIndex := i }
  | none => { g := g, supported := false, onFloor := false, myWindowIndex := -1 }

/-- The condition of the floor loop of the on-ground branch. -/
def floorTest (posX posY : Int) (mon : RectArea) : Bool :=
  decide (posX ≥ mon.left ∧ posX ≤ mon.right ∧ |posY - mon.bottom| < 10)

/-- Step 2 of the on-ground branch: the floor check. -/
def floorCheck (l : Ground) : Ground :=
  if !l.supported then
    match l.g.monitors.find? (floorTest l.g.posX l.g.posY) with
    | some mon => { l with supported := true, onFloor := true, g := { l.g with posY := mon.bottom } }
    | none => l
  else l

/-- Step 3 of the on-ground branch: the occlusion logic; `rnd` is the value of
`rand()`. -/
def occlusionLogic (now rnd : Nat) (l : Ground) : Ground :=
  if l.supported then
    if IsPointObscured l.g.windowRects l.g.posX (l.g.posY - 20) l.myWindowIndex then
      if l.g.currentState = State.SLEEPING ∨ l.g.currentState = State.WATCHING_MOVIE then
        let g1 := ChangeState State.IDLE now l.g
        if rnd % 2 = 0 then { l with g := { g1 with posX := g1.posX + 10 } }
        else { l with g := { g1 with posX := g1.posX - 10 } }
      else if !l.onFloor then { l with supported := false }
      else l
    else l
  else l

/-- The end of the on-ground branch: fall without support, else walk. -/
def fallOrWalk (now : Nat) (l : Ground) : Globals :=
  if !l.supported then ChangeState State.FALLING now l.g
  else if l.g.currentState = State.WALKING then
    let speed := Config.WALK_SPEED
    let nextX := if l.g.facingRight then l.g.posX + speed else l.g.posX - speed
    if IsInAnyMonitor l.g.monitors nextX (l.g.posY - 10) then { l.g with posX := nextX }
    else ChangeState State.IDLE now l.g
  else l.g

/-- The branch `currentState != PREPARE_JUMP` (on ground) of `UpdatePhysics`. -/
def groundedTick (now rnd : Nat) (g : Globals) : Globals :=
  fallOrWalk now (occlusionLogic now rnd (floorCheck (elevatorCheck g)))

/-- `UpdatePhysics()`.  `escDown` is `GetAsyncKeyState(VK_ESCAPE)`, `enumerated`
the list `EnumWindows` fills, `now` the clock and `rnd` the value of `rand()`. -/
def UpdatePhysics (escDown : Bool) (enumerated : List RECT) (now rnd : Nat) (g0 : Globals) :
    Globals :=
  if escDown then g0
  else
    let g : Globals := { g0 with windowRects := enumerated }
    if g.currentState = State.FALLING then fallingTick now g
    else if g.currentState = State.LEAPING then leapingTick now g
    else if g.currentState ≠ State.PREPARE_JUMP then groundedTick now rnd g
    else g

/-! ## Behaviour -/

/-- The loop that computes `minDim` in the jump search. -/
def minDim (monitors : List RectArea) : Int :=
  monitors.foldl
    (fun m mon =>
      let w := mon.right - mon.left
      let h := mon.bottom - mon.top
      let m1 := if w < m then w else m
      if h < m1 then h else m1)
    10000

/-- The `float` constant `Config::JUMP_RANGE_PCT = 0.20f`. -/
def Config.JUMP_RANGE_PCT : ℚ := toFloat (1 / 5)

/-- The value of `(int)(minDim * Config::JUMP_RANGE_PCT)`. -/
def maxRange (monitors : List RectArea) : Int :=
  truncToInt (toFloat (toFloat (minDim monitors) * Config.JUMP_RANGE_PCT))

/-- The top-centre point `{wx, wy}` of a window; `/` on `long` truncates. -/
def ledge (w : RECT) : POINT :=
  { x := (w.left + w.right).tdiv 2, y := w.top }

/-- The value of `sqrt(pow(wx - posX, 2) + pow(wy - posY, 2))`, in `double`. -/
def ledgeDist (posX posY : Int) (pt : POINT) : ℚ :=
  let a : ℚ := toDouble (((pt.x - posX : Int) : ℚ) ^ 2)
  let b : ℚ := toDouble (((pt.y - posY : Int) : ℚ) ^ 2)
  sqrtDouble ⌊toDouble (a + b)⌋.toNat

/-- The body of the candidate loop of the jump search: true when no `continue`
is taken for the window `w`. -/
def keepsLedge (g : Globals) (w : RECT) : Bool :=
  let pt := ledge w
  !decide (ledgeDist g.posX g.posY pt > (maxRange g.monitors : ℚ)) &&
    (!decide (|pt.y - g.posY| < 30) &&
      (!IsPointObscured g.windowRects pt.x pt.y (-1) &&
        !g.monitors.any fun mon => decide (pt.y < mon.top + 50)))

/-- The list `targetsUp` after the candidate loop. -/
def targetsUp (g : Globals) : List POINT :=
  ((g.windowRects.filter (keepsLedge g)).map ledge).filter fun pt => decide (pt.y < g.posY)

/-- The list `targetsDown` after the candidate loop. -/
def targetsDown (g : Globals) : List POINT :=
  ((g.windowRects.filter (keepsLedge g)).map ledge).filter fun pt => !decide (pt.y < g.posY)

/-- The list `chosenList` points to (`none` for `nullptr`). -/
def chosenList (preferUp : Bool) (up down : List POINT) : Option (List POINT) :=
  if preferUp && !up.isEmpty then some up
  else if !down.isEmpty then some down
  else if !up.isEmpty then some up
  else none

/-- The block `JUMP SEARCH`; `draw`, `bias` and `pick` are the values of the
three calls of `rand()`. -/
def jumpSearch (now draw bias pick : Nat) (g : Globals) : Globals :=
  if draw % 10000 < Config.CHANCE_CHECK_JUMP then
    let preferUp := decide (bias % 100 < Config.JUMP_UP_BIAS)
    match chosenList preferUp (targetsUp g) (targetsDown g) with
    | some chosen =>
      if !chosen.isEmpty then
        match chosen[pick % chosen.length]? with
        | some pt => ChangeState State.PREPARE_JUMP now { g with targetX := pt.x, targetY := pt.y }
        | none => g
      else g
    | none => g
  else g

/-- The movie detection at the end of `UpdateAI`; `watching` is the flag
computed from the title of the foreground window. -/
def movieDetection (watching : Bool) (now : Nat) (g : Globals) : Globals :=
  let g1 :=
    if watching ∧ g.currentState ≠ State.WATCHING_MOVIE ∧ g.currentState ≠ State.FALLING ∧
        g.currentState ≠ State.LEAPING ∧ g.currentState ≠ State.PREPARE_JUMP then
      ChangeState State.WATCHING_MOVIE now g
    else g
  if !watching ∧ g1.currentState = State.WATCHING_MOVIE then ChangeState State.IDLE now g1
  else g1

/-- The branch `currentState == IDLE` of `UpdateAI`; `r` is the shared draw and
`rand k` the value of the call number `k` of `rand()` in this `UpdateAI`. -/
def idleBranch (now r : Nat) (rand : Nat → Nat) (g : Globals) : Globals :=
  if r < Config.THRESH_IDLE_TO_WALK then
    let g1 := ChangeState State.WALKING now { g with facingRight := decide (rand 1 % 2 = 0) }
    jumpSearch now (rand 2) (rand 3) (rand 4) g1
  else if r < Config.THRESH_IDLE_TO_SIT then
    jumpSearch now (rand 1) (rand 2) (rand 3) (ChangeState State.SITTING now g)
  else if r < Config.THRESH_IDLE_TO_SLEEP then
    jumpSearch now (rand 1) (rand 2) (rand 3) (ChangeState State.SLEEPING now g)
  else jumpSearch now (rand 1) (rand 2) (rand 3) g

/-- `UpdateAI()`.  `watching` is the movie flag, `now` the value of
`GetTickCount64()` and `rand k` the value of the call number `k` of `rand()`. -/
def UpdateAI (watching : Bool) (now : Nat) (rand : Nat → Nat) (g : Globals) : Globals :=
  if g.currentState = State.FALLING ∨ g.currentState = State.LEAPING then g
  else if g.currentState = State.PREPARE_JUMP then
    if rand 0 % 15 = 0 then
      ChangeState State.LEAPING now { g with facingRight := decide (g.targetX > g.posX) }
    else g
  else if (((now % 2 ^ 32 : Nat) : Int) - (g.lastStateChangeTime : Int)) % 2 ^ 32 <
      (Config.MIN_STATE_TIME : Int) then g
  else
    let r := rand 0 % 10000
    let g1 :=
      if g.currentState = State.IDLE then idleBranch now r rand g
      else if g.currentState = State.WALKING then
        if r < Config.CHANCE_STOP_WALKING then ChangeState State.IDLE now g else g
      else if g.currentState = State.SITTING then
        if r < Config.CHANCE_STAND_UP then ChangeState State.IDLE now g else g
      else if g.currentState = State.SLEEPING then
        if r < Config.CHANCE_WAKE_UP then ChangeState State.IDLE now g else g
      else g
    movieDetection watching now g1


/-! ## Spec-level vocabulary -/

/-- The rectangle contains the point, all four edges inclusive. -/
def Covers (r : RECT) (x y : Int) : Prop :=
  r.left ≤ x ∧ x ≤ r.right ∧ r.top ≤ y ∧ y ≤ r.bottom

/-- Some rectangle of z-rank strictly less than `k` contains the point. -/
def CoveredBefore (windowRects : List RECT) (k : Nat) (x y : Int) : Prop :=
  ∃ j r, j < k ∧ windowRects[j]? = some r ∧ Covers r x y

/-- The window `r` at z-rank `i` is a landing spot for a falling character at
`(x, y)` with fall speed `vy`: its span, inset by 10 on both sides, covers `x`,
its top lies in the band `top ≤ y ≤ top + vy + 15`, and its landing point
`(x, top)` is not covered by a strictly nearer rectangle. -/
def LandingSpot (windowRects : List RECT) (x y vy : Int) (i : Nat) (r : RECT) : Prop :=
  windowRects[i]? = some r ∧ r.left + 10 ≤ x ∧ x ≤ r.right - 10 ∧ r.top ≤ y ∧
    y ≤ r.top + vy + 15 ∧ ¬ CoveredBefore windowRects i x r.top

/-- The window `r` at z-rank `i` supports a grounded character at `(x, y)`: its
span covers `x`, the foot lies in the band `top - 5 ≤ y ≤ top + 15`, and the
point `(x, top)` is not covered by a rectangle of lower index. -/
def SupportSpot (windowRects : List RECT) (x y : Int) (i : Nat) (r : RECT) : Prop :=
  windowRects[i]? = some r ∧ r.left ≤ x ∧ x ≤ r.right ∧ r.top - 5 ≤ y ∧ y ≤ r.top + 15 ∧
    ¬ CoveredBefore windowRects i x r.top

/-- The window `r` at index `k` satisfies `Q` and no window of lower index does. -/
def FrontMost (Q : Nat → RECT → Prop) (k : Nat) (r : RECT) : Prop :=
  Q k r ∧ ∀ (j : Nat) (r' : RECT), j < k → ¬ Q j r'

/-- The monitor `mon` is a floor under the foot `(x, y)`: its span covers `x` and
the foot is less than 10 away from its bottom edge. -/
def FloorSpot (x y : Int) (mon : RectArea) : Prop :=
  mon.left ≤ x ∧ x ≤ mon.right ∧ |y - mon.bottom| < 10

/-- The monitor `mon` is the first of the list that satisfies `Q`. -/
def FirstMonitor (Q : RectArea → Prop) (monitors : List RectArea) (mon : RectArea) : Prop :=
  ∃ pre post, monitors = pre ++ mon :: post ∧ Q mon ∧ ∀ m ∈ pre, ¬ Q m

/-- The states of the on-ground branch the claims name. -/
def Grounded (s : State) : Prop :=
  s = State.IDLE ∨ s = State.WALKING ∨ s = State.SITTING ∨ s = State.SLEEPING ∨
    s = State.WATCHING_MOVIE

/-- The squared straight-line distance from the position to the leap target. -/
def distSq (g : Globals) : Int :=
  (g.targetX - g.posX) * (g.targetX - g.posX) + (g.targetY - g.posY) * (g.targetY - g.posY)

/-- The component `25 * d / √n` of the unit direction scaled by the leap speed,
truncated toward zero, for the offset `d` of the coordinate and the squared
distance `n`: `⌊25 * |d| / √n⌋ = ⌊√(625 * d² / n)⌋`, with the sign of `d`. -/
def exactStep (d : Int) (n : Nat) : Int :=
  Int.sign d * (Nat.sqrt (625 * d.natAbs * d.natAbs / n) : Int)

/-- What the operating system supplies to one call of `UpdatePhysics` in which
the exit key is not pressed. -/
structure TickInput where
  enumerated : List RECT
  now : Nat
  rnd : Nat

/-- The globals after `k` calls of `UpdatePhysics`, call number `i` with the
input `inputs i`. -/
def runPhysics (inputs : Nat → TickInput) : Nat → Globals → Globals
  | 0, g => g
  | k + 1, g =>
    runPhysics (fun i => inputs (i + 1)) k
      (UpdatePhysics false (inputs 0).enumerated (inputs 0).now (inputs 0).rnd g)

/-! ## Example scenes -/

/-- A window with top 505 and span 0 to 300. -/
def catchWindows : List RECT := [⟨0, 505, 300, 800⟩]

/-- A falling character at foot `(100, 500)` with fall speed 10. -/
def catchFaller : Globals := { initialGlobals with posX := 100, posY := 500, velY := 10 }

/-- A falling character at foot `(5, 500)` with fall speed 10: inside the span of
the window of `catchWindows`, less than 10 from its left edge. -/
def edgeFaller : Globals := { initialGlobals with posX := 5, posY := 500, velY := 10 }

/-- A character in state FALLING at foot `(100, 517)` with the upward speed -10:
well inside the window of `catchWindows`, with speed -7 after the integration. -/
def risingFaller : Globals := { initialGlobals with posX := 100, posY := 517, velY := -10 }

/-- A thin window in front, bottom at 90, and a window with top 100 behind it. -/
def shelfWindows : List RECT := [⟨0, 70, 200, 90⟩, ⟨0, 100, 200, 300⟩]

/-- A window with top 100 in front of a large window that contains its top. -/
def stackedWindows : List RECT := [⟨0, 100, 200, 300⟩, ⟨0, 50, 400, 400⟩]

/-- A character in state `s` standing at foot `(50, 100)`. -/
def standing (s : State) : Globals :=
  { initialGlobals with currentState := s, posX := 50, posY := 100 }

/-- A sleeping character at foot `(50, 1000)` on the floor of one monitor. -/
def floorSleeper : Globals :=
  { initialGlobals with
    currentState := State.SLEEPING, posX := 50, posY := 1000, monitors := [⟨0, 0, 1920, 1000⟩] }

/-- A window that covers the head point of `floorSleeper`. -/
def floorWindows : List RECT := [⟨0, 900, 400, 990⟩]

/-- A leaping character at the origin with the leap target `(tx, ty)`. -/
def leaper (tx ty : Int) : Globals :=
  { initialGlobals with currentState := State.LEAPING, targetX := tx, targetY := ty }

/-- The leaper toward `(400, 400)` after `m` steps of 17 in each coordinate. -/
def diagonalLeaper (m : Nat) : Globals :=
  { leaper 400 400 with posX := 17 * (m : Int), posY := 17 * (m : Int) }

/-- The input of a tick with no window. -/
def quietInput : TickInput := { enumerated := [], now := 0, rnd := 0 }

/-! ## Start and message loop -/

/-- `UpdateEnvironment()`: the monitor list is replaced by the enumerated one. -/
def UpdateEnvironment (enumerated : List RectArea) (g : Globals) : Globals :=
  { g with monitors := enumerated }

/-- The globals when the message loop starts: `wWinMain` calls
`UpdateEnvironment` and puts the character at the bottom centre of the first
monitor, when there is one. -/
def wWinMain (enumerated : List RectArea) : Globals :=
  let g := UpdateEnvironment enumerated initialGlobals
  match g.monitors with
  | [] => g
  | mon :: _ => { g with posX := (mon.left + mon.right).tdiv 2, posY := mon.bottom }

/-- One call made by the window procedure, with what the operating system
supplies to it: `UpdatePhysics` or `UpdateAI` (on the timer), `UpdateEnvironment`
(on a change of the displays). -/
inductive Call where
  | physics (escDown : Bool) (enumerated : List RECT) (now rnd : Nat)
  | behaviour (watching : Bool) (now : Nat) (rand : Nat → Nat)
  | environment (enumerated : List RectArea)

/-- The globals after one call. -/
def Call.run (g : Globals) : Call → Globals
  | Call.physics escDown enumerated now rnd => UpdatePhysics escDown enumerated now rnd g
  | Call.behaviour watching now rand => UpdateAI watching now rand g
  | Call.environment enumerated => UpdateEnvironment enumerated g

/-- The globals after a sequence of calls, made in the order of the list. -/
def runCalls (calls : List Call) (g : Globals) : Globals :=
  calls.foldl Call.run g

/-! ## Vocabulary of the behaviour claims -/

/-- The dwell timer: the value of `now - lastStateChangeTime` in `UpdateAI`, a
difference of two `unsigned long`, when the clock `GetTickCount64()` is `now`. -/
def dwellTime (now : Nat) (g : Globals) : Int :=
  (((now % 2 ^ 32 : Nat) : Int) - (g.lastStateChangeTime : Int)) % 2 ^ 32

/-- The rectangle is well formed: `left ≤ right` and `top ≤ bottom`. -/
def WellFormed (r : RECT) : Prop :=
  r.left ≤ r.right ∧ r.top ≤ r.bottom

/-- Every window rectangle a call enumerates is well formed. -/
def Call.WindowsWellFormed : Call → Prop
  | Call.physics _ enumerated _ _ => ∀ w ∈ enumerated, WellFormed w
  | _ => True

/-- Steps 1 to 3 of the on-ground branch: the locals after the elevator check,
the floor check and the occlusion logic. -/
def supportChecks (now rnd : Nat) (g : Globals) : Ground :=
  occlusionLogic now rnd (floorCheck (elevatorCheck g))

/-- The point lies inside some monitor rectangle, edges inclusive. -/
def InSomeMonitor (monitors : List RectArea) (x y : Int) : Prop :=
  ∃ mon ∈ monitors, mon.left ≤ x ∧ x ≤ mon.right ∧ mon.top ≤ y ∧ y ≤ mon.bottom

/-- What every branch of `UpdatePhysics` keeps, from `g` to `g'`: the horizontal
speed, the leap target, the window and monitor lists, and the state unless it
becomes IDLE or FALLING. -/
def Kept (g g' : Globals) : Prop :=
  g'.velX = g.velX ∧ g'.targetX = g.targetX ∧ g'.targetY = g.targetY ∧
    g'.windowRects = g.windowRects ∧ g'.monitors = g.monitors ∧
    (g'.currentState = g.currentState ∨ g'.currentState = State.IDLE ∨
      g'.currentState = State.FALLING)

/-- The velocity invariant: no horizontal speed, a fall speed from 0 to 25, and
no fall speed outside FALLING. -/
def VelocityInv (g : Globals) : Prop :=
  g.velX = 0 ∧ 0 ≤ g.velY ∧ g.velY ≤ 25 ∧ (g.currentState ≠ State.FALLING → g.velY = 0)

/-- The invariant of the runs with well formed windows: the state is neither
PREPARE_JUMP nor LEAPING, the leap target is the initial `(0, 0)` and every
window of the stored list is well formed. -/
def NoJump (g : Globals) : Prop :=
  g.currentState ≠ State.PREPARE_JUMP ∧ g.currentState ≠ State.LEAPING ∧
    g.targetX = 0 ∧ g.targetY = 0 ∧ ∀ w ∈ g.windowRects, WellFormed w

/-! ## Example scenes of the behaviour claims -/

/-- A character in state `s` at foot `(50, 100)` whose state changed at 1000. -/
def settled (s : State) : Globals :=
  { standing s with lastStateChangeTime := 1000 }

/-- A walker facing right at foot `(x, 1000)`, on the floor of one monitor whose
work area is 0 to 1920 wide and 0 to 1000 high. -/
def edgeWalker (x : Int) : Globals :=
  { initialGlobals with
    currentState := State.WALKING, posX := x, posY := 1000, monitors := [⟨0, 0, 1920, 1000⟩] }

/-- An IDLE character on the floor of one monitor (1920 by 1080) at foot
`(350, 1080)`, state changed at clock 0, and one window, 200 wide and 100 high,
whose top-centre point `(200, 980)` is 100 above the foot. -/
def ledgeScene : Globals :=
  { initialGlobals with
    currentState := State.IDLE, posX := 350, posY := 1080, monitors := [⟨0, 0, 1920, 1080⟩],
    windowRects := [⟨100, 980, 300, 1080⟩] }

/-- The values of `rand()` for `ledgeScene`: the shared draw 5000 (no banded
transition), then 0 for the jump draw, the bias draw and the pick. -/
def ledgeDraws (k : Nat) : Nat :=
  if k = 0 then 5000 else 0

/-- The values of `rand()` for the band witness: the shared draw 200, then 9000. -/
def bandDraws (k : Nat) : Nat :=
  if k = 0 then 200 else 9000

/-- Three ticks on a monitor of 1920 by 1080, where `wWinMain` puts the character
at `(960, 1080)`, with one window whose top-centre point `(960, 980)` is 100 above
the foot: each tick calls `UpdatePhysics` and `UpdateAI`; the draws of the second
and third tick pass the jump draw (400 < 500). -/
def jumpyCalls : List Call :=
  [Call.physics false [⟨860, 980, 1060, 1080⟩] 0 0, Call.behaviour false 0 (fun _ => 0),
    Call.physics false [⟨860, 980, 1060, 1080⟩] 5000 0, Call.behaviour false 5000 (fun _ => 400),
    Call.physics false [⟨860, 980, 1060, 1080⟩] 10000 0, Call.behaviour true 10000 (fun _ => 400)]

/-- A falling character at foot `(0, y)` with the fall speed at its cap, 25, and
everything else as before `wWinMain` runs, with no monitor. -/
def capFaller (y : Int) : Globals := { initialGlobals with posY := y, velY := 25 }

/-! ## Lemmas on the loops -/

theorem firstIndex_isSome (p : Nat → Bool) (count start : Nat) :
    (firstIndex p count start).isSome = true ↔ ∃ i, start ≤ i ∧ i < start + count ∧ p i = true := by
  induction count generalizing start with
  | zero =>
    simp only [firstIndex, Option.isSome_none, Bool.false_eq_true, false_iff]
    rintro ⟨i, h1, h2, _⟩
    omega
  | succ n ih =>
    unfold firstIndex
    cases hp : p start with
    | true =>
      simp only [if_true, Option.isSome_some, true_iff]
      exact ⟨start, le_refl _, by omega, hp⟩
    | false =>
      simp only [Bool.false_eq_true, if_false, ih]
      constructor
      · rintro ⟨i, h1, h2, h3⟩
        exact ⟨i, by omega, by omega, h3⟩
      · rintro ⟨i, h1, h2, h3⟩
        have : i ≠ start := by
          rintro rfl
          rw [hp] at h3
          exact Bool.false_ne_true h3
        exact ⟨i, by omega, by omega, h3⟩

theorem coversAt_iff (ws : List RECT) (x y : Int) (i : Nat) :
    coversAt ws x y i = true ↔ ∃ r, ws[i]? = some r ∧ Covers r x y := by
  unfold coversAt Covers
  cases h : ws[i]? with
  | none => simp
  | some r => simp

theorem IsPointObscured_nat (ws : List RECT) (x y : Int) (k : Nat) :
    IsPointObscured ws x y (k : Int) = true ↔ CoveredBefore ws k x y := by
  unfold IsPointObscured CoveredBefore
  have hne : ¬ ((k : Int) = -1) := by omega
  simp only [hne, if_false, Int.toNat_ofNat, firstIndex_isSome, coversAt_iff]
  constructor
  · rintro ⟨i, _, h2, r, h3, h4⟩
    exact ⟨i, r, by omega, h3, h4⟩
  · rintro ⟨j, r, h1, h2, h3⟩
    exact ⟨j, Nat.zero_le _, by omega, r, h2, h3⟩

theorem IsPointObscured_all (ws : List RECT) (x y : Int) :
    IsPointObscured ws x y (-1) = true ↔ CoveredBefore ws ws.length x y := by
  unfold IsPointObscured CoveredBefore
  simp only [if_true, Int.toNat_ofNat, firstIndex_isSome, coversAt_iff]
  constructor
  · rintro ⟨i, _, h2, r, h3, h4⟩
    exact ⟨i, r, by omega, h3, h4⟩
  · rintro ⟨j, r, h1, h2, h3⟩
    exact ⟨j, Nat.zero_le _, by omega, r, h2, h3⟩

theorem firstWindow_eq_none (p : Nat → RECT → Bool) (s : Nat) (l : List RECT) :
    firstWindow p s l = none ↔ ∀ (j : Nat) (r : RECT), l[j]? = some r → p (s + j) r = false := by
  induction l generalizing s with
  | nil => simp [firstWindow]
  | cons a rest ih =>
    unfold firstWindow
    cases hp : p s a with
    | true =>
      simp only [if_true]
      constructor
      · intro h
        exact absurd h (by simp)
      · intro h
        have := h 0 a (by simp)
        simp [hp] at this
    | false =>
      simp only [Bool.false_eq_true, if_false, ih]
      constructor
      · intro h j r hj
        cases j with
        | zero =>
          simp at hj
          subst hj
          simpa using hp
        | succ j =>
          have := h j r (by simpa using hj)
          rw [← this]
          congr 1
          omega
      · intro h j r hj
        have := h (j + 1) r (by simpa using hj)
        rw [← this]
        congr 1
        omega

theorem firstWindow_eq_some (p : Nat → RECT → Bool) (s : Nat) (l : List RECT) (i : Nat)
    (r : RECT) :
    firstWindow p s l = some (i, r) ↔
      ∃ j, i = s + j ∧ l[j]? = some r ∧ p i r = true ∧
        ∀ (j' : Nat) (r' : RECT), j' < j → l[j']? = some r' → p (s + j') r' = false := by
  induction l generalizing s with
  | nil => simp [firstWindow]
  | cons a rest ih =>
    unfold firstWindow
    cases hp : p s a with
    | true =>
      simp only [if_true, Option.some.injEq, Prod.mk.injEq]
      constructor
      · rintro ⟨rfl, rfl⟩
        exact ⟨0, by simp, by simp, hp, by intro j' r' h; omega⟩
      · rintro ⟨j, hi, hj, hpi, hall⟩
        cases j with
        | zero =>
          simp at hj
          exact ⟨by omega, hj⟩
        | succ j =>
          have := hall 0 a (by omega) (by simp)
          simp [hp] at this
    | false =>
      simp only [Bool.false_eq_true, if_false, ih]
      constructor
      · rintro ⟨j, hi, hj, hpi, hall⟩
        refine ⟨j + 1, by omega, by simpa using hj, hpi, ?_⟩
        intro j' r' hlt hj'
        cases j' with
        | zero =>
          simp at hj'
          subst hj'
          simpa using hp
        | succ j' =>
          have := hall j' r' (by omega) (by simpa using hj')
          rw [← this]
          congr 1
          omega
      · rintro ⟨j, hi, hj, hpi, hall⟩
        cases j with
        | zero =>
          simp at hj
          subst hj
          have : i = s := by omega
          subst this
          rw [hp] at hpi
          exact absurd hpi Bool.false_ne_true
        | succ j =>
          refine ⟨j, by omega, by simpa using hj, hpi, ?_⟩
          intro j' r' hlt hj'
          have := hall (j' + 1) r' (by omega) (by simpa using hj')
          rw [← this]
          congr 1
          omega

theorem firstWindow_frontMost (p : Nat → RECT → Bool) (Q : Nat → RECT → Prop) (ws : List RECT)
    (hQ : ∀ (i : Nat) (r : RECT), Q i r ↔ ws[i]? = some r ∧ p i r = true) (k : Nat) (r : RECT) :
    firstWindow p 0 ws = some (k, r) ↔ FrontMost Q k r := by
  rw [firstWindow_eq_some]
  unfold FrontMost
  constructor
  · rintro ⟨j, hk, hj, hp, hall⟩
    have hkj : k = j := by omega
    subst hkj
    refine ⟨(hQ k r).2 ⟨hj, hp⟩, ?_⟩
    intro j' r' hlt hq
    obtain ⟨h1, h2⟩ := (hQ j' r').1 hq
    have := hall j' r' hlt h1
    rw [Nat.zero_add, h2] at this
    exact Bool.noConfusion this
  · rintro ⟨hq, hall⟩
    obtain ⟨h1, h2⟩ := (hQ k r).1 hq
    refine ⟨k, by omega, h1, h2, ?_⟩
    intro j' r' hlt hj'
    rw [Nat.zero_add]
    by_contra hne
    have hp' : p j' r' = true := by simpa using hne
    exact hall j' r' hlt ((hQ j' r').2 ⟨hj', hp'⟩)

theorem firstWindow_none_iff (p : Nat → RECT → Bool) (Q : Nat → RECT → Prop) (ws : List RECT)
    (hQ : ∀ (i : Nat) (r : RECT), Q i r ↔ ws[i]? = some r ∧ p i r = true) :
    firstWindow p 0 ws = none ↔ ∀ (i : Nat) (r : RECT), ¬ Q i r := by
  rw [firstWindow_eq_none]
  constructor
  · intro h i r hq
    obtain ⟨h1, h2⟩ := (hQ i r).1 hq
    have := h i r h1
    rw [Nat.zero_add, h2] at this
    exact Bool.noConfusion this
  · intro h j r hj
    rw [Nat.zero_add]
    by_contra hne
    have hp' : p j r = true := by simpa using hne
    exact h j r ((hQ j r).2 ⟨hj, hp'⟩)

theorem landingTest_iff (ws : List RECT) (x y vy : Int) (i : Nat) (r : RECT) :
    LandingSpot ws x y vy i r ↔ ws[i]? = some r ∧ landingTest ws x y vy i r = true := by
  unfold LandingSpot landingTest
  simp only [Bool.and_eq_true, decide_eq_true_eq, Bool.not_eq_true', ← IsPointObscured_nat,
    Bool.not_eq_true, ge_iff_le]
  tauto

theorem elevatorTest_iff (ws : List RECT) (x y : Int) (i : Nat) (r : RECT) :
    SupportSpot ws x y i r ↔ ws[i]? = some r ∧ elevatorTest ws x y i r = true := by
  unfold SupportSpot elevatorTest
  simp only [Bool.and_eq_true, decide_eq_true_eq, Bool.not_eq_true', ← IsPointObscured_nat,
    Bool.not_eq_true, ge_iff_le]
  tauto

theorem UpdatePhysics_falling (ws : List RECT) (now rnd : Nat) (g : Globals)
    (hs : g.currentState = State.FALLING) :
    UpdatePhysics false ws now rnd g = fallingTick now { g with windowRects := ws } := by
  simp [UpdatePhysics, hs]

/-- The record after the integration step of the FALLING branch. -/
theorem fallingTick_eq (now : Nat) (g : Globals) :
    fallingTick now g =
      (let g3 : Globals :=
         { g with posY := wrapInt32 (g.posY + g.velY), velY := min (g.velY + 3) 25 }
       if 0 < g3.velY then
         match firstWindow (landingTest g.windowRects g.posX g3.posY g3.velY) 0 g.windowRects with
         | some (_, r) => ChangeState State.IDLE now { g3 with posY := r.top, velY := 0 }
         | none =>
           match g.monitors.find? (floorLandingTest g.posX g3.posY) with
           | some mon => ChangeState State.IDLE now { g3 with posY := mon.bottom, velY := 0 }
           | none => g3
       else g3) := by
  unfold fallingTick
  by_cases h : g.velY + 3 > 25
  · have hm : min (g.velY + 3) 25 = 25 := by omega
    simp [h, hm]
  · have hm : min (g.velY + 3) 25 = g.velY + 3 := by omega
    simp [h, hm]

/-- A sum that fits 32 bits is held exactly. -/
theorem wrapInt32_of_range (x : Int) (h1 : -2147483648 ≤ x) (h2 : x ≤ 2147483647) :
    wrapInt32 x = x := by
  unfold wrapInt32
  omega

/-- What an `int` holds is in the range of 32 bits. -/
theorem wrapInt32_range (x : Int) : -2147483648 ≤ wrapInt32 x ∧ wrapInt32 x ≤ 2147483647 := by
  unfold wrapInt32
  omega

/-- The globals after `n + 1` calls are the last call applied to the globals
after `n` calls. -/
theorem runPhysics_succ (n : Nat) : ∀ (inputs : Nat → TickInput) (g : Globals),
    runPhysics inputs (n + 1) g =
      UpdatePhysics false (inputs n).enumerated (inputs n).now (inputs n).rnd
        (runPhysics inputs n g) := by
  induction n with
  | zero =>
    intro inputs g
    rfl
  | succ n ih =>
    intro inputs g
    have h := ih (fun i => inputs (i + 1))
      (UpdatePhysics false (inputs 0).enumerated (inputs 0).now (inputs 0).rnd g)
    simp only [runPhysics] at h ⊢
    exact h

/-- A tick of the fall at the cap with no window and no monitor. -/
theorem capFaller_tick (y : Int) :
    UpdatePhysics false quietInput.enumerated quietInput.now quietInput.rnd (capFaller y) =
      capFaller (wrapInt32 (y + 25)) := by
  rw [UpdatePhysics_falling _ _ _ _ rfl, fallingTick_eq]
  rfl

/-- The fall from the initial globals with no monitor and no window: after nine
ticks the speed is at the cap and the foot at 108; every further tick adds 25,
as long as the foot fits an `int`. -/
theorem fall_run (m : Nat) (h : 108 + 25 * (m : Int) ≤ 2147483647) :
    runPhysics (fun _ => quietInput) (9 + m) initialGlobals =
      capFaller (108 + 25 * (m : Int)) := by
  induction m with
  | zero => decide
  | succ m ih =>
    have e : 9 + (m + 1) = (9 + m) + 1 := by omega
    have e2 : (108 : Int) + 25 * (m : Int) + 25 = 108 + 25 * ((m + 1 : Nat) : Int) := by omega
    rw [e, runPhysics_succ, ih (by push_cast at h; omega), capFaller_tick,
      wrapInt32_of_range _ (by omega) (by push_cast at h; omega), e2]

/-- The fall from the initial globals with no monitor and no window reaches the
foot 2147483633 at the speed 25 after 85899350 ticks. -/
theorem fall_run_last :
    runPhysics (fun _ => quietInput) 85899350 initialGlobals = capFaller 2147483633 := by
  have h := fall_run 85899341 (by norm_num)
  have e : (9 : Nat) + 85899341 = 85899350 := by norm_num
  rw [e] at h
  rw [h]
  norm_num

/-- One tick later the sum of foot and speed does not fit an `int`. -/
theorem fall_run_wrapped :
    runPhysics (fun _ => quietInput) 85899351 initialGlobals = capFaller (-2147483638) := by
  have e : (85899351 : Nat) = 85899350 + 1 := by norm_num
  rw [e, runPhysics_succ, fall_run_last, capFaller_tick]
  rfl

theorem UpdatePhysics_grounded (ws : List RECT) (now rnd : Nat) (g : Globals)
    (hs : Grounded g.currentState) :
    UpdatePhysics false ws now rnd g = groundedTick now rnd { g with windowRects := ws } := by
  unfold Grounded at hs
  rcases hs with h | h | h | h | h <;> simp [UpdatePhysics, h]

theorem elevatorCheck_of_frontMost (g : Globals) (k : Nat) (r : RECT)
    (h : FrontMost (SupportSpot g.windowRects g.posX g.posY) k r) :
    elevatorCheck g =
      { g := { g with posY := r.top }, supported := true, onFloor := false, myWindowIndex := k } := by
  unfold elevatorCheck
  rw [(firstWindow_frontMost _ _ g.windowRects (elevatorTest_iff g.windowRects _ _) k r).2 h]

theorem elevatorCheck_of_none (g : Globals)
    (h : ∀ (i : Nat) (r : RECT), ¬ SupportSpot g.windowRects g.posX g.posY i r) :
    elevatorCheck g = { g := g, supported := false, onFloor := false, myWindowIndex := -1 } := by
  unfold elevatorCheck
  rw [(firstWindow_none_iff _ _ g.windowRects (elevatorTest_iff g.windowRects _ _)).2 h]

theorem exists_frontMost_supportSpot (ws : List RECT) (x y : Int)
    (h : ∃ (i : Nat) (r : RECT), SupportSpot ws x y i r) :
    ∃ (k : Nat) (r : RECT), FrontMost (SupportSpot ws x y) k r := by
  cases hf : firstWindow (elevatorTest ws x y) 0 ws with
  | none =>
    obtain ⟨i, r, hir⟩ := h
    exact absurd hir ((firstWindow_none_iff _ _ ws (elevatorTest_iff ws _ _)).1 hf i r)
  | some kr =>
    obtain ⟨k, r⟩ := kr
    exact ⟨k, r, (firstWindow_frontMost _ _ ws (elevatorTest_iff ws _ _) k r).1 hf⟩

theorem floorTest_iff (x y : Int) (mon : RectArea) :
    floorTest x y mon = true ↔ FloorSpot x y mon := by
  unfold floorTest FloorSpot
  simp only [decide_eq_true_eq, ge_iff_le]

theorem find_floorTest_some (monitors : List RectArea) (x y : Int) (mon : RectArea) :
    monitors.find? (floorTest x y) = some mon ↔ FirstMonitor (FloorSpot x y) monitors mon := by
  rw [List.find?_eq_some]
  unfold FirstMonitor
  constructor
  · rintro ⟨h1, pre, post, h2, h3⟩
    refine ⟨pre, post, h2, (floorTest_iff x y mon).1 h1, ?_⟩
    intro m hm hq
    have := h3 m hm
    rw [(floorTest_iff x y m).2 hq] at this
    simp at this
  · rintro ⟨pre, post, h2, h1, h3⟩
    refine ⟨(floorTest_iff x y mon).2 h1, pre, post, h2, ?_⟩
    intro m hm
    have := h3 m hm
    rw [← floorTest_iff] at this
    simpa using this

theorem fallOrWalk_posY (now : Nat) (l : Ground) : (fallOrWalk now l).posY = l.g.posY := by
  unfold fallOrWalk ChangeState
  dsimp only
  split_ifs <;> rfl

theorem occlusionLogic_posY (now rnd : Nat) (l : Ground) :
    (occlusionLogic now rnd l).g.posY = l.g.posY := by
  unfold occlusionLogic ChangeState
  dsimp only
  split_ifs <;> rfl

theorem fallOrWalk_supported (now : Nat) (l : Ground) (h : l.supported = true) :
    (fallOrWalk now l).currentState ≠ State.FALLING ∨ l.g.currentState = State.FALLING := by
  unfold fallOrWalk ChangeState
  by_cases hf : l.g.currentState = State.FALLING
  · exact Or.inr hf
  · left
    simp only [h, Bool.not_true, Bool.false_eq_true, if_false]
    split_ifs <;> simp_all

theorem coveredBefore_congr (ws ws' : List RECT) (k i : Nat) (x y : Int)
    (h : ∀ j, j ≤ k → ws'[j]? = ws[j]?) (hi : i ≤ k + 1) :
    CoveredBefore ws' i x y ↔ CoveredBefore ws i x y := by
  unfold CoveredBefore
  constructor
  · rintro ⟨j, r, h1, h2, h3⟩
    exact ⟨j, r, h1, by rw [← h j (by omega)]; exact h2, h3⟩
  · rintro ⟨j, r, h1, h2, h3⟩
    exact ⟨j, r, h1, by rw [h j (by omega)]; exact h2, h3⟩

theorem supportSpot_congr (ws ws' : List RECT) (k i : Nat) (x y : Int) (r : RECT)
    (h : ∀ j, j ≤ k → ws'[j]? = ws[j]?) (hi : i ≤ k) :
    SupportSpot ws' x y i r ↔ SupportSpot ws x y i r := by
  unfold SupportSpot
  rw [h i hi, coveredBefore_congr ws ws' k i x r.top h (by omega)]

theorem frontMost_supportSpot_congr (ws ws' : List RECT) (k : Nat) (x y : Int) (r : RECT)
    (h : ∀ j, j ≤ k → ws'[j]? = ws[j]?) (hk : FrontMost (SupportSpot ws x y) k r) :
    FrontMost (SupportSpot ws' x y) k r := by
  obtain ⟨h1, h2⟩ := hk
  refine ⟨(supportSpot_congr ws ws' k k x y r h (le_refl _)).2 h1, ?_⟩
  intro j r' hj hq
  exact h2 j r' hj ((supportSpot_congr ws ws' k j x y r' h (by omega)).1 hq)

/-- The on-ground tick of a character that stands on the window `r` at index
`k` with a free head: nothing but the snap and the walking step happens. -/
theorem UpdatePhysics_free_head (ws : List RECT) (now rnd : Nat) (g : Globals) (k : Nat)
    (r : RECT) (hs : Grounded g.currentState)
    (hk : FrontMost (SupportSpot ws g.posX g.posY) k r)
    (hc : ¬ CoveredBefore ws k g.posX (r.top - 20)) :
    UpdatePhysics false ws now rnd g =
      fallOrWalk now
        { g := { g with windowRects := ws, posY := r.top }, supported := true, onFloor := false,
          myWindowIndex := k } := by
  have hob : IsPointObscured ws g.posX (r.top - 20) (k : Int) = false := by
    rw [← Bool.not_eq_true, IsPointObscured_nat]
    exact hc
  rw [UpdatePhysics_grounded ws now rnd g hs]
  unfold groundedTick
  rw [elevatorCheck_of_frontMost { g with windowRects := ws } k r hk]
  simp [floorCheck, occlusionLogic, hob]

/-- C1: for a cutoff `c` that is `-1` or between 0 and the length of the list,
`IsPointObscured(x, y, c)` is true exactly when some rectangle at an index below
the limit (the length for `c = -1`, `c` otherwise) contains the point, all four
edges inclusive. -/
theorem IsPointObscured_spec (ws : List RECT) (x y : Int) (c : Int)
    (hc : c = -1 ∨ (0 ≤ c ∧ c ≤ (ws.length : Int))) :
    IsPointObscured ws x y c = true ↔
      ∃ (i : Nat) (r : RECT), (i : Int) < (if c = -1 then (ws.length : Int) else c) ∧ ws[i]? = some r ∧
        r.left ≤ x ∧ x ≤ r.right ∧ r.top ≤ y ∧ y ≤ r.bottom := by
  rcases hc with rfl | ⟨h0, h1⟩
  · rw [IsPointObscured_all]
    simp only [if_true, CoveredBefore, Covers, Nat.cast_lt]
  · obtain ⟨k, rfl⟩ := Int.eq_ofNat_of_zero_le h0
    have hne : ¬ ((k : Int) = -1) := by omega
    rw [IsPointObscured_nat ws x y k]
    simp only [hne, if_false, CoveredBefore, Covers, Nat.cast_lt]


/-- Witness of C1: the full scan of `shelfWindows` at the point `(50, 80)`. -/
theorem IsPointObscured_spec_witness :
    ((-1 : Int) = -1 ∨ (0 ≤ (-1 : Int) ∧ (-1 : Int) ≤ (shelfWindows.length : Int))) ∧
      (IsPointObscured shelfWindows 50 80 (-1) = true ↔
        ∃ (i : Nat) (r : RECT),
          (i : Int) < (if (-1 : Int) = -1 then (shelfWindows.length : Int) else -1) ∧
            shelfWindows[i]? = some r ∧ r.left ≤ 50 ∧ 50 ≤ r.right ∧ r.top ≤ 80 ∧ 80 ≤ r.bottom) :=
  ⟨Or.inl rfl, IsPointObscured_spec shelfWindows 50 80 (-1) (Or.inl rfl)⟩

/-- C2 as stated fails: `edgeFaller` is inside the span of the window (0 ≤ 5 ≤
300), the top 505 lies in the landing band after the integration (505 ≤ 510 ≤
505 + 13 + 15) and nothing is nearer, yet the tick ends FALLING at foot 510 with
speed 13, because the code asks for `left + 10 ≤ x ≤ right - 10`.  And
`risingFaller`, 10 and more inside the span, has the top in its landing band
(505 ≤ 507 ≤ 505 - 7 + 15), yet its tick ends FALLING at foot 507 with speed -7,
because the code looks for a landing only when the new speed is positive. -/
theorem UpdatePhysics_falling_span_counterexample :
    edgeFaller.currentState = State.FALLING ∧
      catchWindows[0]? = some ⟨0, 505, 300, 800⟩ ∧
      (0 : Int) ≤ edgeFaller.posX ∧ edgeFaller.posX ≤ 300 ∧
      (505 : Int) ≤ edgeFaller.posY + edgeFaller.velY ∧
      edgeFaller.posY + edgeFaller.velY ≤ 505 + min (edgeFaller.velY + 3) 25 + 15 ∧
      ¬ CoveredBefore catchWindows 0 edgeFaller.posX 505 ∧
      (UpdatePhysics false catchWindows 0 0 edgeFaller).posY = 510 ∧
      (UpdatePhysics false catchWindows 0 0 edgeFaller).velY = 13 ∧
      (UpdatePhysics false catchWindows 0 0 edgeFaller).currentState = State.FALLING ∧
      risingFaller.currentState = State.FALLING ∧
      (0 : Int) + 10 ≤ risingFaller.posX ∧ risingFaller.posX ≤ 300 - 10 ∧
      (505 : Int) ≤ risingFaller.posY + risingFaller.velY ∧
      risingFaller.posY + risingFaller.velY ≤ 505 + min (risingFaller.velY + 3) 25 + 15 ∧
      ¬ CoveredBefore catchWindows 0 risingFaller.posX 505 ∧
      (UpdatePhysics false catchWindows 0 0 risingFaller).posY = 507 ∧
      (UpdatePhysics false catchWindows 0 0 risingFaller).velY = -7 ∧
      (UpdatePhysics false catchWindows 0 0 risingFaller).currentState = State.FALLING := by
  have hfree : ∀ x : Int, ¬ CoveredBefore catchWindows 0 x 505 := by
    rintro x ⟨j, r, hj, _⟩
    omega
  exact ⟨rfl, rfl, by decide, by decide, by decide, by decide, hfree _, by decide, by decide,
    by decide, rfl, by decide, by decide, by decide, by decide, hfree _, by decide, by decide,
    by decide⟩

/-- C2, amended: for a FALLING character whose speed after the integration
(`min (vy + 3) 25`) is positive, with `y'` the foot after the integration (the
32 bit sum of y and vy, `y + vy` when it fits), if some window is a landing spot
(span inset by 10 covers x, top in the band `top ≤ y' ≤ top + min (vy + 3) 25 +
15`, landing point not covered by a strictly nearer rectangle), the tick ends
with foot y equal to the top of the front-most such window, vy = 0 and state
IDLE. -/
theorem UpdatePhysics_falling_lands (ws : List RECT) (now rnd : Nat) (g : Globals)
    (hs : g.currentState = State.FALLING) (hv : 0 < min (g.velY + 3) 25)
    (hq : ∃ (i : Nat) (r : RECT),
      LandingSpot ws g.posX (wrapInt32 (g.posY + g.velY)) (min (g.velY + 3) 25) i r) :
    ∃ (k : Nat) (r : RECT),
      FrontMost
          (LandingSpot ws g.posX (wrapInt32 (g.posY + g.velY)) (min (g.velY + 3) 25)) k r ∧
        (UpdatePhysics false ws now rnd g).posY = r.top ∧
        (UpdatePhysics false ws now rnd g).velY = 0 ∧
        (UpdatePhysics false ws now rnd g).currentState = State.IDLE := by
  rw [UpdatePhysics_falling ws now rnd g hs, fallingTick_eq]
  simp only [hv, if_true]
  cases hf : firstWindow
      (landingTest ws g.posX (wrapInt32 (g.posY + g.velY)) (min (g.velY + 3) 25)) 0 ws with
  | none =>
    obtain ⟨i, r, hir⟩ := hq
    exact absurd hir ((firstWindow_none_iff _ _ ws (landingTest_iff ws _ _ _)).1 hf i r)
  | some kr =>
    obtain ⟨k, r⟩ := kr
    refine ⟨k, r, (firstWindow_frontMost _ _ ws (landingTest_iff ws _ _ _) k r).1 hf, ?_⟩
    simp [ChangeState, hs]


/-- Witness of C2: the elevator catch, foot 500, speed 10, window top 505. -/
theorem UpdatePhysics_falling_lands_witness :
    catchFaller.currentState = State.FALLING ∧
      (0 : Int) < min (catchFaller.velY + 3) 25 ∧
      wrapInt32 (catchFaller.posY + catchFaller.velY) = 510 ∧
      (∃ (k : Nat) (r : RECT),
        FrontMost (LandingSpot catchWindows catchFaller.posX
          (wrapInt32 (catchFaller.posY + catchFaller.velY)) (min (catchFaller.velY + 3) 25)) k r ∧
        (UpdatePhysics false catchWindows 0 0 catchFaller).posY = r.top ∧
        (UpdatePhysics false catchWindows 0 0 catchFaller).velY = 0 ∧
        (UpdatePhysics false catchWindows 0 0 catchFaller).currentState = State.IDLE) ∧
      (UpdatePhysics false catchWindows 0 0 catchFaller).posY = 505 :=
  ⟨rfl, by decide, by decide,
    UpdatePhysics_falling_lands catchWindows 0 0 catchFaller rfl (by decide)
      ⟨0, ⟨0, 505, 300, 800⟩,
        (landingTest_iff catchWindows _ _ _ 0 _).2 ⟨rfl, by decide⟩⟩,
    by decide⟩

/-- C3: in a grounded state, if some window is a support spot (span covers x,
foot in the band `top - 5 ≤ y ≤ top + 15`, point `(x, top)` not covered by a
rectangle of lower index), then after `UpdatePhysics` the foot y is the top of
the support spot of lowest index. -/
theorem UpdatePhysics_grounded_snaps (ws : List RECT) (now rnd : Nat) (g : Globals)
    (hs : Grounded g.currentState)
    (hq : ∃ (i : Nat) (r : RECT), SupportSpot ws g.posX g.posY i r) :
    ∃ (k : Nat) (r : RECT), FrontMost (SupportSpot ws g.posX g.posY) k r ∧
      (UpdatePhysics false ws now rnd g).posY = r.top := by
  obtain ⟨k, r, hk⟩ := exists_frontMost_supportSpot ws g.posX g.posY hq
  refine ⟨k, r, hk, ?_⟩
  rw [UpdatePhysics_grounded ws now rnd g hs]
  unfold groundedTick
  rw [fallOrWalk_posY, occlusionLogic_posY,
    elevatorCheck_of_frontMost { g with windowRects := ws } k r hk]
  simp [floorCheck]

/-- Witness of C3: `standing IDLE` on the second window of `shelfWindows`. -/
theorem UpdatePhysics_grounded_snaps_witness :
    Grounded (standing State.IDLE).currentState ∧
      (∃ (k : Nat) (r : RECT),
        FrontMost (SupportSpot shelfWindows (standing State.IDLE).posX
          (standing State.IDLE).posY) k r ∧
        (UpdatePhysics false shelfWindows 0 0 (standing State.IDLE)).posY = r.top) :=
  ⟨Or.inl rfl,
    UpdatePhysics_grounded_snaps shelfWindows 0 0 (standing State.IDLE) (Or.inl rfl)
      ⟨1, ⟨0, 100, 200, 300⟩, (elevatorTest_iff shelfWindows _ _ 1 _).2 ⟨rfl, by decide⟩⟩⟩

/-- C4: for a character that the support scan places on the window `r` at
z-rank `k`, if a rectangle of z-rank below `k` contains the head point
`(x, r.top - 20)`, then (a) from SLEEPING or WATCHING_MOVIE the tick ends IDLE,
not FALLING, with x moved by exactly +10 or -10, and (b) from IDLE, WALKING or
SITTING the tick ends FALLING. -/
theorem UpdatePhysics_head_covered (ws : List RECT) (now rnd : Nat) (g : Globals) (k : Nat)
    (r : RECT) (hk : FrontMost (SupportSpot ws g.posX g.posY) k r)
    (hc : CoveredBefore ws k g.posX (r.top - 20)) :
    ((g.currentState = State.SLEEPING ∨ g.currentState = State.WATCHING_MOVIE) →
        (UpdatePhysics false ws now rnd g).currentState = State.IDLE ∧
        ((UpdatePhysics false ws now rnd g).posX = g.posX + 10 ∨
          (UpdatePhysics false ws now rnd g).posX = g.posX - 10) ∧
        (UpdatePhysics false ws now rnd g).currentState ≠ State.FALLING) ∧
      ((g.currentState = State.IDLE ∨ g.currentState = State.WALKING ∨
          g.currentState = State.SITTING) →
        (UpdatePhysics false ws now rnd g).currentState = State.FALLING) := by
  have hob : IsPointObscured ws g.posX (r.top - 20) (k : Int) = true :=
    (IsPointObscured_nat ws _ _ k).2 hc
  constructor
  · intro hs
    have hg : Grounded g.currentState := by
      unfold Grounded
      tauto
    rw [UpdatePhysics_grounded ws now rnd g hg]
    unfold groundedTick
    rw [elevatorCheck_of_frontMost { g with windowRects := ws } k r hk]
    by_cases hr : rnd % 2 = 0
    · rcases hs with h | h <;>
        simp [floorCheck, occlusionLogic, hob, h, hr, fallOrWalk, ChangeState]
    · rcases hs with h | h <;>
        simp [floorCheck, occlusionLogic, hob, h, hr, fallOrWalk, ChangeState]
  · intro hs
    have hg : Grounded g.currentState := by
      unfold Grounded
      tauto
    rw [UpdatePhysics_grounded ws now rnd g hg]
    unfold groundedTick
    rw [elevatorCheck_of_frontMost { g with windowRects := ws } k r hk]
    rcases hs with h | h | h <;>
      simp [floorCheck, occlusionLogic, hob, h, fallOrWalk, ChangeState]


/-- Witness of C4: a sleeper on the second window of `shelfWindows`, whose head
point `(50, 80)` lies in the first window. -/
theorem UpdatePhysics_head_covered_witness :
    FrontMost (SupportSpot shelfWindows (standing State.SLEEPING).posX
        (standing State.SLEEPING).posY) 1 ⟨0, 100, 200, 300⟩ ∧
      CoveredBefore shelfWindows 1 (standing State.SLEEPING).posX (100 - 20) ∧
      (UpdatePhysics false shelfWindows 0 0 (standing State.SLEEPING)).currentState =
        State.IDLE ∧
      (UpdatePhysics false shelfWindows 0 0 (standing State.IDLE)).currentState =
        State.FALLING :=
  have hk : FrontMost (SupportSpot shelfWindows 50 100) 1 ⟨0, 100, 200, 300⟩ :=
    (firstWindow_frontMost _ _ shelfWindows (elevatorTest_iff shelfWindows _ _) 1 _).1
      (by decide)
  have hc : CoveredBefore shelfWindows 1 50 (100 - 20) :=
    ⟨0, ⟨0, 70, 200, 90⟩, by decide, rfl, by decide, by decide, by decide, by decide⟩
  ⟨hk, hc,
    ((UpdatePhysics_head_covered shelfWindows 0 0 (standing State.SLEEPING) 1 _ hk hc).1
      (Or.inl rfl)).1,
    (UpdatePhysics_head_covered shelfWindows 0 0 (standing State.IDLE) 1 _ hk hc).2
      (Or.inl rfl)⟩

/-- C5: for a grounded character that the support scan places on the window `r`
at z-rank `k`, if no rectangle of z-rank below `k` contains the head point
`(x, r.top - 20)`, the tick does not end FALLING, x is unchanged or moved by the
walking step of 4 (never by the startle nudge of 10), and the result is the same
for every window list that agrees with this one up to index `k` (the stored list
apart) and for every value of `rand()`. -/
theorem UpdatePhysics_head_free (ws : List RECT) (now rnd : Nat) (g : Globals) (k : Nat)
    (r : RECT) (hs : Grounded g.currentState)
    (hk : FrontMost (SupportSpot ws g.posX g.posY) k r)
    (hc : ¬ CoveredBefore ws k g.posX (r.top - 20)) :
    (UpdatePhysics false ws now rnd g).currentState ≠ State.FALLING ∧
      ((UpdatePhysics false ws now rnd g).posX = g.posX ∨
        (g.currentState = State.WALKING ∧
          ((UpdatePhysics false ws now rnd g).posX = g.posX + 4 ∨
            (UpdatePhysics false ws now rnd g).posX = g.posX - 4))) ∧
      ∀ (ws' : List RECT) (rnd' : Nat), (∀ j, j ≤ k → ws'[j]? = ws[j]?) →
        { UpdatePhysics false ws' now rnd' g with windowRects := ws } =
          UpdatePhysics false ws now rnd g := by
  have hnf : g.currentState ≠ State.FALLING := by
    unfold Grounded at hs
    rcases hs with h | h | h | h | h <;> simp [h]
  refine ⟨?_, ?_, ?_⟩
  · rw [UpdatePhysics_free_head ws now rnd g k r hs hk hc]
    unfold fallOrWalk ChangeState
    dsimp only
    split_ifs <;> simp_all
  · rw [UpdatePhysics_free_head ws now rnd g k r hs hk hc]
    unfold fallOrWalk ChangeState
    dsimp only
    split_ifs <;> simp_all
  · intro ws' rnd' hpre
    have hk' := frontMost_supportSpot_congr ws ws' k g.posX g.posY r hpre hk
    have hc' : ¬ CoveredBefore ws' k g.posX (r.top - 20) := by
      rw [coveredBefore_congr ws ws' k k g.posX (r.top - 20) hpre (by omega)]
      exact hc
    rw [UpdatePhysics_free_head ws now rnd g k r hs hk hc,
      UpdatePhysics_free_head ws' now rnd' g k r hs hk' hc']
    unfold fallOrWalk ChangeState
    dsimp only
    split_ifs <;> rfl


/-- Witness of C5: `standing WALKING` on the front window of `stackedWindows`,
the window behind containing the head point. -/
theorem UpdatePhysics_head_free_witness :
    Grounded (standing State.WALKING).currentState ∧
      FrontMost (SupportSpot stackedWindows (standing State.WALKING).posX
        (standing State.WALKING).posY) 0 ⟨0, 100, 200, 300⟩ ∧
      ¬ CoveredBefore stackedWindows 0 (standing State.WALKING).posX (100 - 20) ∧
      (UpdatePhysics false stackedWindows 0 0 (standing State.WALKING)).currentState ≠
        State.FALLING :=
  have hk : FrontMost (SupportSpot stackedWindows (standing State.WALKING).posX
      (standing State.WALKING).posY) 0 ⟨0, 100, 200, 300⟩ :=
    (firstWindow_frontMost _ _ stackedWindows (elevatorTest_iff stackedWindows _ _) 0 _).1
      (by decide)
  have hc : ¬ CoveredBefore stackedWindows 0 (standing State.WALKING).posX (100 - 20) :=
    fun ⟨_, _, hj, _⟩ => absurd hj (Nat.not_lt_zero _)
  ⟨Or.inr (Or.inl rfl), hk, hc,
    (UpdatePhysics_head_free stackedWindows 0 0 (standing State.WALKING) 0 _
      (Or.inr (Or.inl rfl)) hk hc).1⟩

/-- C6: in a grounded state, if no window is a support spot and some monitor is
a floor spot (span covers x, `|y - bottom| < 10`), then after `UpdatePhysics`
the state is not FALLING, whatever the windows cover, and the foot y is the bottom
of the first such monitor. -/
theorem UpdatePhysics_floor_safe (ws : List RECT) (now rnd : Nat) (g : Globals)
    (hs : Grounded g.currentState)
    (hn : ∀ (i : Nat) (r : RECT), ¬ SupportSpot ws g.posX g.posY i r)
    (hm : ∃ mon ∈ g.monitors, FloorSpot g.posX g.posY mon) :
    (UpdatePhysics false ws now rnd g).currentState ≠ State.FALLING ∧
      ∃ mon, FirstMonitor (FloorSpot g.posX g.posY) g.monitors mon ∧
        (UpdatePhysics false ws now rnd g).posY = mon.bottom := by
  have hnf : g.currentState ≠ State.FALLING := by
    unfold Grounded at hs
    rcases hs with h | h | h | h | h <;> simp [h]
  rw [UpdatePhysics_grounded ws now rnd g hs]
  unfold groundedTick
  rw [elevatorCheck_of_none { g with windowRects := ws } hn]
  cases hf : g.monitors.find? (floorTest g.posX g.posY) with
  | none =>
    obtain ⟨mon, hmem, hfl⟩ := hm
    have := List.find?_eq_none.1 hf mon hmem
    exact absurd ((floorTest_iff _ _ mon).2 hfl) this
  | some mon =>
    have hfirst := (find_floorTest_some g.monitors g.posX g.posY mon).1 hf
    constructor
    · have hsup : (occlusionLogic now rnd (floorCheck
          { g := { g with windowRects := ws }, supported := false, onFloor := false,
            myWindowIndex := -1 })).supported = true := by
        simp only [floorCheck, hf, occlusionLogic, Bool.not_false, if_true]
        split_ifs <;> simp_all
      have hst : (occlusionLogic now rnd (floorCheck
          { g := { g with windowRects := ws }, supported := false, onFloor := false,
            myWindowIndex := -1 })).g.currentState ≠ State.FALLING := by
        simp only [floorCheck, hf, occlusionLogic, Bool.not_false, if_true, ChangeState]
        split_ifs <;> simp_all
      rcases fallOrWalk_supported now _ hsup with h | h
      · exact h
      · exact absurd h hst
    · refine ⟨mon, hfirst, ?_⟩
      rw [fallOrWalk_posY, occlusionLogic_posY]
      simp [floorCheck, hf]

/-- Witness of C6: `floorSleeper` under `floorWindows`, which cover its head. -/
theorem UpdatePhysics_floor_safe_witness :
    Grounded floorSleeper.currentState ∧
      (∀ (i : Nat) (r : RECT), ¬ SupportSpot floorWindows floorSleeper.posX floorSleeper.posY i r) ∧
      (∃ mon ∈ floorSleeper.monitors, FloorSpot floorSleeper.posX floorSleeper.posY mon) ∧
      (UpdatePhysics false floorWindows 0 0 floorSleeper).currentState ≠ State.FALLING :=
  have hn : ∀ (i : Nat) (r : RECT),
      ¬ SupportSpot floorWindows floorSleeper.posX floorSleeper.posY i r :=
    (firstWindow_none_iff _ _ floorWindows (elevatorTest_iff floorWindows _ _)).1 (by decide)
  have hm : ∃ mon ∈ floorSleeper.monitors, FloorSpot floorSleeper.posX floorSleeper.posY mon :=
    ⟨⟨0, 0, 1920, 1000⟩, List.mem_singleton.2 rfl, by decide, by decide, by decide⟩
  ⟨Or.inr (Or.inr (Or.inr (Or.inl rfl))), hn, hm,
    (UpdatePhysics_floor_safe floorWindows 0 0 floorSleeper
      (Or.inr (Or.inr (Or.inr (Or.inl rfl)))) hn hm).1⟩

/-- C7 as stated fails for the foot.  The fall from the initial globals with no
monitor and no window reaches, after 85899350 ticks, the foot 2147483633 at the
cap `vy = 25` (`capFaller 2147483633`).  The next tick does not land and the
speed stays 25, but `posY += velY` is a sum of two `int`: its exact result
2147483658 does not fit 32 bits, and the foot after the tick is -2147483638, not
the foot before plus 25. -/
theorem UpdatePhysics_falling_foot_counterexample :
    runPhysics (fun _ => quietInput) 85899350 initialGlobals = capFaller 2147483633 ∧
      (capFaller 2147483633).currentState = State.FALLING ∧
      (0 : Int) ≤ (capFaller 2147483633).velY ∧ (capFaller 2147483633).velY ≤ 25 ∧
      (UpdatePhysics false [] 0 0 (capFaller 2147483633)).currentState = State.FALLING ∧
      (UpdatePhysics false [] 0 0 (capFaller 2147483633)).velY = 25 ∧
      (UpdatePhysics false [] 0 0 (capFaller 2147483633)).posY = -2147483638 ∧
      (UpdatePhysics false [] 0 0 (capFaller 2147483633)).posY ≠
        (capFaller 2147483633).posY + (capFaller 2147483633).velY :=
  ⟨fall_run_last, by decide, by decide, by decide, by decide, by decide, by decide, by decide⟩

/-- C7, amended: in a FALLING tick that does not land (the state is still
FALLING), with incoming `0 ≤ vy ≤ 25`, the new vy is `min (vy + 3) 25`, vy grows
strictly below the cap, stays at the cap and never exceeds it; the foot after the
tick is the 32 bit sum of y and vy, and the foot y advances by exactly the
incoming vy when that sum fits an `int` (`y + vy ≤ 2147483647`, for a foot
`y ≥ -2147483648`). -/
theorem UpdatePhysics_falling_gravity (ws : List RECT) (now rnd : Nat) (g : Globals)
    (hs : g.currentState = State.FALLING) (h0 : 0 ≤ g.velY) (h25 : g.velY ≤ 25)
    (hno : (UpdatePhysics false ws now rnd g).currentState = State.FALLING) :
    (UpdatePhysics false ws now rnd g).velY = min (g.velY + 3) 25 ∧
      (UpdatePhysics false ws now rnd g).posY = wrapInt32 (g.posY + g.velY) ∧
      (-2147483648 ≤ g.posY → g.posY + g.velY ≤ 2147483647 →
        (UpdatePhysics false ws now rnd g).posY = g.posY + g.velY) ∧
      (g.velY < 25 → g.velY < (UpdatePhysics false ws now rnd g).velY) ∧
      (g.velY = 25 → (UpdatePhysics false ws now rnd g).velY = 25) ∧
      (UpdatePhysics false ws now rnd g).velY ≤ 25 := by
  rw [UpdatePhysics_falling ws now rnd g hs, fallingTick_eq] at hno ⊢
  obtain ⟨m, hm, hm3, hm25, hmlt, hmeq⟩ : ∃ m : Int, min (g.velY + 3) 25 = m ∧ 0 < m ∧ m ≤ 25 ∧
      (g.velY < 25 → g.velY < m) ∧ (g.velY = 25 → m = 25) := by
    rcases le_total (g.velY + 3) 25 with h | h
    · exact ⟨g.velY + 3, min_eq_left h, by omega, by omega, by omega⟩
    · exact ⟨25, min_eq_right h, by omega, by omega, by omega⟩
  rw [hm] at hno ⊢
  simp only [hm3, if_true] at hno ⊢
  cases hf : firstWindow (landingTest ws g.posX (wrapInt32 (g.posY + g.velY)) m) 0 ws with
  | some kr =>
    rw [hf] at hno
    simp [ChangeState, hs] at hno
  | none =>
    rw [hf] at hno
    simp only at hno ⊢
    cases hmon : g.monitors.find? (floorLandingTest g.posX (wrapInt32 (g.posY + g.velY))) with
    | some mon =>
      rw [hmon] at hno
      simp [ChangeState, hs] at hno
    | none =>
      exact ⟨rfl, rfl, fun h1 h2 => wrapInt32_of_range _ (by omega) h2, hmlt, hmeq, hm25⟩


/-- Witness of C7: `catchFaller` with no window and no monitor. -/
theorem UpdatePhysics_falling_gravity_witness :
    catchFaller.currentState = State.FALLING ∧ (0 : Int) ≤ catchFaller.velY ∧
      catchFaller.velY ≤ 25 ∧
      (UpdatePhysics false [] 0 0 catchFaller).currentState = State.FALLING ∧
      (-2147483648 : Int) ≤ catchFaller.posY ∧
      catchFaller.posY + catchFaller.velY ≤ 2147483647 ∧
      (UpdatePhysics false [] 0 0 catchFaller).velY = min (catchFaller.velY + 3) 25 ∧
      (UpdatePhysics false [] 0 0 catchFaller).posY = catchFaller.posY + catchFaller.velY :=
  have h := UpdatePhysics_falling_gravity [] 0 0 catchFaller rfl (by decide) (by decide)
    (by decide)
  ⟨rfl, by decide, by decide, by decide, by decide, by decide, h.1,
    h.2.2.1 (by decide) (by decide)⟩

/-! ## Rounding to the nearest integer -/

theorem floor_le_roundHalfEven (q : ℚ) : ⌊q⌋ ≤ roundHalfEven q := by
  unfold roundHalfEven
  dsimp only
  split_ifs <;> omega

theorem roundHalfEven_le_floor_add_one (q : ℚ) : roundHalfEven q ≤ ⌊q⌋ + 1 := by
  unfold roundHalfEven
  dsimp only
  split_ifs <;> omega

theorem roundHalfEven_intCast (m : ℤ) : roundHalfEven (m : ℚ) = m := by
  unfold roundHalfEven
  simp

theorem le_roundHalfEven (q : ℚ) (m : ℤ) (h : (m : ℚ) ≤ q) : m ≤ roundHalfEven q :=
  le_trans (Int.le_floor.2 h) (floor_le_roundHalfEven q)

theorem roundHalfEven_le (q : ℚ) (m : ℤ) (h : q ≤ (m : ℚ)) : roundHalfEven q ≤ m := by
  by_cases hq : q = (⌊q⌋ : ℚ)
  · rw [hq, roundHalfEven_intCast]
    exact Int.floor_le_iff.2 (by linarith [Int.floor_le q, h])
  · have h1 : (⌊q⌋ : ℚ) < q := lt_of_le_of_ne (Int.floor_le q) (Ne.symm hq)
    have h2 : ⌊q⌋ < m := by
      have : (⌊q⌋ : ℚ) < (m : ℚ) := lt_of_lt_of_le h1 h
      exact_mod_cast this
    have := roundHalfEven_le_floor_add_one q
    omega

theorem roundHalfEven_eq (q : ℚ) (m : ℤ) (h1 : (m : ℚ) - 1 / 2 < q) (h2 : q < (m : ℚ) + 1 / 2) :
    roundHalfEven q = m := by
  unfold roundHalfEven
  dsimp only
  have hf1 : (⌊q⌋ : ℚ) ≤ q := Int.floor_le q
  have hf2 : q < (⌊q⌋ : ℚ) + 1 := Int.lt_floor_add_one q
  have hm : ⌊q⌋ = m ∨ ⌊q⌋ = m - 1 := by
    have a : (⌊q⌋ : ℚ) < (m : ℚ) + 1 := by linarith
    have b : (m : ℚ) - 2 < (⌊q⌋ : ℚ) := by linarith
    have a' : ⌊q⌋ < m + 1 := by exact_mod_cast a
    have b' : m - 2 < ⌊q⌋ := by exact_mod_cast b
    omega
  rcases hm with hm | hm
  · have : q - (⌊q⌋ : ℚ) < 1 / 2 := by rw [hm]; linarith
    rw [if_pos this, hm]
  · have hc : (⌊q⌋ : ℚ) = (m : ℚ) - 1 := by rw [hm]; push_cast; ring
    have h3 : ¬ (q - (⌊q⌋ : ℚ) < 1 / 2) := by rw [hc]; linarith
    have h4 : 1 / 2 < q - (⌊q⌋ : ℚ) := by rw [hc]; linarith
    rw [if_neg h3, if_pos h4, hm]
    ring

theorem roundHalfEven_neg (q : ℚ) : roundHalfEven (-q) = -roundHalfEven q := by
  by_cases hq : q = (⌊q⌋ : ℚ)
  · rw [hq, ← Int.cast_neg, roundHalfEven_intCast, roundHalfEven_intCast]
  · have h1 : (⌊q⌋ : ℚ) < q := lt_of_le_of_ne (Int.floor_le q) (Ne.symm hq)
    have h2 : q < (⌊q⌋ : ℚ) + 1 := Int.lt_floor_add_one q
    have hfn : ⌊-q⌋ = -⌊q⌋ - 1 := by
      rw [Int.floor_eq_iff]
      push_cast
      constructor <;> linarith
    unfold roundHalfEven
    dsimp only
    rw [hfn]
    push_cast
    by_cases ha : q - (⌊q⌋ : ℚ) < 1 / 2
    · have hb : ¬ (-q - (-(⌊q⌋ : ℚ) - 1) < 1 / 2) := by linarith
      have hc : 1 / 2 < -q - (-(⌊q⌋ : ℚ) - 1) := by linarith
      rw [if_pos ha, if_neg hb, if_pos hc]
      ring
    · by_cases hb : 1 / 2 < q - (⌊q⌋ : ℚ)
      · have hc : -q - (-(⌊q⌋ : ℚ) - 1) < 1 / 2 := by linarith
        rw [if_neg ha, if_pos hb, if_pos hc]
        ring
      · have hc : ¬ (-q - (-(⌊q⌋ : ℚ) - 1) < 1 / 2) := by linarith
        have hd : ¬ (1 / 2 < -q - (-(⌊q⌋ : ℚ) - 1)) := by linarith
        rw [if_neg ha, if_neg hb, if_neg hc, if_neg hd]
        split_ifs <;> omega


/-! ## Rounding to `p` significant bits -/

theorem log_two_eq (x : ℚ) (e : ℤ) (h1 : (2 : ℚ) ^ e ≤ x) (h2 : x < (2 : ℚ) ^ (e + 1)) :
    Int.log 2 x = e := by
  have hx : 0 < x := lt_of_lt_of_le (zpow_pos (by norm_num) e) h1
  have a : e ≤ Int.log 2 x := by
    rw [← Int.zpow_le_iff_le_log (by norm_num) hx]
    simpa using h1
  have b : Int.log 2 x < e + 1 := by
    rw [← Int.lt_zpow_iff_log_lt (by norm_num) hx]
    simpa using h2
  omega

theorem roundFloat_eval (p : ℕ) (x : ℚ) (e : ℤ) (h1 : (2 : ℚ) ^ e ≤ |x|)
    (h2 : |x| < (2 : ℚ) ^ (e + 1)) :
    roundFloat p x = roundHalfEven (x / 2 ^ (e - (p : ℤ) + 1)) * 2 ^ (e - (p : ℤ) + 1) := by
  unfold roundFloat
  rw [log_two_eq |x| e h1 h2]

theorem roundFloat_pos_spec (p : ℕ) (x : ℚ) (hx : 0 < x) :
    ∃ e : ℤ, (2 : ℚ) ^ e ≤ x ∧ x < (2 : ℚ) ^ (e + 1) ∧
      roundFloat p x = roundHalfEven (x / 2 ^ (e - (p : ℤ) + 1)) * 2 ^ (e - (p : ℤ) + 1) := by
  refine ⟨Int.log 2 x, ?_, ?_, ?_⟩
  · simpa using Int.zpow_log_le_self (b := 2) (by norm_num) hx
  · simpa using Int.lt_zpow_succ_log_self (b := 2) (by norm_num) x
  · unfold roundFloat
    rw [abs_of_pos hx]

theorem roundFloat_zero (p : ℕ) : roundFloat p 0 = 0 := by
  unfold roundFloat
  simp [roundHalfEven]

theorem roundFloat_neg (p : ℕ) (x : ℚ) : roundFloat p (-x) = -roundFloat p x := by
  unfold roundFloat
  simp only [abs_neg, neg_div, roundHalfEven_neg]
  push_cast
  ring

theorem roundFloat_lower (p : ℕ) (x : ℚ) (hx : 0 < x) :
    x * (1 - 2 ^ (1 - (p : ℤ))) ≤ roundFloat p x := by
  obtain ⟨e, h1, _, h3⟩ := roundFloat_pos_spec p x hx
  rw [h3]
  have hu : (0 : ℚ) < 2 ^ (e - (p : ℤ) + 1) := zpow_pos (by norm_num) _
  have hsplit : (2 : ℚ) ^ (e - (p : ℤ) + 1) = 2 ^ e * 2 ^ (1 - (p : ℤ)) := by
    rw [← zpow_add₀ (by norm_num)]
    congr 1
    ring
  have hq : (0 : ℚ) < 2 ^ (1 - (p : ℤ)) := zpow_pos (by norm_num) _
  have hfl : x / 2 ^ (e - (p : ℤ) + 1) - 1 < (roundHalfEven (x / 2 ^ (e - (p : ℤ) + 1)) : ℚ) := by
    have a := Int.lt_floor_add_one (x / (2 : ℚ) ^ (e - (p : ℤ) + 1))
    have b : ((⌊x / (2 : ℚ) ^ (e - (p : ℤ) + 1)⌋ : ℤ) : ℚ) ≤
        (roundHalfEven (x / 2 ^ (e - (p : ℤ) + 1)) : ℚ) := by
      exact_mod_cast floor_le_roundHalfEven _
    linarith
  have hmul : (x / 2 ^ (e - (p : ℤ) + 1) - 1) * 2 ^ (e - (p : ℤ) + 1) ≤
      (roundHalfEven (x / 2 ^ (e - (p : ℤ) + 1)) : ℚ) * 2 ^ (e - (p : ℤ) + 1) :=
    mul_le_mul_of_nonneg_right (le_of_lt hfl) (le_of_lt hu)
  have hcancel : (x / 2 ^ (e - (p : ℤ) + 1) - 1) * 2 ^ (e - (p : ℤ) + 1) =
      x - 2 ^ (e - (p : ℤ) + 1) := by
    field_simp
  rw [hcancel, hsplit] at hmul
  have hle : (2 : ℚ) ^ e * 2 ^ (1 - (p : ℤ)) ≤ x * 2 ^ (1 - (p : ℤ)) :=
    mul_le_mul_of_nonneg_right h1 (le_of_lt hq)
  rw [hsplit]
  linarith

theorem roundFloat_upper (p : ℕ) (x : ℚ) (hx : 0 < x) :
    roundFloat p x ≤ x * (1 + 2 ^ (1 - (p : ℤ))) := by
  obtain ⟨e, h1, _, h3⟩ := roundFloat_pos_spec p x hx
  rw [h3]
  have hu : (0 : ℚ) < 2 ^ (e - (p : ℤ) + 1) := zpow_pos (by norm_num) _
  have hsplit : (2 : ℚ) ^ (e - (p : ℤ) + 1) = 2 ^ e * 2 ^ (1 - (p : ℤ)) := by
    rw [← zpow_add₀ (by norm_num)]
    congr 1
    ring
  have hq : (0 : ℚ) < 2 ^ (1 - (p : ℤ)) := zpow_pos (by norm_num) _
  have hfl : (roundHalfEven (x / 2 ^ (e - (p : ℤ) + 1)) : ℚ) ≤ x / 2 ^ (e - (p : ℤ) + 1) + 1 := by
    have a := Int.floor_le (x / (2 : ℚ) ^ (e - (p : ℤ) + 1))
    have b : (roundHalfEven (x / 2 ^ (e - (p : ℤ) + 1)) : ℚ) ≤
        ((⌊x / (2 : ℚ) ^ (e - (p : ℤ) + 1)⌋ + 1 : ℤ) : ℚ) := by
      exact_mod_cast roundHalfEven_le_floor_add_one _
    push_cast at b
    linarith
  have hmul : (roundHalfEven (x / 2 ^ (e - (p : ℤ) + 1)) : ℚ) * 2 ^ (e - (p : ℤ) + 1) ≤
      (x / 2 ^ (e - (p : ℤ) + 1) + 1) * 2 ^ (e - (p : ℤ) + 1) :=
    mul_le_mul_of_nonneg_right hfl (le_of_lt hu)
  have hcancel : (x / 2 ^ (e - (p : ℤ) + 1) + 1) * 2 ^ (e - (p : ℤ) + 1) =
      x + 2 ^ (e - (p : ℤ) + 1) := by
    field_simp
  rw [hcancel, hsplit] at hmul
  have hle : (2 : ℚ) ^ e * 2 ^ (1 - (p : ℤ)) ≤ x * 2 ^ (1 - (p : ℤ)) :=
    mul_le_mul_of_nonneg_right h1 (le_of_lt hq)
  rw [hsplit]
  linarith

theorem roundFloat_nonneg (p : ℕ) (x : ℚ) (hx : 0 ≤ x) : 0 ≤ roundFloat p x := by
  unfold roundFloat
  have hu : (0 : ℚ) < 2 ^ (Int.log 2 |x| - (p : ℤ) + 1) := zpow_pos (by norm_num) _
  have : (0 : ℤ) ≤ roundHalfEven (x / 2 ^ (Int.log 2 |x| - (p : ℤ) + 1)) :=
    le_roundHalfEven _ 0 (by
      push_cast
      exact div_nonneg hx (le_of_lt hu))
  have h2 : (0 : ℚ) ≤ (roundHalfEven (x / 2 ^ (Int.log 2 |x| - (p : ℤ) + 1)) : ℚ) := by
    exact_mod_cast this
  exact mul_nonneg h2 (le_of_lt hu)


/-- A number `m * 2 ^ j` with `m < 2 ^ p` that lies below `x` lies below the
rounding of `x` to `p` bits. -/
theorem le_roundFloat (p : ℕ) (hp : 1 ≤ p) (x : ℚ) (m j : ℤ) (hm : m < 2 ^ p) (hx : 0 < x)
    (h : (m : ℚ) * 2 ^ j ≤ x) : (m : ℚ) * 2 ^ j ≤ roundFloat p x := by
  obtain ⟨e, h1, _, h3⟩ := roundFloat_pos_spec p x hx
  rw [h3]
  have hu : (0 : ℚ) < 2 ^ (e - (p : ℤ) + 1) := zpow_pos (by norm_num) _
  by_cases hj : e - (p : ℤ) + 1 ≤ j
  · obtain ⟨t, ht⟩ := Int.eq_ofNat_of_zero_le (sub_nonneg.2 hj)
    have hy : (m : ℚ) * 2 ^ j = ((m * 2 ^ t : ℤ) : ℚ) * 2 ^ (e - (p : ℤ) + 1) := by
      have : j = (t : ℤ) + (e - (p : ℤ) + 1) := by omega
      rw [this, zpow_add₀ (by norm_num), zpow_natCast]
      push_cast
      ring
    rw [hy]
    apply mul_le_mul_of_nonneg_right _ (le_of_lt hu)
    have : m * 2 ^ t ≤ roundHalfEven (x / 2 ^ (e - (p : ℤ) + 1)) := by
      apply le_roundHalfEven
      rw [le_div_iff₀ hu, ← hy]
      exact h
    exact_mod_cast this
  · have hlt : (m : ℚ) * 2 ^ j < 2 ^ e := by
      have hm' : (m : ℚ) < 2 ^ p := by exact_mod_cast hm
      calc (m : ℚ) * 2 ^ j < 2 ^ p * 2 ^ j :=
            mul_lt_mul_of_pos_right hm' (zpow_pos (by norm_num) _)
        _ = 2 ^ ((p : ℤ) + j) := by rw [zpow_add₀ (by norm_num), zpow_natCast]
        _ ≤ 2 ^ e := zpow_le_zpow_right₀ (by norm_num) (by omega)
    have hge : (2 : ℚ) ^ e ≤
        (roundHalfEven (x / 2 ^ (e - (p : ℤ) + 1)) : ℚ) * 2 ^ (e - (p : ℤ) + 1) := by
      obtain ⟨q, hq⟩ : ∃ q : ℕ, p = q + 1 := ⟨p - 1, by omega⟩
      have he : (2 : ℚ) ^ e = ((2 ^ q : ℤ) : ℚ) * 2 ^ (e - (p : ℤ) + 1) := by
        have : e = (q : ℤ) + (e - (p : ℤ) + 1) := by omega
        conv_lhs => rw [this, zpow_add₀ (by norm_num), zpow_natCast]
        push_cast
        ring
      rw [he]
      apply mul_le_mul_of_nonneg_right _ (le_of_lt hu)
      have : (2 : ℤ) ^ q ≤ roundHalfEven (x / 2 ^ (e - (p : ℤ) + 1)) := by
        apply le_roundHalfEven
        rw [le_div_iff₀ hu, ← he]
        exact h1
      exact_mod_cast this
    linarith

/-- A number `m * 2 ^ j` with `m < 2 ^ p` that lies above `x` lies above the
rounding of `x` to `p` bits. -/
theorem roundFloat_le (p : ℕ) (x : ℚ) (m j : ℤ) (hm : m < 2 ^ p) (hx : 0 < x)
    (h : x ≤ (m : ℚ) * 2 ^ j) : roundFloat p x ≤ (m : ℚ) * 2 ^ j := by
  obtain ⟨e, h1, _, h3⟩ := roundFloat_pos_spec p x hx
  rw [h3]
  have hu : (0 : ℚ) < 2 ^ (e - (p : ℤ) + 1) := zpow_pos (by norm_num) _
  by_cases hj : e - (p : ℤ) + 1 ≤ j
  · obtain ⟨t, ht⟩ := Int.eq_ofNat_of_zero_le (sub_nonneg.2 hj)
    have hy : (m : ℚ) * 2 ^ j = ((m * 2 ^ t : ℤ) : ℚ) * 2 ^ (e - (p : ℤ) + 1) := by
      have : j = (t : ℤ) + (e - (p : ℤ) + 1) := by omega
      rw [this, zpow_add₀ (by norm_num), zpow_natCast]
      push_cast
      ring
    rw [hy]
    apply mul_le_mul_of_nonneg_right _ (le_of_lt hu)
    have : roundHalfEven (x / 2 ^ (e - (p : ℤ) + 1)) ≤ m * 2 ^ t := by
      apply roundHalfEven_le
      rw [div_le_iff₀ hu, ← hy]
      exact h
    exact_mod_cast this
  · exfalso
    have hlt : (m : ℚ) * 2 ^ j < 2 ^ e := by
      have hm' : (m : ℚ) < 2 ^ p := by exact_mod_cast hm
      calc (m : ℚ) * 2 ^ j < 2 ^ p * 2 ^ j :=
            mul_lt_mul_of_pos_right hm' (zpow_pos (by norm_num) _)
        _ = 2 ^ ((p : ℤ) + j) := by rw [zpow_add₀ (by norm_num), zpow_natCast]
        _ ≤ 2 ^ e := zpow_le_zpow_right₀ (by norm_num) (by omega)
    linarith

/-- A positive number `m * 2 ^ j` with `m < 2 ^ p` is its own rounding. -/
theorem roundFloat_exact (p : ℕ) (hp : 1 ≤ p) (m j : ℤ) (hm : m < 2 ^ p) (hpos : 0 < m) :
    roundFloat p ((m : ℚ) * 2 ^ j) = (m : ℚ) * 2 ^ j := by
  have hx : (0 : ℚ) < (m : ℚ) * 2 ^ j :=
    mul_pos (by exact_mod_cast hpos) (zpow_pos (by norm_num) _)
  exact le_antisymm (roundFloat_le p _ m j hm hx (le_refl _))
    (le_roundFloat p hp _ m j hm hx (le_refl _))

/-- A natural number below `2 ^ p` is its own rounding. -/
theorem roundFloat_natCast (p : ℕ) (hp : 1 ≤ p) (k : ℕ) (hk : k < 2 ^ p) :
    roundFloat p (k : ℚ) = (k : ℚ) := by
  rcases Nat.eq_zero_or_pos k with rfl | hpos
  · simpa using roundFloat_zero p
  · have := roundFloat_exact p hp (k : ℤ) 0 (by exact_mod_cast hk) (by exact_mod_cast hpos)
    simpa using this

/-- An integer of absolute value below `2 ^ p` is its own rounding. -/
theorem roundFloat_intCast (p : ℕ) (hp : 1 ≤ p) (d : ℤ) (hd : d.natAbs < 2 ^ p) :
    roundFloat p (d : ℚ) = (d : ℚ) := by
  rcases le_total 0 d with h | h
  · obtain ⟨k, rfl⟩ := Int.eq_ofNat_of_zero_le h
    exact roundFloat_natCast p hp k (by simpa using hd)
  · obtain ⟨k, hk⟩ := Int.eq_ofNat_of_zero_le (neg_nonneg.2 h)
    have hd' : d = -(k : ℤ) := by omega
    subst hd'
    push_cast
    rw [roundFloat_neg]
    congr 1
    exact roundFloat_natCast p hp k (by simpa using hd)


/-! ## The square root in double precision -/

theorem sqrtDouble_zero : sqrtDouble 0 = 0 := by
  unfold sqrtDouble toDouble
  simp [roundFloat_zero]

theorem sqrtDouble_nonneg (n : ℕ) : 0 ≤ sqrtDouble n := by
  unfold sqrtDouble toDouble
  dsimp only
  split_ifs
  · exact roundFloat_nonneg 53 _ (by positivity)
  · exact roundFloat_nonneg 53 _ (by positivity)

/-- A dyadic number `a / 2 ^ b` below the exact root is below `sqrtDouble n`. -/
theorem le_sqrtDouble (n a b : ℕ) (hb : b ≤ 64) (ha : a < 2 ^ 53) (h : a ^ 2 ≤ n * 4 ^ b) :
    (a : ℚ) / 2 ^ b ≤ sqrtDouble n := by
  rcases Nat.eq_zero_or_pos a with rfl | hapos
  · simpa using sqrtDouble_nonneg n
  have hs : a * 2 ^ (64 - b) ≤ Nat.sqrt (n * 4 ^ 64) := by
    rw [Nat.le_sqrt']
    have h4 : (4 : ℕ) ^ 64 = 4 ^ b * 4 ^ (64 - b) := by
      rw [← pow_add]
      congr 1
      omega
    have h2 : ((2 : ℕ) ^ (64 - b)) ^ 2 = 4 ^ (64 - b) := by
      rw [← pow_mul, mul_comm, pow_mul]
      norm_num
    calc (a * 2 ^ (64 - b)) ^ 2 = a ^ 2 * 4 ^ (64 - b) := by rw [mul_pow, h2]
      _ ≤ n * 4 ^ b * 4 ^ (64 - b) := Nat.mul_le_mul_right _ h
      _ = n * 4 ^ 64 := by rw [h4, mul_assoc]
  have hsq : ((a : ℚ) * 2 ^ (64 - b)) / 2 ^ 64 = (a : ℚ) / 2 ^ b := by
    have : (2 : ℚ) ^ 64 = 2 ^ b * 2 ^ (64 - b) := by
      rw [← pow_add]
      congr 1
      omega
    rw [this]
    field_simp
    ring
  have hsQ : (a : ℚ) * 2 ^ (64 - b) ≤ (Nat.sqrt (n * 4 ^ 64) : ℚ) := by
    exact_mod_cast hs
  have hrepr : (a : ℚ) / 2 ^ b = ((a : ℤ) : ℚ) * 2 ^ (-(b : ℤ)) := by
    rw [zpow_neg, zpow_natCast]
    push_cast
    ring
  have hapos' : (0 : ℚ) < (a : ℚ) / 2 ^ b := by positivity
  unfold sqrtDouble toDouble
  dsimp only
  split_ifs
  · have hq : (a : ℚ) / 2 ^ b ≤ (Nat.sqrt (n * 4 ^ 64) : ℚ) / 2 ^ 64 := by
      rw [← hsq]
      exact div_le_div_of_nonneg_right hsQ (by positivity)
    rw [hrepr] at hq hapos' ⊢
    exact le_roundFloat 53 (by norm_num) _ (a : ℤ) _ (by exact_mod_cast ha)
      (lt_of_lt_of_le hapos' hq) hq
  · have hq : (a : ℚ) / 2 ^ b ≤ ((Nat.sqrt (n * 4 ^ 64) : ℚ) + 1 / 2) / 2 ^ 64 := by
      rw [← hsq]
      refine div_le_div_of_nonneg_right (le_trans hsQ ?_) (by positivity)
      linarith
    rw [hrepr] at hq hapos' ⊢
    exact le_roundFloat 53 (by norm_num) _ (a : ℤ) _ (by exact_mod_cast ha)
      (lt_of_lt_of_le hapos' hq) hq

/-- A dyadic number `a / 2 ^ b` above the exact root is above `sqrtDouble n`. -/
theorem sqrtDouble_le (n a b : ℕ) (hb : b ≤ 64) (ha : a < 2 ^ 53) (h : n * 4 ^ b ≤ a ^ 2) :
    sqrtDouble n ≤ (a : ℚ) / 2 ^ b := by
  rcases Nat.eq_zero_or_pos n with rfl | hnpos
  · rw [sqrtDouble_zero]
    positivity
  have h4 : (4 : ℕ) ^ 64 = 4 ^ b * 4 ^ (64 - b) := by
    rw [← pow_add]
    congr 1
    omega
  have h2 : ((2 : ℕ) ^ (64 - b)) ^ 2 = 4 ^ (64 - b) := by
    rw [← pow_mul, mul_comm, pow_mul]
    norm_num
  have hN : n * 4 ^ 64 ≤ (a * 2 ^ (64 - b)) ^ 2 := by
    calc n * 4 ^ 64 = n * 4 ^ b * 4 ^ (64 - b) := by rw [h4, mul_assoc]
      _ ≤ a ^ 2 * 4 ^ (64 - b) := Nat.mul_le_mul_right _ h
      _ = (a * 2 ^ (64 - b)) ^ 2 := by rw [mul_pow, h2]
  have hs : Nat.sqrt (n * 4 ^ 64) ≤ a * 2 ^ (64 - b) := by
    have := Nat.sqrt_le_sqrt hN
    rwa [Nat.sqrt_eq'] at this
  have hspos : 0 < Nat.sqrt (n * 4 ^ 64) := by
    rw [Nat.sqrt_pos]
    positivity
  have hsq : ((a : ℚ) * 2 ^ (64 - b)) / 2 ^ 64 = (a : ℚ) / 2 ^ b := by
    have : (2 : ℚ) ^ 64 = 2 ^ b * 2 ^ (64 - b) := by
      rw [← pow_add]
      congr 1
      omega
    rw [this]
    field_simp
    ring
  have hrepr : (a : ℚ) / 2 ^ b = ((a : ℤ) : ℚ) * 2 ^ (-(b : ℤ)) := by
    rw [zpow_neg, zpow_natCast]
    push_cast
    ring
  unfold sqrtDouble toDouble
  dsimp only
  split_ifs with hsqr
  · have hq : (Nat.sqrt (n * 4 ^ 64) : ℚ) / 2 ^ 64 ≤ (a : ℚ) / 2 ^ b := by
      rw [← hsq]
      exact div_le_div_of_nonneg_right (by exact_mod_cast hs) (by positivity)
    have hpos : (0 : ℚ) < (Nat.sqrt (n * 4 ^ 64) : ℚ) / 2 ^ 64 := by
      have : (0 : ℚ) < (Nat.sqrt (n * 4 ^ 64) : ℚ) := by exact_mod_cast hspos
      positivity
    rw [hrepr] at hq ⊢
    exact roundFloat_le 53 _ (a : ℤ) _ (by exact_mod_cast ha) hpos hq
  · have hlt : Nat.sqrt (n * 4 ^ 64) < a * 2 ^ (64 - b) := by
      rcases Nat.lt_or_ge (Nat.sqrt (n * 4 ^ 64)) (a * 2 ^ (64 - b)) with h' | h'
      · exact h'
      · exfalso
        have heq : Nat.sqrt (n * 4 ^ 64) = a * 2 ^ (64 - b) := le_antisymm hs h'
        have h1 := Nat.sqrt_le' (n * 4 ^ 64)
        rw [heq] at h1
        have h3 : (a * 2 ^ (64 - b)) ^ 2 = n * 4 ^ 64 := le_antisymm h1 hN
        apply hsqr
        rw [heq, ← sq, h3]
    have hq : ((Nat.sqrt (n * 4 ^ 64) : ℚ) + 1 / 2) / 2 ^ 64 ≤ (a : ℚ) / 2 ^ b := by
      rw [← hsq]
      apply div_le_div_of_nonneg_right _ (by positivity)
      have : ((Nat.sqrt (n * 4 ^ 64) + 1 : ℕ) : ℚ) ≤ ((a * 2 ^ (64 - b) : ℕ) : ℚ) := by
        exact_mod_cast hlt
      push_cast at this
      linarith
    have hpos : (0 : ℚ) < ((Nat.sqrt (n * 4 ^ 64) : ℚ) + 1 / 2) / 2 ^ 64 := by positivity
    rw [hrepr] at hq ⊢
    exact roundFloat_le 53 _ (a : ℤ) _ (by exact_mod_cast ha) hpos hq

/-- The root of a square is exact. -/
theorem sqrtDouble_sq (k : ℕ) (hk : k < 2 ^ 53) : sqrtDouble (k * k) = (k : ℚ) := by
  have h1 := le_sqrtDouble (k * k) k 0 (by omega) hk (by simp [sq])
  have h2 := sqrtDouble_le (k * k) k 0 (by omega) hk (by simp [sq])
  simp only [pow_zero, div_one] at h1 h2
  exact le_antisymm h2 h1


/-! ## Single precision bounds -/

theorem toFloat_lower (x : ℚ) (hx : 0 ≤ x) : x * (1 - 1 / 8388608) ≤ toFloat x := by
  rcases eq_or_lt_of_le hx with h | h
  · rw [← h]
    simp [toFloat, roundFloat_zero]
  · have := roundFloat_lower 24 x h
    have hu : (2 : ℚ) ^ (1 - ((24 : ℕ) : ℤ)) = 1 / 8388608 := by
      rw [show (1 - ((24 : ℕ) : ℤ)) = -23 by norm_num, zpow_neg]
      norm_num
    rw [hu] at this
    exact this

theorem toFloat_upper (x : ℚ) (hx : 0 ≤ x) : toFloat x ≤ x * (1 + 1 / 8388608) := by
  rcases eq_or_lt_of_le hx with h | h
  · rw [← h]
    simp [toFloat, roundFloat_zero]
  · have := roundFloat_upper 24 x h
    have hu : (2 : ℚ) ^ (1 - ((24 : ℕ) : ℤ)) = 1 / 8388608 := by
      rw [show (1 - ((24 : ℕ) : ℤ)) = -23 by norm_num, zpow_neg]
      norm_num
    rw [hu] at this
    exact this

theorem toFloat_nonneg (x : ℚ) (hx : 0 ≤ x) : 0 ≤ toFloat x :=
  roundFloat_nonneg 24 x hx

theorem toFloat_neg (x : ℚ) : toFloat (-x) = -toFloat x :=
  roundFloat_neg 24 x

theorem toFloat_natCast (k : ℕ) (hk : k < 2 ^ 24) : toFloat (k : ℚ) = (k : ℚ) :=
  roundFloat_natCast 24 (by norm_num) k hk

theorem toFloat_intCast (d : ℤ) (hd : d.natAbs < 2 ^ 24) : toFloat (d : ℚ) = (d : ℚ) :=
  roundFloat_intCast 24 (by norm_num) d hd

/-- A dyadic number `a / 2 ^ b` with `a < 2 ^ 24` above `x` is above `toFloat x`. -/
theorem toFloat_le_dyadic (x : ℚ) (a b : ℕ) (ha : a < 2 ^ 24) (hx : 0 ≤ x)
    (h : x ≤ (a : ℚ) / 2 ^ b) : toFloat x ≤ (a : ℚ) / 2 ^ b := by
  rcases eq_or_lt_of_le hx with h0 | h0
  · rw [← h0]
    simp only [toFloat, roundFloat_zero]
    positivity
  · have hrepr : (a : ℚ) / 2 ^ b = ((a : ℤ) : ℚ) * 2 ^ (-(b : ℤ)) := by
      rw [zpow_neg, zpow_natCast]
      push_cast
      ring
    rw [hrepr] at h ⊢
    exact roundFloat_le 24 x (a : ℤ) _ (by exact_mod_cast ha) h0 h

/-- A dyadic number `a / 2 ^ b` with `a < 2 ^ 24` below `x` is below `toFloat x`. -/
theorem le_toFloat_dyadic (x : ℚ) (a b : ℕ) (ha : a < 2 ^ 24) (h : (a : ℚ) / 2 ^ b ≤ x) :
    (a : ℚ) / 2 ^ b ≤ toFloat x := by
  rcases Nat.eq_zero_or_pos a with rfl | hapos
  · have hx : 0 ≤ x := by simpa using h
    simpa using toFloat_nonneg x hx
  · have hrepr : (a : ℚ) / 2 ^ b = ((a : ℤ) : ℚ) * 2 ^ (-(b : ℤ)) := by
      rw [zpow_neg, zpow_natCast]
      push_cast
      ring
    have hpos : (0 : ℚ) < (a : ℚ) / 2 ^ b := by positivity
    rw [hrepr] at h hpos ⊢
    exact le_roundFloat 24 (by norm_num) x (a : ℤ) _ (by exact_mod_cast ha)
      (lt_of_lt_of_le hpos h) h

/-- The distance `dist` of the LEAPING branch, for the squared distance `n`. -/
theorem leapDist_le (n a b : ℕ) (hb : b ≤ 64) (ha : a < 2 ^ 24) (h : n * 4 ^ b ≤ a ^ 2) :
    toFloat (sqrtDouble n) ≤ (a : ℚ) / 2 ^ b :=
  toFloat_le_dyadic _ a b ha (sqrtDouble_nonneg n)
    (sqrtDouble_le n a b hb (lt_trans ha (by norm_num)) h)

theorem le_leapDist (n a b : ℕ) (hb : b ≤ 64) (ha : a < 2 ^ 24) (h : a ^ 2 ≤ n * 4 ^ b) :
    (a : ℚ) / 2 ^ b ≤ toFloat (sqrtDouble n) :=
  le_toFloat_dyadic _ a b ha
    (le_sqrtDouble n a b hb (lt_trans ha (by norm_num)) h)

/-- The test `dist < LEAP_SPEED` is the test `dx*dx + dy*dy < 625`. -/
theorem leapDist_lt_iff (n : ℕ) : toFloat (sqrtDouble n) < 25 ↔ n < 625 := by
  constructor
  · intro h
    by_contra hn
    have := le_leapDist n 25 0 (by omega) (by norm_num) (by simp; omega)
    simp only [pow_zero, div_one] at this
    have h25 : ((25 : ℕ) : ℚ) = 25 := by norm_num
    rw [h25] at this
    linarith
  · intro h
    have := leapDist_le n 1599 6 (by omega) (by norm_num) (by norm_num; omega)
    have hlt : ((1599 : ℕ) : ℚ) / 2 ^ 6 < 25 := by norm_num
    linarith


/-! ## One component of the leap step -/

theorem truncToInt_of_nonneg (x : ℚ) (hx : 0 ≤ x) : truncToInt x = ⌊x⌋ := by
  unfold truncToInt
  rw [if_pos hx]

theorem truncToInt_neg_of_nonneg (x : ℚ) (hx : 0 ≤ x) : truncToInt (-x) = -⌊x⌋ := by
  rcases eq_or_lt_of_le hx with h | h
  · rw [← h]
    simp [truncToInt]
  · unfold truncToInt
    rw [if_neg (by linarith), Int.ceil_neg]

/-- The step of a coordinate with offset `d` is the step of `|d|`, with the sign
of `d`. -/
theorem leapStep_signed (d : ℤ) (hd : d.natAbs < 2 ^ 24) (r : ℚ) (hr : 0 ≤ r) :
    truncToInt (toFloat (toFloat (d : ℚ) * r)) =
      Int.sign d * ⌊toFloat ((d.natAbs : ℚ) * r)⌋ := by
  rw [toFloat_intCast d hd]
  rcases lt_trichotomy d 0 with h | h | h
  · obtain ⟨k, hk⟩ : ∃ k : ℕ, d = -(k : ℤ) := ⟨d.natAbs, by omega⟩
    subst hk
    have hk' : (-(k : ℤ)).natAbs = k := by simp
    rw [hk', Int.sign_eq_neg_one_of_neg h]
    push_cast
    rw [neg_mul, toFloat_neg,
      truncToInt_neg_of_nonneg _ (toFloat_nonneg _ (mul_nonneg (by positivity) hr))]
    ring
  · subst h
    simp [toFloat, roundFloat_zero, truncToInt]
  · obtain ⟨k, hk⟩ : ∃ k : ℕ, d = (k : ℤ) := ⟨d.natAbs, by omega⟩
    subst hk
    have hk' : ((k : ℤ)).natAbs = k := by simp
    rw [hk', Int.sign_eq_one_of_pos h]
    push_cast
    rw [truncToInt_of_nonneg _ (toFloat_nonneg _ (mul_nonneg (by positivity) hr))]
    ring

/-- The value `ratio` of the LEAPING branch lies in `(0, 1]`, within a relative
error of `2 ^ -23` of `25 / dist`. -/
theorem leapRatio_bounds (D : ℚ) (hD : 25 ≤ D) :
    0 < toFloat (25 / D) ∧ toFloat (25 / D) ≤ 1 ∧
      25 / D * (1 - 1 / 8388608) ≤ toFloat (25 / D) ∧
      toFloat (25 / D) ≤ 25 / D * (1 + 1 / 8388608) := by
  have hDpos : 0 < D := by linarith
  have hq : 0 < 25 / D := by positivity
  have hlow := toFloat_lower (25 / D) (le_of_lt hq)
  have hup := toFloat_upper (25 / D) (le_of_lt hq)
  refine ⟨?_, ?_, hlow, hup⟩
  · have : 0 < 25 / D * (1 - 1 / 8388608) := by positivity
    linarith
  · have h1 : 25 / D ≤ ((1 : ℕ) : ℚ) / 2 ^ 0 := by
      rw [div_le_iff₀ hDpos]
      norm_num
      linarith
    have := toFloat_le_dyadic (25 / D) 1 0 (by norm_num) (le_of_lt hq) h1
    simpa using this

/-- No overshoot: the step of a coordinate is between 0 and its offset. -/
theorem leapStep_le (d : ℕ) (hd : d < 2 ^ 24) (r : ℚ) (h0 : 0 ≤ r) (h1 : r ≤ 1) :
    0 ≤ ⌊toFloat ((d : ℚ) * r)⌋ ∧ ⌊toFloat ((d : ℚ) * r)⌋ ≤ (d : ℤ) := by
  have hx : 0 ≤ (d : ℚ) * r := mul_nonneg (by positivity) h0
  constructor
  · exact Int.floor_nonneg.2 (toFloat_nonneg _ hx)
  · have hle : (d : ℚ) * r ≤ (d : ℚ) / 2 ^ 0 := by
      rw [pow_zero, div_one]
      exact mul_le_of_le_one_right (by positivity) h1
    have := toFloat_le_dyadic _ d 0 hd hx hle
    rw [pow_zero, div_one] at this
    have h2 : (⌊toFloat ((d : ℚ) * r)⌋ : ℚ) ≤ (d : ℚ) := le_trans (Int.floor_le _) this
    exact_mod_cast h2


/-- Progress: the two steps of a tick that does not arrive add up to at least 23. -/
theorem leapStep_progress (dx dy n : ℕ) (hn : n = dx * dx + dy * dy) (h625 : 625 ≤ n)
    (hL : dx + dy < 2 ^ 24) :
    23 ≤ ⌊toFloat ((dx : ℚ) * toFloat (25 / toFloat (sqrtDouble n)))⌋ +
      ⌊toFloat ((dy : ℚ) * toFloat (25 / toFloat (sqrtDouble n)))⌋ := by
  set D := toFloat (sqrtDouble n) with hD
  set r := toFloat (25 / D) with hr
  have hD25 : 25 ≤ D := by
    by_contra hlt
    have := (leapDist_lt_iff n).1 (lt_of_not_le hlt)
    omega
  have hDL : D ≤ ((dx + dy : ℕ) : ℚ) := by
    have := leapDist_le n (dx + dy) 0 (by omega) hL (by rw [hn]; nlinarith)
    simpa using this
  obtain ⟨hr0, _, hrlow, _⟩ := leapRatio_bounds D hD25
  have hDpos : 0 < D := by linarith
  have hvx := toFloat_lower ((dx : ℚ) * r) (mul_nonneg (by positivity) (le_of_lt hr0))
  have hvy := toFloat_lower ((dy : ℚ) * r) (mul_nonneg (by positivity) (le_of_lt hr0))
  have hfx := Int.lt_floor_add_one (toFloat ((dx : ℚ) * r))
  have hfy := Int.lt_floor_add_one (toFloat ((dy : ℚ) * r))
  have hone : 1 ≤ ((dx + dy : ℕ) : ℚ) / D := by
    rw [le_div_iff₀ hDpos]
    linarith
  have hr25 : 25 * (1 - 1 / 8388608) ≤ ((dx + dy : ℕ) : ℚ) * r := by
    have h1 : ((dx + dy : ℕ) : ℚ) * (25 / D * (1 - 1 / 8388608)) ≤ ((dx + dy : ℕ) : ℚ) * r :=
      mul_le_mul_of_nonneg_left hrlow (by positivity)
    have h2 : ((dx + dy : ℕ) : ℚ) * (25 / D * (1 - 1 / 8388608)) =
        ((dx + dy : ℕ) : ℚ) / D * (25 * (1 - 1 / 8388608)) := by
      field_simp
    have h3 : 1 * (25 * (1 - 1 / 8388608 : ℚ)) ≤
        ((dx + dy : ℕ) : ℚ) / D * (25 * (1 - 1 / 8388608)) :=
      mul_le_mul_of_nonneg_right hone (by norm_num)
    linarith
  have hsum : (22 : ℚ) < (⌊toFloat ((dx : ℚ) * r)⌋ : ℚ) + (⌊toFloat ((dy : ℚ) * r)⌋ : ℚ) := by
    have hcast : ((dx + dy : ℕ) : ℚ) = (dx : ℚ) + (dy : ℚ) := by push_cast; ring
    rw [hcast] at hr25
    have h4 : ((dx : ℚ) * r + (dy : ℚ) * r) * (1 - 1 / 8388608) ≤
        toFloat ((dx : ℚ) * r) + toFloat ((dy : ℚ) * r) := by linarith
    have h5 : 25 * (1 - 1 / 8388608 : ℚ) * (1 - 1 / 8388608) ≤
        ((dx : ℚ) * r + (dy : ℚ) * r) * (1 - 1 / 8388608) := by
      apply mul_le_mul_of_nonneg_right _ (by norm_num)
      linarith
    have h6 : (24 : ℚ) < 25 * (1 - 1 / 8388608 : ℚ) * (1 - 1 / 8388608) := by norm_num
    linarith
  have : (22 : ℤ) < ⌊toFloat ((dx : ℚ) * r)⌋ + ⌊toFloat ((dy : ℚ) * r)⌋ := by
    exact_mod_cast hsum
  omega


/-- The integer `k = Nat.sqrt (625 * d * d / n)` is the truncation of the exact
component `25 * d / √n`: `k ≤ 25 * d / √n < k + 1`, stated on the squares. -/
theorem exact_component (d n : ℕ) (hn : 0 < n) :
    (Nat.sqrt (625 * d * d / n)) ^ 2 * n ≤ 625 * d * d ∧
      625 * d * d < (Nat.sqrt (625 * d * d / n) + 1) ^ 2 * n := by
  constructor
  · calc (Nat.sqrt (625 * d * d / n)) ^ 2 * n ≤ (625 * d * d / n) * n :=
          Nat.mul_le_mul_right _ (Nat.sqrt_le' _)
      _ ≤ 625 * d * d := Nat.div_mul_le_self _ _
  · have h1 : 625 * d * d / n < (Nat.sqrt (625 * d * d / n) + 1) ^ 2 :=
      Nat.lt_succ_sqrt' _
    exact (Nat.div_lt_iff_lt_mul hn).1 h1

/-- The arithmetic core of `leapStep_near_exact`: `k` is the truncated exact
component, `A / 256` and `(A + 1) / 256` enclose the distance `D`, and `r`, `v`
are the rounded quotient and product. -/
theorem near_exact_core (d k A D r v : ℚ) (hk0 : 0 ≤ k) (hk25 : k ≤ 25) (hA : 6400 ≤ A)
    (hd0 : 0 ≤ d) (hkA : k * A ≤ 6400 * d) (hdA : 6400 * d < (k + 1) * (A + 1))
    (hDlow : A ≤ D * 256) (hDup : D * 256 ≤ A + 1) (hDpos : 0 < D)
    (hrlow : 25 / D * (1 - 1 / 8388608) ≤ r) (hrup : r ≤ 25 / D * (1 + 1 / 8388608))
    (hvlow : d * r * (1 - 1 / 8388608) ≤ v) (hvup : v ≤ d * r * (1 + 1 / 8388608)) :
    k - 1 ≤ v ∧ v < k + 2 := by
  have hrD_low : 25 * (1 - 1 / 8388608) ≤ r * D := by
    have h := mul_le_mul_of_nonneg_right hrlow (le_of_lt hDpos)
    have e : 25 / D * (1 - 1 / 8388608) * D = 25 * (1 - 1 / 8388608) := by
      field_simp
      ring
    rw [e] at h
    exact h
  have hrD_up : r * D ≤ 25 * (1 + 1 / 8388608) := by
    have h := mul_le_mul_of_nonneg_right hrup (le_of_lt hDpos)
    have e : 25 / D * (1 + 1 / 8388608) * D = 25 * (1 + 1 / 8388608) := by
      field_simp
      ring
    rw [e] at h
    exact h
  -- v * D against 25 * d
  have hvD_low : d * (25 * (1 - 1 / 8388608)) * (1 - 1 / 8388608) ≤ v * D := by
    have h1 : d * (25 * (1 - 1 / 8388608)) ≤ d * (r * D) :=
      mul_le_mul_of_nonneg_left hrD_low hd0
    have h2 : d * (25 * (1 - 1 / 8388608)) * (1 - 1 / 8388608) ≤
        d * (r * D) * (1 - 1 / 8388608) :=
      mul_le_mul_of_nonneg_right h1 (by norm_num)
    have h3 : d * r * (1 - 1 / 8388608) * D ≤ v * D :=
      mul_le_mul_of_nonneg_right hvlow (le_of_lt hDpos)
    have e : d * (r * D) * (1 - 1 / 8388608) = d * r * (1 - 1 / 8388608) * D := by ring
    rw [e] at h2
    exact le_trans h2 h3
  have hvD_up : v * D ≤ d * (25 * (1 + 1 / 8388608)) * (1 + 1 / 8388608) := by
    have h1 : d * (r * D) ≤ d * (25 * (1 + 1 / 8388608)) :=
      mul_le_mul_of_nonneg_left hrD_up hd0
    have h2 : d * (r * D) * (1 + 1 / 8388608) ≤
        d * (25 * (1 + 1 / 8388608)) * (1 + 1 / 8388608) :=
      mul_le_mul_of_nonneg_right h1 (by norm_num)
    have h3 : v * D ≤ d * r * (1 + 1 / 8388608) * D :=
      mul_le_mul_of_nonneg_right hvup (le_of_lt hDpos)
    have e : d * (r * D) * (1 + 1 / 8388608) = d * r * (1 + 1 / 8388608) * D := by ring
    rw [e] at h2
    exact le_trans h3 h2
  have hkAprod : 0 ≤ (25 - k) * A := mul_nonneg (by linarith) (by linarith)
  have hkA0 : 0 ≤ k * A := mul_nonneg hk0 (by linarith)
  constructor
  · rcases le_or_lt 1 k with h1 | h1
    · have ha : (k - 1) * (D * 256) ≤ (k - 1) * (A + 1) :=
        mul_le_mul_of_nonneg_left hDup (by linarith)
      have hb : (k - 1) * (A + 1) ≤ 6400 * d * ((1 - 1 / 8388608) * (1 - 1 / 8388608)) := by
        have hb1 : k * A * ((1 - 1 / 8388608) * (1 - 1 / 8388608)) ≤
            6400 * d * ((1 - 1 / 8388608) * (1 - 1 / 8388608)) :=
          mul_le_mul_of_nonneg_right hkA (by norm_num)
        have hb2 : (k - 1) * (A + 1) ≤ k * A * ((1 - 1 / 8388608) * (1 - 1 / 8388608)) := by
          have e : k * A * ((1 - 1 / 8388608) * (1 - 1 / 8388608 : ℚ)) =
              k * A - k * A * (16777215 / 70368744177664) := by ring
          rw [e]
          have e2 : (k - 1) * (A + 1) = k * A + k - A - 1 := by ring
          rw [e2]
          have : k * A * (16777215 / 70368744177664 : ℚ) ≤ 25 * A * (16777215 / 70368744177664) := by
            have : k * A ≤ 25 * A := by linarith
            exact mul_le_mul_of_nonneg_right this (by norm_num)
          linarith
        exact le_trans hb2 hb1
      have hc : (k - 1) * D * 256 ≤ v * D * 256 := by
        have e1 : (k - 1) * D * 256 = (k - 1) * (D * 256) := by ring
        have e2 : 6400 * d * ((1 - 1 / 8388608) * (1 - 1 / 8388608) : ℚ) =
            d * (25 * (1 - 1 / 8388608)) * (1 - 1 / 8388608) * 256 := by ring
        rw [e1]
        rw [e2] at hb
        linarith
      have hd : (k - 1) * D ≤ v * D := by linarith
      exact le_of_mul_le_mul_right hd hDpos
    · have hv0 : 0 ≤ v * D := by
        refine le_trans ?_ hvD_low
        exact mul_nonneg (mul_nonneg hd0 (by norm_num)) (by norm_num)
      have hv : 0 ≤ v := by
        by_contra hneg
        have : v * D < 0 := mul_neg_of_neg_of_pos (lt_of_not_le hneg) hDpos
        linarith
      linarith
  · have ha : (k + 2) * A ≤ (k + 2) * (D * 256) :=
      mul_le_mul_of_nonneg_left hDlow (by linarith)
    have hb : 6400 * d * ((1 + 1 / 8388608) * (1 + 1 / 8388608)) < (k + 2) * A := by
      have hb1 : 6400 * d * ((1 + 1 / 8388608) * (1 + 1 / 8388608)) <
          (k + 1) * (A + 1) * ((1 + 1 / 8388608) * (1 + 1 / 8388608)) :=
        mul_lt_mul_of_pos_right hdA (by norm_num)
      have hb2 : (k + 1) * (A + 1) * ((1 + 1 / 8388608) * (1 + 1 / 8388608)) ≤ (k + 2) * A := by
        have e : (k + 1) * (A + 1) * ((1 + 1 / 8388608) * (1 + 1 / 8388608 : ℚ)) =
            (k * A + k + A + 1) + (k * A + k + A + 1) * (16777217 / 70368744177664) := by ring
        rw [e]
        have e2 : (k + 2) * A = k * A + 2 * A := by ring
        rw [e2]
        have : (k * A + k + A + 1) * (16777217 / 70368744177664 : ℚ) ≤
            (25 * A + 25 + A + 1) * (16777217 / 70368744177664) := by
          have : k * A + k + A + 1 ≤ 25 * A + 25 + A + 1 := by linarith
          exact mul_le_mul_of_nonneg_right this (by norm_num)
        linarith
      exact lt_of_lt_of_le hb1 hb2
    have hc : v * D * 256 < (k + 2) * D * 256 := by
      have e1 : (k + 2) * D * 256 = (k + 2) * (D * 256) := by ring
      have e2 : 6400 * d * ((1 + 1 / 8388608) * (1 + 1 / 8388608) : ℚ) =
          d * (25 * (1 + 1 / 8388608)) * (1 + 1 / 8388608) * 256 := by ring
      rw [e1]
      rw [e2] at hb
      linarith
    have hd : v * D < (k + 2) * D := by linarith
    exact lt_of_mul_lt_mul_right hd (le_of_lt hDpos)

/-- The step of a coordinate is the truncated exact component, or differs from it
by one. -/
theorem leapStep_near_exact (d n : ℕ) (h625 : 625 ≤ n) (h31 : n < 2 ^ 31) (hd : d * d ≤ n) :
    (Nat.sqrt (625 * d * d / n) : ℤ) - 1 ≤
        ⌊toFloat ((d : ℚ) * toFloat (25 / toFloat (sqrtDouble n)))⌋ ∧
      ⌊toFloat ((d : ℚ) * toFloat (25 / toFloat (sqrtDouble n)))⌋ ≤
        (Nat.sqrt (625 * d * d / n) : ℤ) + 1 := by
  obtain ⟨hk1, hk2⟩ := exact_component d n (by omega)
  generalize Nat.sqrt (625 * d * d / n) = k at hk1 hk2 ⊢
  have hA1 : (Nat.sqrt (n * 4 ^ 8)) ^ 2 ≤ n * 4 ^ 8 := Nat.sqrt_le' _
  have hA2 : n * 4 ^ 8 < (Nat.sqrt (n * 4 ^ 8) + 1) ^ 2 := Nat.lt_succ_sqrt' _
  have hA6400 : 6400 ≤ Nat.sqrt (n * 4 ^ 8) := by
    rw [Nat.le_sqrt']
    omega
  have hA24 : Nat.sqrt (n * 4 ^ 8) + 1 < 2 ^ 24 := by
    have : Nat.sqrt (n * 4 ^ 8) < 2 ^ 24 - 1 := by
      rw [Nat.sqrt_lt']
      norm_num
      omega
    omega
  have hDlow := le_leapDist n (Nat.sqrt (n * 4 ^ 8)) 8 (by omega) (by omega) hA1
  have hDup := leapDist_le n (Nat.sqrt (n * 4 ^ 8) + 1) 8 (by omega) hA24 (le_of_lt hA2)
  generalize Nat.sqrt (n * 4 ^ 8) = A at hA1 hA2 hA6400 hA24 hDlow hDup
  have hD25 : 25 ≤ toFloat (sqrtDouble n) := by
    by_contra hlt
    have := (leapDist_lt_iff n).1 (lt_of_not_le hlt)
    omega
  generalize toFloat (sqrtDouble n) = D at hDlow hDup hD25 ⊢
  have hDpos : 0 < D := by linarith
  obtain ⟨hr0, _, hrlow, hrup⟩ := leapRatio_bounds D hD25
  generalize toFloat (25 / D) = r at hr0 hrlow hrup ⊢
  have hx : 0 ≤ (d : ℚ) * r := mul_nonneg (by positivity) (le_of_lt hr0)
  have hvlow := toFloat_lower ((d : ℚ) * r) hx
  have hvup := toFloat_upper ((d : ℚ) * r) hx
  generalize toFloat ((d : ℚ) * r) = v at hvlow hvup ⊢
  have hk25 : k ≤ 25 := by
    by_contra hgt
    have h26 : 26 ≤ k := by omega
    have : 26 ^ 2 * n ≤ k ^ 2 * n := Nat.mul_le_mul_right _ (Nat.pow_le_pow_left h26 2)
    nlinarith
  have hkA : k * A ≤ 6400 * d := by
    have hsq : (k * A) ^ 2 ≤ (6400 * d) ^ 2 := by
      calc (k * A) ^ 2 = k ^ 2 * A ^ 2 := by ring
        _ ≤ k ^ 2 * (n * 4 ^ 8) := Nat.mul_le_mul_left _ hA1
        _ = (k ^ 2 * n) * 4 ^ 8 := by ring
        _ ≤ (625 * d * d) * 4 ^ 8 := Nat.mul_le_mul_right _ hk1
        _ = (6400 * d) ^ 2 := by ring
    exact (Nat.pow_le_pow_iff_left (by norm_num)).1 hsq
  have hdA : 6400 * d < (k + 1) * (A + 1) := by
    have hsq : (6400 * d) ^ 2 < ((k + 1) * (A + 1)) ^ 2 := by
      calc (6400 * d) ^ 2 = (625 * d * d) * 4 ^ 8 := by ring
        _ < ((k + 1) ^ 2 * n) * 4 ^ 8 := Nat.mul_lt_mul_of_pos_right hk2 (by norm_num)
        _ = (k + 1) ^ 2 * (n * 4 ^ 8) := by ring
        _ ≤ (k + 1) ^ 2 * (A + 1) ^ 2 := Nat.mul_le_mul_left _ (le_of_lt hA2)
        _ = ((k + 1) * (A + 1)) ^ 2 := by ring
    exact (Nat.pow_lt_pow_iff_left (by norm_num)).1 hsq
  have hDup' : D * 256 ≤ (A : ℚ) + 1 := by
    have := (le_div_iff₀ (by norm_num : (0 : ℚ) < 2 ^ 8)).1 hDup
    push_cast at this
    linarith
  have hDlow' : (A : ℚ) ≤ D * 256 := by
    have := (div_le_iff₀ (by norm_num : (0 : ℚ) < 2 ^ 8)).1 hDlow
    linarith
  obtain ⟨hlow, hup⟩ := near_exact_core (d : ℚ) (k : ℚ) (A : ℚ) D r v (by positivity)
    (by exact_mod_cast hk25) (by exact_mod_cast hA6400) (by positivity)
    (by exact_mod_cast hkA) (by exact_mod_cast hdA) hDlow' hDup' hDpos hrlow hrup hvlow hvup
  constructor
  · apply Int.le_floor.2
    push_cast
    exact hlow
  · have : ⌊v⌋ < (k : ℤ) + 2 := by
      apply Int.floor_lt.2
      push_cast
      exact hup
    omega

/-! ## The leap -/

theorem UpdatePhysics_leaping_eq (ws : List RECT) (now rnd : Nat) (g : Globals)
    (hs : g.currentState = State.LEAPING) :
    UpdatePhysics false ws now rnd g = leapingTick now { g with windowRects := ws } := by
  simp [UpdatePhysics, hs]

theorem distSq_toNat (g : Globals) :
    (distSq g).toNat =
      (g.targetX - g.posX).natAbs * (g.targetX - g.posX).natAbs +
        (g.targetY - g.posY).natAbs * (g.targetY - g.posY).natAbs := by
  unfold distSq
  have h1 := Int.natAbs_mul_self (a := g.targetX - g.posX)
  have h2 := Int.natAbs_mul_self (a := g.targetY - g.posY)
  omega

theorem distSq_nonneg (g : Globals) : 0 ≤ distSq g := by
  unfold distSq
  nlinarith [mul_self_nonneg (g.targetX - g.posX), mul_self_nonneg (g.targetY - g.posY)]

/-- The LEAPING branch when the squared distance is below 625. -/
theorem leapingTick_arrive (now : Nat) (g : Globals) (h : distSq g < 625) :
    leapingTick now g =
      ChangeState State.IDLE now { g with posX := g.targetX, posY := g.targetY } := by
  have hn : (distSq g).toNat < 625 := by
    have := distSq_nonneg g
    omega
  have hlt := (leapDist_lt_iff (distSq g).toNat).2 hn
  unfold leapingTick
  unfold distSq at hlt
  simp only [Config.LEAP_SPEED, Int.cast_ofNat]
  rw [if_pos hlt]

/-- The LEAPING branch when the squared distance is at least 625: each
coordinate moves by the floor of the rounded product, with the sign of its offset. -/
theorem leapingTick_move (now : Nat) (g : Globals) (h : 625 ≤ distSq g)
    (hx : (g.targetX - g.posX).natAbs < 2 ^ 24) (hy : (g.targetY - g.posY).natAbs < 2 ^ 24) :
    leapingTick now g =
      { g with
        posX := g.posX + Int.sign (g.targetX - g.posX) *
          ⌊toFloat (((g.targetX - g.posX).natAbs : ℚ) *
            toFloat (25 / toFloat (sqrtDouble (distSq g).toNat)))⌋
        posY := g.posY + Int.sign (g.targetY - g.posY) *
          ⌊toFloat (((g.targetY - g.posY).natAbs : ℚ) *
            toFloat (25 / toFloat (sqrtDouble (distSq g).toNat)))⌋ } := by
  have hn : ¬ (distSq g).toNat < 625 := by omega
  have hge : ¬ toFloat (sqrtDouble (distSq g).toNat) < 25 := by
    rw [leapDist_lt_iff]
    exact hn
  have hD25 : 25 ≤ toFloat (sqrtDouble (distSq g).toNat) := le_of_not_lt hge
  obtain ⟨hr0, _, _, _⟩ := leapRatio_bounds _ hD25
  have ex := leapStep_signed (g.targetX - g.posX) hx _ (le_of_lt hr0)
  have ey := leapStep_signed (g.targetY - g.posY) hy _ (le_of_lt hr0)
  unfold leapingTick
  unfold distSq at hge ex ey ⊢
  simp only [Config.LEAP_SPEED, Int.cast_ofNat]
  rw [if_neg hge, ex, ey]

/-- What one coordinate does in a tick that does not arrive: its step is within
one of the truncated exact component and lies between 0 and the offset. -/
theorem leapStep_component (d : ℤ) (n : ℕ) (h625 : 625 ≤ n) (h31 : n < 2 ^ 31)
    (hd : d.natAbs * d.natAbs ≤ n) (hd24 : d.natAbs < 2 ^ 24) :
    |Int.sign d * ⌊toFloat ((d.natAbs : ℚ) * toFloat (25 / toFloat (sqrtDouble n)))⌋ -
        exactStep d n| ≤ 1 ∧
      (0 ≤ d → 0 ≤ Int.sign d * ⌊toFloat ((d.natAbs : ℚ) * toFloat (25 / toFloat (sqrtDouble n)))⌋ ∧
        Int.sign d * ⌊toFloat ((d.natAbs : ℚ) * toFloat (25 / toFloat (sqrtDouble n)))⌋ ≤ d) ∧
      (d ≤ 0 → d ≤ Int.sign d * ⌊toFloat ((d.natAbs : ℚ) * toFloat (25 / toFloat (sqrtDouble n)))⌋ ∧
        Int.sign d * ⌊toFloat ((d.natAbs : ℚ) * toFloat (25 / toFloat (sqrtDouble n)))⌋ ≤ 0) := by
  have hD25 : 25 ≤ toFloat (sqrtDouble n) := by
    by_contra hlt
    have := (leapDist_lt_iff n).1 (lt_of_not_le hlt)
    omega
  obtain ⟨hr0, hr1, _, _⟩ := leapRatio_bounds _ hD25
  obtain ⟨hn1, hn2⟩ := leapStep_near_exact d.natAbs n h625 h31 hd
  obtain ⟨hs0, hs1⟩ := leapStep_le d.natAbs hd24 _ (le_of_lt hr0) hr1
  unfold exactStep
  generalize ⌊toFloat ((d.natAbs : ℚ) * toFloat (25 / toFloat (sqrtDouble n)))⌋ = s at hn1 hn2 hs0 hs1 ⊢
  generalize (Nat.sqrt (625 * d.natAbs * d.natAbs / n) : ℤ) = k at hn1 hn2 ⊢
  rcases lt_trichotomy d 0 with h | h | h
  · rw [Int.sign_eq_neg_one_of_neg h]
    refine ⟨?_, ?_, ?_⟩
    · rw [abs_le]
      constructor <;> omega
    · intro h0
      omega
    · intro _
      constructor <;> omega
  · subst h
    simp
  · rw [Int.sign_eq_one_of_pos h]
    refine ⟨?_, ?_, ?_⟩
    · rw [abs_le]
      constructor <;> omega
    · intro _
      constructor <;> omega
    · intro h0
      omega

/-- The range in which `dx*dx + dy*dy` cannot overflow a 32 bit `int`. -/
theorem distSq_range (g : Globals) (hx : |g.targetX - g.posX| ≤ 32767)
    (hy : |g.targetY - g.posY| ≤ 32767) :
    (distSq g).toNat < 2 ^ 31 ∧ (g.targetX - g.posX).natAbs < 2 ^ 24 ∧
      (g.targetY - g.posY).natAbs < 2 ^ 24 ∧
      (g.targetX - g.posX).natAbs + (g.targetY - g.posY).natAbs < 2 ^ 24 ∧
      (g.targetX - g.posX).natAbs * (g.targetX - g.posX).natAbs ≤ (distSq g).toNat ∧
      (g.targetY - g.posY).natAbs * (g.targetY - g.posY).natAbs ≤ (distSq g).toNat := by
  rw [distSq_toNat]
  have h1 : (g.targetX - g.posX).natAbs ≤ 32767 := by
    have := abs_le.1 hx
    omega
  have h2 : (g.targetY - g.posY).natAbs ≤ 32767 := by
    have := abs_le.1 hy
    omega
  refine ⟨?_, by omega, by omega, by omega, Nat.le_add_right _ _, Nat.le_add_left _ _⟩
  have := Nat.mul_le_mul h1 h1
  have := Nat.mul_le_mul h2 h2
  omega

/-- C9, amended: in a LEAPING tick with offset `(dx, dy)`, if `dx*dx + dy*dy <
625` the position becomes the target and the state IDLE; otherwise, for offsets
of at most 32767 (where `dx*dx + dy*dy` cannot overflow an `int`), the state
stays LEAPING, the step of each coordinate, computed in single precision and
truncated, is the truncated component of the unit direction scaled by 25 or
differs from it by one, and neither coordinate passes its target. -/
theorem UpdatePhysics_leaping_step (ws : List RECT) (now rnd : Nat) (g : Globals)
    (hs : g.currentState = State.LEAPING) :
    (distSq g < 625 →
        (UpdatePhysics false ws now rnd g).posX = g.targetX ∧
        (UpdatePhysics false ws now rnd g).posY = g.targetY ∧
        (UpdatePhysics false ws now rnd g).currentState = State.IDLE) ∧
      (625 ≤ distSq g → |g.targetX - g.posX| ≤ 32767 → |g.targetY - g.posY| ≤ 32767 →
        (UpdatePhysics false ws now rnd g).currentState = State.LEAPING ∧
        |(UpdatePhysics false ws now rnd g).posX - g.posX -
          exactStep (g.targetX - g.posX) (distSq g).toNat| ≤ 1 ∧
        |(UpdatePhysics false ws now rnd g).posY - g.posY -
          exactStep (g.targetY - g.posY) (distSq g).toNat| ≤ 1 ∧
        (g.posX ≤ g.targetX → g.posX ≤ (UpdatePhysics false ws now rnd g).posX ∧
          (UpdatePhysics false ws now rnd g).posX ≤ g.targetX) ∧
        (g.targetX ≤ g.posX → g.targetX ≤ (UpdatePhysics false ws now rnd g).posX ∧
          (UpdatePhysics false ws now rnd g).posX ≤ g.posX) ∧
        (g.posY ≤ g.targetY → g.posY ≤ (UpdatePhysics false ws now rnd g).posY ∧
          (UpdatePhysics false ws now rnd g).posY ≤ g.targetY) ∧
        (g.targetY ≤ g.posY → g.targetY ≤ (UpdatePhysics false ws now rnd g).posY ∧
          (UpdatePhysics false ws now rnd g).posY ≤ g.posY)) := by
  rw [UpdatePhysics_leaping_eq ws now rnd g hs]
  constructor
  · intro h
    rw [leapingTick_arrive now { g with windowRects := ws } h]
    simp [ChangeState, hs]
  · intro h hx hy
    obtain ⟨h31, hx24, hy24, _, hdx, hdy⟩ := distSq_range g hx hy
    have h625 : 625 ≤ (distSq g).toNat := by omega
    obtain ⟨hx1, hx2, hx3⟩ :=
      leapStep_component (g.targetX - g.posX) (distSq g).toNat h625 h31 hdx hx24
    obtain ⟨hy1, hy2, hy3⟩ :=
      leapStep_component (g.targetY - g.posY) (distSq g).toNat h625 h31 hdy hy24
    rw [leapingTick_move now { g with windowRects := ws } h hx24 hy24]
    simp only [distSq] at hx1 hx2 hx3 hy1 hy2 hy3 ⊢
    generalize Int.sign (g.targetX - g.posX) * ⌊toFloat (((g.targetX - g.posX).natAbs : ℚ) *
      toFloat (25 / toFloat (sqrtDouble ((g.targetX - g.posX) * (g.targetX - g.posX) +
        (g.targetY - g.posY) * (g.targetY - g.posY)).toNat)))⌋ = sx at hx1 hx2 hx3 ⊢
    generalize Int.sign (g.targetY - g.posY) * ⌊toFloat (((g.targetY - g.posY).natAbs : ℚ) *
      toFloat (25 / toFloat (sqrtDouble ((g.targetX - g.posX) * (g.targetX - g.posX) +
        (g.targetY - g.posY) * (g.targetY - g.posY)).toNat)))⌋ = sy at hy1 hy2 hy3 ⊢
    refine ⟨hs, ?_, ?_, ?_, ?_, ?_, ?_⟩
    · rw [show g.posX + sx - g.posX = sx by ring]
      exact hx1
    · rw [show g.posY + sy - g.posY = sy by ring]
      exact hy1
    · intro h0
      have := hx2 (by omega)
      constructor <;> omega
    · intro h0
      have := hx3 (by omega)
      constructor <;> omega
    · intro h0
      have := hy2 (by omega)
      constructor <;> omega
    · intro h0
      have := hy3 (by omega)
      constructor <;> omega

theorem leap_offset_one (d s : ℤ) (hs0 : 0 ≤ s) (hs1 : s ≤ d.natAbs) :
    |d - d.sign * s| = |d| - s ∧ (d - d.sign * s) * (d - d.sign * s) = (|d| - s) * (|d| - s) := by
  rcases lt_trichotomy d 0 with h | h | h
  · rw [Int.sign_eq_neg_one_of_neg h, abs_of_neg h]
    have : d - -1 * s ≤ 0 := by omega
    rw [abs_of_nonpos this]
    constructor <;> ring
  · subst h
    have : s = 0 := by simpa using le_antisymm (by simpa using hs1) hs0
    subst this
    simp
  · rw [Int.sign_eq_one_of_pos h, abs_of_pos h]
    have : 0 ≤ d - 1 * s := by omega
    rw [abs_of_nonneg this]
    constructor <;> ring

theorem leap_offsets (dx dy sx sy : ℤ) (hsx0 : 0 ≤ sx) (hsx1 : sx ≤ dx.natAbs) (hsy0 : 0 ≤ sy)
    (hsy1 : sy ≤ dy.natAbs) (hprog : 23 ≤ sx + sy) :
    |dx - dx.sign * sx| ≤ |dx| ∧ |dy - dy.sign * sy| ≤ |dy| ∧
      |dx - dx.sign * sx| + |dy - dy.sign * sy| + 23 ≤ |dx| + |dy| ∧
      (dx - dx.sign * sx) * (dx - dx.sign * sx) + (dy - dy.sign * sy) * (dy - dy.sign * sy) <
        dx * dx + dy * dy := by
  obtain ⟨hx1, hx2⟩ := leap_offset_one dx sx hsx0 hsx1
  obtain ⟨hy1, hy2⟩ := leap_offset_one dy sy hsy0 hsy1
  rw [hx1, hy1, hx2, hy2]
  have hax : (sx : ℤ) ≤ |dx| := by
    have : ((dx.natAbs : ℕ) : ℤ) = |dx| := Int.natCast_natAbs dx
    omega
  have hay : (sy : ℤ) ≤ |dy| := by
    have : ((dy.natAbs : ℕ) : ℤ) = |dy| := Int.natCast_natAbs dy
    omega
  have e1 : dx * dx = |dx| * |dx| := (abs_mul_abs_self dx).symm
  have e2 : dy * dy = |dy| * |dy| := (abs_mul_abs_self dy).symm
  rw [e1, e2]
  refine ⟨by omega, by omega, by omega, ?_⟩
  nlinarith [mul_nonneg hsx0 (sub_nonneg.2 hax), mul_nonneg hsy0 (sub_nonneg.2 hay),
    mul_nonneg hsx0 hsx0, mul_nonneg hsy0 hsy0, mul_self_nonneg (sx - sy), hprog]

/-- A tick of a leap that does not arrive: the state stays LEAPING, the target is
kept, the offsets shrink by at least 23 in sum and the squared distance drops. -/
theorem leap_tick_progress (ws : List RECT) (now rnd : Nat) (g : Globals)
    (hs : g.currentState = State.LEAPING) (hx : |g.targetX - g.posX| ≤ 32767)
    (hy : |g.targetY - g.posY| ≤ 32767) (h : 625 ≤ distSq g) :
    (UpdatePhysics false ws now rnd g).currentState = State.LEAPING ∧
      (UpdatePhysics false ws now rnd g).targetX = g.targetX ∧
      (UpdatePhysics false ws now rnd g).targetY = g.targetY ∧
      |(UpdatePhysics false ws now rnd g).targetX - (UpdatePhysics false ws now rnd g).posX| ≤
        |g.targetX - g.posX| ∧
      |(UpdatePhysics false ws now rnd g).targetY - (UpdatePhysics false ws now rnd g).posY| ≤
        |g.targetY - g.posY| ∧
      |(UpdatePhysics false ws now rnd g).targetX - (UpdatePhysics false ws now rnd g).posX| +
          |(UpdatePhysics false ws now rnd g).targetY - (UpdatePhysics false ws now rnd g).posY| +
          23 ≤ |g.targetX - g.posX| + |g.targetY - g.posY| ∧
      distSq (UpdatePhysics false ws now rnd g) < distSq g := by
  obtain ⟨h31, hx24, hy24, hL, hdx, hdy⟩ := distSq_range g hx hy
  have h625 : 625 ≤ (distSq g).toNat := by omega
  have hD25 : 25 ≤ toFloat (sqrtDouble (distSq g).toNat) := by
    by_contra hlt
    have := (leapDist_lt_iff _).1 (lt_of_not_le hlt)
    omega
  obtain ⟨hr0, hr1, _, _⟩ := leapRatio_bounds _ hD25
  obtain ⟨hsx0, hsx1⟩ := leapStep_le (g.targetX - g.posX).natAbs hx24 _ (le_of_lt hr0) hr1
  obtain ⟨hsy0, hsy1⟩ := leapStep_le (g.targetY - g.posY).natAbs hy24 _ (le_of_lt hr0) hr1
  have hprog := leapStep_progress (g.targetX - g.posX).natAbs (g.targetY - g.posY).natAbs
    (distSq g).toNat (distSq_toNat g) h625 hL
  rw [UpdatePhysics_leaping_eq ws now rnd g hs,
    leapingTick_move now { g with windowRects := ws } h hx24 hy24]
  simp only [distSq] at hsx0 hsx1 hsy0 hsy1 hprog ⊢
  generalize ⌊toFloat (((g.targetX - g.posX).natAbs : ℚ) *
    toFloat (25 / toFloat (sqrtDouble ((g.targetX - g.posX) * (g.targetX - g.posX) +
      (g.targetY - g.posY) * (g.targetY - g.posY)).toNat)))⌋ = sx at hsx0 hsx1 hprog ⊢
  generalize ⌊toFloat (((g.targetY - g.posY).natAbs : ℚ) *
    toFloat (25 / toFloat (sqrtDouble ((g.targetX - g.posX) * (g.targetX - g.posX) +
      (g.targetY - g.posY) * (g.targetY - g.posY)).toNat)))⌋ = sy at hsy0 hsy1 hprog ⊢
  have hsx1' : sx ≤ ((g.targetX - g.posX).natAbs : ℤ) := hsx1
  have hsy1' : sy ≤ ((g.targetY - g.posY).natAbs : ℤ) := hsy1
  obtain ⟨h1, h2, h3, h4⟩ :=
    leap_offsets (g.targetX - g.posX) (g.targetY - g.posY) sx sy hsx0 hsx1' hsy0 hsy1' hprog
  have ex : g.targetX - (g.posX + (g.targetX - g.posX).sign * sx) =
      (g.targetX - g.posX) - (g.targetX - g.posX).sign * sx := by ring
  have ey : g.targetY - (g.posY + (g.targetY - g.posY).sign * sy) =
      (g.targetY - g.posY) - (g.targetY - g.posY).sign * sy := by ring
  rw [ex, ey]
  exact ⟨hs, trivial, trivial, h1, h2, h3, h4⟩

/-- The arithmetic core of the Euclidean progress of a leap tick: when each new
offset is at most the old one scaled by `1 - c / R`, plus one, the new distance
is at most `R - 1 / 256 - 23`. -/
theorem euclid_core (a b a' b' n R c : ℚ) (ha' : 0 ≤ a')
    (hb' : 0 ≤ b') (hn : n = a * a + b * b) (hnR : n ≤ R * R) (hR : 25 + 1 / 256 ≤ R)
    (hc1 : 249 / 10 ≤ c) (hc2 : c ≤ 25) (hxa : a' ≤ a * (1 - c / R) + 1)
    (hxb : b' ≤ b * (1 - c / R) + 1) :
    a' * a' + b' * b' ≤ (R - 1 / 256 - 23) * (R - 1 / 256 - 23) := by
  have hRpos : 0 < R := by linarith
  have hν0 : 0 ≤ 1 - c / R := by
    rw [sub_nonneg, div_le_one hRpos]
    linarith
  have hνR : (1 - c / R) * R = R - c := by
    field_simp
  generalize 1 - c / R = ν at hν0 hνR hxa hxb
  -- the sum of the offsets against the distance
  have hab : a + b ≤ 14143 / 10000 * R := by
    have h2 : (a + b) * (a + b) ≤ 2 * n := by nlinarith [mul_self_nonneg (a - b)]
    have h3 : (a + b) * (a + b) ≤ (14143 / 10000 * R) * (14143 / 10000 * R) := by nlinarith
    exact abs_le_of_sq_le_sq' (by nlinarith) (by positivity) |>.2
  have h1 : a' * a' ≤ (a * ν + 1) * (a * ν + 1) :=
    mul_self_le_mul_self ha' hxa
  have h2 : b' * b' ≤ (b * ν + 1) * (b * ν + 1) :=
    mul_self_le_mul_self hb' hxb
  have h3 : (a * ν + 1) * (a * ν + 1) + (b * ν + 1) * (b * ν + 1) =
      ν * ν * n + 2 * ν * (a + b) + 2 := by
    rw [hn]
    ring
  have h4 : ν * ν * n ≤ (R - c) * (R - c) := by
    have : ν * ν * n ≤ ν * ν * (R * R) := mul_le_mul_of_nonneg_left hnR (mul_nonneg hν0 hν0)
    have e : ν * ν * (R * R) = (ν * R) * (ν * R) := by ring
    rw [e, hνR] at this
    exact this
  have h5 : 2 * ν * (a + b) ≤ 2 * (14143 / 10000) * (R - c) := by
    have : 2 * ν * (a + b) ≤ 2 * ν * (14143 / 10000 * R) :=
      mul_le_mul_of_nonneg_left hab (by linarith)
    have e : 2 * ν * (14143 / 10000 * R) = 2 * (14143 / 10000) * (ν * R) := by ring
    rw [e, hνR] at this
    exact this
  have h6 : (R - c) * (R - c) + 2 * (14143 / 10000) * (R - c) + 2 ≤
      (R - c + 14143 / 10000) * (R - c + 14143 / 10000) := by
    nlinarith
  have h7 : (R - c + 14143 / 10000) * (R - c + 14143 / 10000) ≤
      (R - 1 / 256 - 23) * (R - 1 / 256 - 23) :=
    mul_self_le_mul_self (by linarith) (by linarith)
  linarith


/-- What remains of the offset `d` of a coordinate after a tick that does not
arrive, against the distance bound `R = (A + 1) / 256`, `A = ⌊256 * √n⌋`. -/
theorem leapStep_remaining (d n : ℕ) (h625 : 625 ≤ n) (h31 : n < 2 ^ 31) :
    (d : ℚ) - (⌊toFloat ((d : ℚ) * toFloat (25 / toFloat (sqrtDouble n)))⌋ : ℚ) ≤
      (d : ℚ) * (1 - 25 * (1 - 1 / 8388608) * (1 - 1 / 8388608) /
        (((Nat.sqrt (n * 4 ^ 8) + 1 : ℕ) : ℚ) / 2 ^ 8)) + 1 := by
  have hA2 : n * 4 ^ 8 < (Nat.sqrt (n * 4 ^ 8) + 1) ^ 2 := Nat.lt_succ_sqrt' _
  have hA24 : Nat.sqrt (n * 4 ^ 8) + 1 < 2 ^ 24 := by
    have : Nat.sqrt (n * 4 ^ 8) < 2 ^ 24 - 1 := by
      rw [Nat.sqrt_lt']
      norm_num
      omega
    omega
  have hDup := leapDist_le n (Nat.sqrt (n * 4 ^ 8) + 1) 8 (by omega) hA24 (le_of_lt hA2)
  have hD25 : 25 ≤ toFloat (sqrtDouble n) := by
    by_contra hlt
    have := (leapDist_lt_iff n).1 (lt_of_not_le hlt)
    omega
  generalize (((Nat.sqrt (n * 4 ^ 8) + 1 : ℕ) : ℚ) / 2 ^ 8) = R at hDup ⊢
  generalize toFloat (sqrtDouble n) = D at hDup hD25 ⊢
  have hDpos : 0 < D := by linarith
  have hRpos : 0 < R := by linarith
  obtain ⟨hr0, _, hrlow, _⟩ := leapRatio_bounds D hD25
  generalize toFloat (25 / D) = r at hr0 hrlow ⊢
  have hd0 : (0 : ℚ) ≤ (d : ℚ) := by positivity
  have hx : 0 ≤ (d : ℚ) * r := mul_nonneg hd0 (le_of_lt hr0)
  have hvlow := toFloat_lower ((d : ℚ) * r) hx
  have hfl := Int.lt_floor_add_one (toFloat ((d : ℚ) * r))
  generalize toFloat ((d : ℚ) * r) = v at hvlow hfl ⊢
  generalize (⌊v⌋ : ℚ) = s at hfl ⊢
  -- 25 / R ≤ 25 / D
  have h1 : 25 / R ≤ 25 / D := div_le_div_of_nonneg_left (by norm_num) hDpos hDup
  have h2 : 25 / R * (1 - 1 / 8388608) ≤ r :=
    le_trans (mul_le_mul_of_nonneg_right h1 (by norm_num)) hrlow
  have h3 : (d : ℚ) * (25 / R * (1 - 1 / 8388608)) ≤ (d : ℚ) * r :=
    mul_le_mul_of_nonneg_left h2 hd0
  have h4 : (d : ℚ) * (25 / R * (1 - 1 / 8388608)) * (1 - 1 / 8388608) ≤
      (d : ℚ) * r * (1 - 1 / 8388608) :=
    mul_le_mul_of_nonneg_right h3 (by norm_num)
  have e : (d : ℚ) * (1 - 25 * (1 - 1 / 8388608) * (1 - 1 / 8388608) / R) =
      (d : ℚ) - (d : ℚ) * (25 / R * (1 - 1 / 8388608)) * (1 - 1 / 8388608) := by
    field_simp
    ring
  rw [e]
  linarith


/-- The integer part of the distance after a tick that does not arrive: with new
offsets `a - sx` and `b - sy` bounded as in `leapStep_remaining`, it is at least
23 below the integer part of the old distance. -/
theorem sqrt_progress (a b n : ℕ) (sx sy : ℤ) (hn : n = a * a + b * b) (h625 : 625 ≤ n)
    (hsx : sx ≤ (a : ℤ)) (hsy : sy ≤ (b : ℤ))
    (hxa : (a : ℚ) - (sx : ℚ) ≤ (a : ℚ) * (1 - 25 * (1 - 1 / 8388608) * (1 - 1 / 8388608) /
      (((Nat.sqrt (n * 4 ^ 8) + 1 : ℕ) : ℚ) / 2 ^ 8)) + 1)
    (hxb : (b : ℚ) - (sy : ℚ) ≤ (b : ℚ) * (1 - 25 * (1 - 1 / 8388608) * (1 - 1 / 8388608) /
      (((Nat.sqrt (n * 4 ^ 8) + 1 : ℕ) : ℚ) / 2 ^ 8)) + 1) :
    Nat.sqrt (((a : ℤ) - sx) * ((a : ℤ) - sx) + ((b : ℤ) - sy) * ((b : ℤ) - sy)).toNat + 23 ≤
      Nat.sqrt n := by
  have hA1 : (Nat.sqrt (n * 4 ^ 8)) ^ 2 ≤ n * 4 ^ 8 := Nat.sqrt_le' _
  have hA2 : n * 4 ^ 8 < (Nat.sqrt (n * 4 ^ 8) + 1) ^ 2 := Nat.lt_succ_sqrt' _
  have hA6400 : 6400 ≤ Nat.sqrt (n * 4 ^ 8) := by
    rw [Nat.le_sqrt']
    omega
  generalize Nat.sqrt (n * 4 ^ 8) = A at hA1 hA2 hA6400 hxa hxb
  -- the new offsets are natural numbers
  obtain ⟨a', ha'⟩ := Int.eq_ofNat_of_zero_le (sub_nonneg.2 hsx)
  obtain ⟨b', hb'⟩ := Int.eq_ofNat_of_zero_le (sub_nonneg.2 hsy)
  have hxa' : (a' : ℚ) ≤ (a : ℚ) * (1 - 25 * (1 - 1 / 8388608) * (1 - 1 / 8388608) /
      (((A + 1 : ℕ) : ℚ) / 2 ^ 8)) + 1 := by
    have : ((a' : ℤ) : ℚ) = (a : ℚ) - (sx : ℚ) := by
      rw [← ha']
      push_cast
      ring
    rw [← this] at hxa
    exact_mod_cast hxa
  have hxb' : (b' : ℚ) ≤ (b : ℚ) * (1 - 25 * (1 - 1 / 8388608) * (1 - 1 / 8388608) /
      (((A + 1 : ℕ) : ℚ) / 2 ^ 8)) + 1 := by
    have : ((b' : ℤ) : ℚ) = (b : ℚ) - (sy : ℚ) := by
      rw [← hb']
      push_cast
      ring
    rw [← this] at hxb
    exact_mod_cast hxb
  rw [ha', hb']
  have hnat : ((a' : ℤ) * (a' : ℤ) + (b' : ℤ) * (b' : ℤ)).toNat = a' * a' + b' * b' := by
    have : ((a' : ℤ) * (a' : ℤ) + (b' : ℤ) * (b' : ℤ)) = ((a' * a' + b' * b' : ℕ) : ℤ) := by
      push_cast
      ring
    rw [this, Int.toNat_ofNat]
  rw [hnat]
  -- the core inequality
  have hnq : (n : ℚ) = (a : ℚ) * (a : ℚ) + (b : ℚ) * (b : ℚ) := by
    rw [hn]
    push_cast
    ring
  have hnR : (n : ℚ) ≤ (((A + 1 : ℕ) : ℚ) / 2 ^ 8) * (((A + 1 : ℕ) : ℚ) / 2 ^ 8) := by
    have h1 : ((n * 4 ^ 8 : ℕ) : ℚ) ≤ (((A + 1) ^ 2 : ℕ) : ℚ) := by exact_mod_cast le_of_lt hA2
    push_cast at h1 ⊢
    have e : ((A : ℚ) + 1) / 2 ^ 8 * (((A : ℚ) + 1) / 2 ^ 8) = ((A : ℚ) + 1) ^ 2 / 4 ^ 8 := by
      field_simp
      ring
    rw [e, le_div_iff₀ (by norm_num)]
    exact h1
  have hR : (25 : ℚ) + 1 / 256 ≤ ((A + 1 : ℕ) : ℚ) / 2 ^ 8 := by
    have : (6400 : ℚ) ≤ (A : ℚ) := by exact_mod_cast hA6400
    push_cast
    rw [le_div_iff₀ (by norm_num)]
    linarith
  have hcore := euclid_core (a : ℚ) (b : ℚ) (a' : ℚ) (b' : ℚ) (n : ℚ)
    (((A + 1 : ℕ) : ℚ) / 2 ^ 8) (25 * (1 - 1 / 8388608) * (1 - 1 / 8388608))
    (by positivity) (by positivity) hnq hnR hR (by norm_num) (by norm_num) hxa' hxb'
  have hR0 : ((A + 1 : ℕ) : ℚ) / 2 ^ 8 - 1 / 256 - 23 = (A : ℚ) / 256 - 23 := by
    push_cast
    ring
  rw [hR0] at hcore
  -- back to the integer parts
  have hs' : ((Nat.sqrt (a' * a' + b' * b') : ℕ) : ℚ) * (Nat.sqrt (a' * a' + b' * b') : ℕ) ≤
      ((a' : ℚ) * (a' : ℚ) + (b' : ℚ) * (b' : ℚ)) := by
    have := Nat.sqrt_le (a' * a' + b' * b')
    exact_mod_cast this
  generalize Nat.sqrt (a' * a' + b' * b') = s at hs' ⊢
  have hpos : (0 : ℚ) ≤ (A : ℚ) / 256 - 23 := by
    have : (6400 : ℚ) ≤ (A : ℚ) := by exact_mod_cast hA6400
    linarith
  have hsle : (s : ℚ) ≤ (A : ℚ) / 256 - 23 := by
    by_contra hcon
    have hlt : (A : ℚ) / 256 - 23 < (s : ℚ) := lt_of_not_le hcon
    have : ((A : ℚ) / 256 - 23) * ((A : ℚ) / 256 - 23) < (s : ℚ) * (s : ℚ) :=
      mul_self_lt_mul_self hpos hlt
    linarith
  have hnat2 : (s + 23) * 256 ≤ A := by
    have : ((s : ℚ) + 23) * 256 ≤ (A : ℚ) := by linarith
    exact_mod_cast this
  rw [Nat.le_sqrt']
  have h1 : ((s + 23) * 256) ^ 2 ≤ A ^ 2 := Nat.pow_le_pow_left hnat2 2
  have h2 : ((s + 23) * 256) ^ 2 = (s + 23) ^ 2 * 4 ^ 8 := by ring
  have h3 : (s + 23) ^ 2 * 4 ^ 8 ≤ n * 4 ^ 8 := by
    rw [← h2]
    exact le_trans h1 hA1
  exact Nat.le_of_mul_le_mul_right h3 (by norm_num)


/-- A tick of a leap that does not arrive takes at least 23 off the integer part
of the distance. -/
theorem leap_tick_sqrt (ws : List RECT) (now rnd : Nat) (g : Globals)
    (hs : g.currentState = State.LEAPING) (hx : |g.targetX - g.posX| ≤ 32767)
    (hy : |g.targetY - g.posY| ≤ 32767) (h : 625 ≤ distSq g) :
    Nat.sqrt (distSq (UpdatePhysics false ws now rnd g)).toNat + 23 ≤
      Nat.sqrt (distSq g).toNat := by
  obtain ⟨h31, hx24, hy24, _, _, _⟩ := distSq_range g hx hy
  have h625 : 625 ≤ (distSq g).toNat := by omega
  have hD25 : 25 ≤ toFloat (sqrtDouble (distSq g).toNat) := by
    by_contra hlt
    have := (leapDist_lt_iff _).1 (lt_of_not_le hlt)
    omega
  obtain ⟨hr0, hr1, _, _⟩ := leapRatio_bounds _ hD25
  obtain ⟨hsx0, hsx1⟩ := leapStep_le (g.targetX - g.posX).natAbs hx24 _ (le_of_lt hr0) hr1
  obtain ⟨hsy0, hsy1⟩ := leapStep_le (g.targetY - g.posY).natAbs hy24 _ (le_of_lt hr0) hr1
  have hxa := leapStep_remaining (g.targetX - g.posX).natAbs (distSq g).toNat h625 h31
  have hxb := leapStep_remaining (g.targetY - g.posY).natAbs (distSq g).toNat h625 h31
  have hprog := sqrt_progress (g.targetX - g.posX).natAbs (g.targetY - g.posY).natAbs
    (distSq g).toNat _ _ (distSq_toNat g) h625 hsx1 hsy1 hxa hxb
  rw [UpdatePhysics_leaping_eq ws now rnd g hs,
    leapingTick_move now { g with windowRects := ws } h hx24 hy24]
  refine le_trans (le_of_eq ?_) hprog
  congr 3
  simp only [distSq] at hsx0 hsx1 hsy0 hsy1 ⊢
  generalize ⌊toFloat (((g.targetX - g.posX).natAbs : ℚ) *
    toFloat (25 / toFloat (sqrtDouble ((g.targetX - g.posX) * (g.targetX - g.posX) +
      (g.targetY - g.posY) * (g.targetY - g.posY)).toNat)))⌋ = sx at hsx0 hsx1 ⊢
  generalize ⌊toFloat (((g.targetY - g.posY).natAbs : ℚ) *
    toFloat (25 / toFloat (sqrtDouble ((g.targetX - g.posX) * (g.targetX - g.posX) +
      (g.targetY - g.posY) * (g.targetY - g.posY)).toNat)))⌋ = sy at hsy0 hsy1 ⊢
  obtain ⟨_, h1⟩ := leap_offset_one (g.targetX - g.posX) sx hsx0 hsx1
  obtain ⟨_, h2⟩ := leap_offset_one (g.targetY - g.posY) sy hsy0 hsy1
  have ex : g.targetX - (g.posX + (g.targetX - g.posX).sign * sx) =
      (g.targetX - g.posX) - (g.targetX - g.posX).sign * sx := by ring
  have ey : g.targetY - (g.posY + (g.targetY - g.posY).sign * sy) =
      (g.targetY - g.posY) - (g.targetY - g.posY).sign * sy := by ring
  rw [ex, ey, h1, h2, Int.natCast_natAbs, Int.natCast_natAbs]

/-- The run of a leap: it ends IDLE at the target after at most `S / 23 + 1`
ticks, `S` the integer part of the distance, and is LEAPING before. -/
theorem leap_run (S : ℕ) :
    ∀ (inputs : Nat → TickInput) (g : Globals), g.currentState = State.LEAPING →
      |g.targetX - g.posX| ≤ 32767 → |g.targetY - g.posY| ≤ 32767 →
      Nat.sqrt (distSq g).toNat = S →
      ∃ k, k ≤ S / 23 + 1 ∧ (runPhysics inputs k g).currentState = State.IDLE ∧
        (runPhysics inputs k g).posX = g.targetX ∧ (runPhysics inputs k g).posY = g.targetY ∧
        ∀ j, j < k → (runPhysics inputs j g).currentState = State.LEAPING := by
  induction S using Nat.strong_induction_on with
  | _ S ih =>
    intro inputs g hs hx hy hS
    rcases lt_or_le (distSq g) 625 with h | h
    · refine ⟨1, by omega, ?_, ?_, ?_, ?_⟩
      · simp only [runPhysics]
        rw [UpdatePhysics_leaping_eq _ _ _ g hs,
          leapingTick_arrive _ { g with windowRects := (inputs 0).enumerated } h]
        simp [ChangeState, hs]
      · simp only [runPhysics]
        rw [UpdatePhysics_leaping_eq _ _ _ g hs,
          leapingTick_arrive _ { g with windowRects := (inputs 0).enumerated } h]
        simp [ChangeState, hs]
      · simp only [runPhysics]
        rw [UpdatePhysics_leaping_eq _ _ _ g hs,
          leapingTick_arrive _ { g with windowRects := (inputs 0).enumerated } h]
        simp [ChangeState, hs]
      · intro j hj
        have : j = 0 := by omega
        subst this
        exact hs
    · obtain ⟨h1, h2, h3, h4, h5, _, _⟩ :=
        leap_tick_progress (inputs 0).enumerated (inputs 0).now (inputs 0).rnd g hs hx hy h
      have hsq := leap_tick_sqrt (inputs 0).enumerated (inputs 0).now (inputs 0).rnd g hs hx hy h
      generalize hg' :
        UpdatePhysics false (inputs 0).enumerated (inputs 0).now (inputs 0).rnd g = g'
        at h1 h2 h3 h4 h5 hsq
      have hx' : |g'.targetX - g'.posX| ≤ 32767 := le_trans h4 hx
      have hy' : |g'.targetY - g'.posY| ≤ 32767 := le_trans h5 hy
      obtain ⟨k, hk, hki, hkx, hky, hkj⟩ :=
        ih _ (by omega) (fun i => inputs (i + 1)) g' h1 hx' hy' rfl
      refine ⟨k + 1, by omega, ?_, ?_, ?_, ?_⟩
      · simp only [runPhysics]
        rw [hg']
        exact hki
      · simp only [runPhysics]
        rw [hg', hkx, h2]
      · simp only [runPhysics]
        rw [hg', hky, h3]
      · intro j hj
        cases j with
        | zero => exact hs
        | succ j =>
          simp only [runPhysics]
          rw [hg']
          exact hkj j (by omega)

/-- C8, amended: from LEAPING with offsets of at most 32767 (where `dx*dx +
dy*dy` cannot overflow an `int`), every tick that leaves the state LEAPING
strictly decreases the squared distance to the target, and the run reaches IDLE
exactly at the target within `⌊distance⌋ / 23 + 1` ticks (`⌊distance⌋` the
integer part of the initial straight-line distance), the state being LEAPING
before. -/
theorem leap_terminates (inputs : Nat → TickInput) (g : Globals)
    (hs : g.currentState = State.LEAPING) (hx : |g.targetX - g.posX| ≤ 32767)
    (hy : |g.targetY - g.posY| ≤ 32767) :
    (∀ (ws : List RECT) (now rnd : Nat),
        (UpdatePhysics false ws now rnd g).currentState = State.LEAPING →
          distSq (UpdatePhysics false ws now rnd g) < distSq g) ∧
      ∃ k, k ≤ Nat.sqrt (distSq g).toNat / 23 + 1 ∧
        (runPhysics inputs k g).currentState = State.IDLE ∧
        (runPhysics inputs k g).posX = g.targetX ∧ (runPhysics inputs k g).posY = g.targetY ∧
        ∀ j, j < k → (runPhysics inputs j g).currentState = State.LEAPING := by
  constructor
  · intro ws now rnd hres
    rcases lt_or_le (distSq g) 625 with h | h
    · exfalso
      rw [UpdatePhysics_leaping_eq ws now rnd g hs,
        leapingTick_arrive now { g with windowRects := ws } h] at hres
      simp [ChangeState, hs] at hres
    · exact (leap_tick_progress ws now rnd g hs hx hy h).2.2.2.2.2.2
  · exact leap_run _ inputs g hs hx hy rfl


/-- The arithmetic core of `diagonal_step`: on the diagonal the rounded product
lies in `[17, 18)`. -/
theorem diagonal_core (d A D r v : ℚ) (hd1 : 1 ≤ d) (hA1 : 362 * d ≤ A) (hA2 : A ≤ 363 * d)
    (hDlow : A ≤ D * 256) (hDup : D * 256 ≤ A + 1) (hDpos : 0 < D)
    (hrlow : 25 / D * (1 - 1 / 8388608) ≤ r) (hrup : r ≤ 25 / D * (1 + 1 / 8388608))
    (hvlow : d * r * (1 - 1 / 8388608) ≤ v) (hvup : v ≤ d * r * (1 + 1 / 8388608)) :
    17 ≤ v ∧ v < 18 := by
  have hd0 : 0 ≤ d := by linarith
  have hrD_low : 25 * (1 - 1 / 8388608) ≤ r * D := by
    have h := mul_le_mul_of_nonneg_right hrlow (le_of_lt hDpos)
    have e : 25 / D * (1 - 1 / 8388608) * D = 25 * (1 - 1 / 8388608) := by
      field_simp
      ring
    rw [e] at h
    exact h
  have hrD_up : r * D ≤ 25 * (1 + 1 / 8388608) := by
    have h := mul_le_mul_of_nonneg_right hrup (le_of_lt hDpos)
    have e : 25 / D * (1 + 1 / 8388608) * D = 25 * (1 + 1 / 8388608) := by
      field_simp
      ring
    rw [e] at h
    exact h
  have hvD_low : d * (25 * (1 - 1 / 8388608)) * (1 - 1 / 8388608) ≤ v * D := by
    have h1 : d * (25 * (1 - 1 / 8388608)) ≤ d * (r * D) :=
      mul_le_mul_of_nonneg_left hrD_low hd0
    have h2 : d * (25 * (1 - 1 / 8388608)) * (1 - 1 / 8388608) ≤
        d * (r * D) * (1 - 1 / 8388608) :=
      mul_le_mul_of_nonneg_right h1 (by norm_num)
    have h3 : d * r * (1 - 1 / 8388608) * D ≤ v * D :=
      mul_le_mul_of_nonneg_right hvlow (le_of_lt hDpos)
    have e : d * (r * D) * (1 - 1 / 8388608) = d * r * (1 - 1 / 8388608) * D := by ring
    rw [e] at h2
    exact le_trans h2 h3
  have hvD_up : v * D ≤ d * (25 * (1 + 1 / 8388608)) * (1 + 1 / 8388608) := by
    have h1 : d * (r * D) ≤ d * (25 * (1 + 1 / 8388608)) :=
      mul_le_mul_of_nonneg_left hrD_up hd0
    have h2 : d * (r * D) * (1 + 1 / 8388608) ≤
        d * (25 * (1 + 1 / 8388608)) * (1 + 1 / 8388608) :=
      mul_le_mul_of_nonneg_right h1 (by norm_num)
    have h3 : v * D ≤ d * r * (1 + 1 / 8388608) * D :=
      mul_le_mul_of_nonneg_right hvup (le_of_lt hDpos)
    have e : d * (r * D) * (1 + 1 / 8388608) = d * r * (1 + 1 / 8388608) * D := by ring
    rw [e] at h2
    exact le_trans h3 h2
  constructor
  · have hc : 17 * D ≤ v * D := by
      have e : d * (25 * (1 - 1 / 8388608 : ℚ)) * (1 - 1 / 8388608) =
          d * (25 - 419430375 / 70368744177664) := by ring
      rw [e] at hvD_low
      nlinarith
    exact le_of_mul_le_mul_right hc hDpos
  · have hc : v * D < 18 * D := by
      have e : d * (25 * (1 + 1 / 8388608 : ℚ)) * (1 + 1 / 8388608) =
          d * (25 + 419430425 / 70368744177664) := by ring
      rw [e] at hvD_up
      nlinarith
    exact lt_of_mul_lt_mul_right hc (le_of_lt hDpos)

/-- On the diagonal, with the same offset `d ≥ 18` in both coordinates, the step
of each coordinate is 17. -/
theorem diagonal_step (d : ℕ) (h18 : 18 ≤ d) (hd : d ≤ 32767) :
    ⌊toFloat ((d : ℚ) * toFloat (25 / toFloat (sqrtDouble (d * d + d * d))))⌋ = 17 := by
  have h625 : 625 ≤ d * d + d * d := by nlinarith
  have h31 : d * d + d * d < 2 ^ 31 := by
    have := Nat.mul_le_mul hd hd
    omega
  have hA1 : (Nat.sqrt ((d * d + d * d) * 4 ^ 8)) ^ 2 ≤ (d * d + d * d) * 4 ^ 8 :=
    Nat.sqrt_le' _
  have hA2 : (d * d + d * d) * 4 ^ 8 < (Nat.sqrt ((d * d + d * d) * 4 ^ 8) + 1) ^ 2 :=
    Nat.lt_succ_sqrt' _
  have hA24 : Nat.sqrt ((d * d + d * d) * 4 ^ 8) + 1 < 2 ^ 24 := by
    have : Nat.sqrt ((d * d + d * d) * 4 ^ 8) < 2 ^ 24 - 1 := by
      rw [Nat.sqrt_lt']
      norm_num
      omega
    omega
  have hDlow := le_leapDist (d * d + d * d) (Nat.sqrt ((d * d + d * d) * 4 ^ 8)) 8 (by omega)
    (by omega) hA1
  have hDup := leapDist_le (d * d + d * d) (Nat.sqrt ((d * d + d * d) * 4 ^ 8) + 1) 8
    (by omega) hA24 (le_of_lt hA2)
  generalize Nat.sqrt ((d * d + d * d) * 4 ^ 8) = A at hA1 hA2 hA24 hDlow hDup
  have hA362 : 362 * d ≤ A := by
    have hsq : (362 * d) ^ 2 < (A + 1) ^ 2 := by
      calc (362 * d) ^ 2 = 131044 * (d * d) := by ring
        _ ≤ (d * d + d * d) * 4 ^ 8 := by norm_num; nlinarith
        _ < (A + 1) ^ 2 := hA2
    have := (Nat.pow_lt_pow_iff_left (by norm_num)).1 hsq
    omega
  have hA363 : A ≤ 363 * d := by
    have hsq : A ^ 2 ≤ (363 * d) ^ 2 := by
      calc A ^ 2 ≤ (d * d + d * d) * 4 ^ 8 := hA1
        _ ≤ 131769 * (d * d) := by norm_num; nlinarith
        _ = (363 * d) ^ 2 := by ring
    exact (Nat.pow_le_pow_iff_left (by norm_num)).1 hsq
  have hD25 : 25 ≤ toFloat (sqrtDouble (d * d + d * d)) := by
    by_contra hlt
    have := (leapDist_lt_iff _).1 (lt_of_not_le hlt)
    omega
  generalize toFloat (sqrtDouble (d * d + d * d)) = D at hDlow hDup hD25 ⊢
  have hDpos : 0 < D := by linarith
  obtain ⟨hr0, _, hrlow, hrup⟩ := leapRatio_bounds D hD25
  generalize toFloat (25 / D) = r at hr0 hrlow hrup ⊢
  have hx : 0 ≤ (d : ℚ) * r := mul_nonneg (by positivity) (le_of_lt hr0)
  have hvlow := toFloat_lower ((d : ℚ) * r) hx
  have hvup := toFloat_upper ((d : ℚ) * r) hx
  generalize toFloat ((d : ℚ) * r) = v at hvlow hvup ⊢
  have hDup' : D * 256 ≤ (A : ℚ) + 1 := by
    have := (le_div_iff₀ (by norm_num : (0 : ℚ) < 2 ^ 8)).1 hDup
    push_cast at this
    linarith
  have hDlow' : (A : ℚ) ≤ D * 256 := by
    have := (div_le_iff₀ (by norm_num : (0 : ℚ) < 2 ^ 8)).1 hDlow
    linarith
  obtain ⟨hlow, hup⟩ := diagonal_core (d : ℚ) (A : ℚ) D r v
    (by exact_mod_cast (by omega : 1 ≤ d)) (by exact_mod_cast hA362) (by exact_mod_cast hA363)
    hDlow' hDup' hDpos hrlow hrup hvlow hvup
  rw [Int.floor_eq_iff]
  constructor
  · exact_mod_cast hlow
  · have : v < (17 : ℚ) + 1 := by linarith
    exact_mod_cast this

/-- One tick on the diagonal toward `(400, 400)`: 17 in each coordinate. -/
theorem diagonalLeaper_tick (m : ℕ) (hm : m ≤ 22) :
    UpdatePhysics false [] 0 0 (diagonalLeaper m) = diagonalLeaper (m + 1) := by
  obtain ⟨d, hd⟩ : ∃ d : ℕ, (d : ℤ) = 400 - 17 * (m : ℤ) := ⟨400 - 17 * m, by omega⟩
  have hd18 : 18 ≤ d := by omega
  have hd400 : d ≤ 32767 := by omega
  have hdx : (diagonalLeaper m).targetX - (diagonalLeaper m).posX = (d : ℤ) := by
    simp [diagonalLeaper, leaper, hd]
  have hdy : (diagonalLeaper m).targetY - (diagonalLeaper m).posY = (d : ℤ) := by
    simp [diagonalLeaper, leaper, hd]
  have hn : (distSq (diagonalLeaper m)).toNat = d * d + d * d := by
    rw [distSq_toNat, hdx, hdy]
    simp
  have h625 : 625 ≤ distSq (diagonalLeaper m) := by
    unfold distSq
    rw [hdx, hdy]
    have : (18 : ℤ) ≤ (d : ℤ) := by exact_mod_cast hd18
    nlinarith
  rw [UpdatePhysics_leaping_eq [] 0 0 _ rfl,
    leapingTick_move 0 { diagonalLeaper m with windowRects := [] } h625
      (by rw [hdx]; simp; omega) (by rw [hdy]; simp; omega)]
  have hn' : (distSq { diagonalLeaper m with windowRects := [] }).toNat = d * d + d * d := hn
  have hdx' : ({ diagonalLeaper m with windowRects := [] } : Globals).targetX -
      ({ diagonalLeaper m with windowRects := [] } : Globals).posX = (d : ℤ) := hdx
  have hdy' : ({ diagonalLeaper m with windowRects := [] } : Globals).targetY -
      ({ diagonalLeaper m with windowRects := [] } : Globals).posY = (d : ℤ) := hdy
  rw [hn', hdx', hdy']
  have hsign : Int.sign (d : ℤ) = 1 := Int.sign_eq_one_of_pos (by omega)
  simp only [Int.natAbs_ofNat, hsign, diagonal_step d hd18 hd400]
  simp only [diagonalLeaper, leaper, initialGlobals]
  congr 1

/-- The run on the diagonal toward `(400, 400)`. -/
theorem diagonalLeaper_run (j : ℕ) :
    ∀ m, m + j ≤ 23 →
      runPhysics (fun _ => quietInput) j (diagonalLeaper m) = diagonalLeaper (m + j) := by
  induction j with
  | zero =>
    intro m _
    rfl
  | succ j ih =>
    intro m hm
    have hq : UpdatePhysics false quietInput.enumerated quietInput.now quietInput.rnd
        (diagonalLeaper m) = diagonalLeaper (m + 1) := diagonalLeaper_tick m (by omega)
    simp only [runPhysics]
    rw [hq, ih (m + 1) (by omega)]
    congr 1
    omega

/-- Evaluation of a rounding to single precision: `x` has the exponent `e` and
`x / 2 ^ (e - 23)` is nearer to the integer `m` than to any other. -/
theorem toFloat_eval (x : ℚ) (e m : ℤ) (h1 : (2 : ℚ) ^ e ≤ |x|) (h2 : |x| < (2 : ℚ) ^ (e + 1))
    (h3 : (m : ℚ) - 1 / 2 < x / 2 ^ (e - 23)) (h4 : x / 2 ^ (e - 23) < (m : ℚ) + 1 / 2) :
    toFloat x = (m : ℚ) * 2 ^ (e - 23) := by
  unfold toFloat
  rw [roundFloat_eval 24 x e h1 h2]
  have he : e - ((24 : ℕ) : ℤ) + 1 = e - 23 := by
    push_cast
    ring
  rw [he, roundHalfEven_eq _ m h3 h4]

/-- The horizontal leap of 97: the rounded quotient `25.0f / 97.0f` lies below
`25 / 97`, the product with 97 rounds to `25 - 2 ^ -19`, and the step is 24. -/
theorem leaper_97_step :
    ⌊toFloat ((97 : ℚ) * toFloat (25 / toFloat (sqrtDouble (97 * 97))))⌋ = 24 := by
  have hD : toFloat (sqrtDouble (97 * 97)) = 97 := by
    rw [sqrtDouble_sq 97 (by norm_num)]
    exact_mod_cast toFloat_natCast 97 (by norm_num)
  have hr : toFloat (25 / 97) = (8648049 : ℚ) / 33554432 := by
    rw [toFloat_eval (25 / 97) (-2) 8648049 (by norm_num [abs_of_pos]) (by norm_num [abs_of_pos])
      (by norm_num) (by norm_num)]
    norm_num
  have hv : toFloat ((97 : ℚ) * ((8648049 : ℚ) / 33554432)) = (13107199 : ℚ) / 524288 := by
    rw [toFloat_eval _ 4 13107199 (by norm_num [abs_of_pos]) (by norm_num [abs_of_pos])
      (by norm_num) (by norm_num)]
    norm_num
  rw [hD, hr, hv, Int.floor_eq_iff]
  norm_num

theorem leaper_97_tick :
    UpdatePhysics false [] 0 0 (leaper 97 0) = { leaper 97 0 with posX := 24 } := by
  have hdx : (leaper 97 0).targetX - (leaper 97 0).posX = ((97 : ℕ) : ℤ) := by
    simp [leaper, initialGlobals]
  have hdy : (leaper 97 0).targetY - (leaper 97 0).posY = ((0 : ℕ) : ℤ) := by
    simp [leaper, initialGlobals]
  have hn : (distSq (leaper 97 0)).toNat = 97 * 97 := by
    rw [distSq_toNat, hdx, hdy]
    simp
  have h625 : 625 ≤ distSq (leaper 97 0) := by
    unfold distSq
    rw [hdx, hdy]
    norm_num
  rw [UpdatePhysics_leaping_eq [] 0 0 _ rfl,
    leapingTick_move 0 { leaper 97 0 with windowRects := [] } h625
      (by rw [hdx]; simp) (by rw [hdy]; simp)]
  have hn' : (distSq { leaper 97 0 with windowRects := [] }).toNat = 97 * 97 := hn
  have hdx' : ({ leaper 97 0 with windowRects := [] } : Globals).targetX -
      ({ leaper 97 0 with windowRects := [] } : Globals).posX = ((97 : ℕ) : ℤ) := hdx
  have hdy' : ({ leaper 97 0 with windowRects := [] } : Globals).targetY -
      ({ leaper 97 0 with windowRects := [] } : Globals).posY = ((0 : ℕ) : ℤ) := hdy
  rw [hn', hdx', hdy']
  have e1 : Int.natAbs (((97 : ℕ) : ℤ)) = 97 := rfl
  have e2 : Int.sign (((97 : ℕ) : ℤ)) = 1 := rfl
  have e3 : Int.sign (((0 : ℕ) : ℤ)) = 0 := rfl
  have hstep := leaper_97_step
  rw [e1, e2, e3]
  simp only [Nat.cast_ofNat]
  rw [hstep]
  simp [leaper, initialGlobals]

theorem exactStep_97 : exactStep 97 (97 * 97) = 25 := by
  unfold exactStep
  have h1 : 625 * (97 : ℤ).natAbs * (97 : ℤ).natAbs / (97 * 97) = 25 * 25 := by
    norm_num
  have e2 : Int.sign (97 : ℤ) = 1 := rfl
  rw [h1, Nat.sqrt_eq, e2]
  norm_num

theorem leaper_25_step :
    ⌊toFloat ((25 : ℚ) * toFloat (25 / toFloat (sqrtDouble (25 * 25))))⌋ = 25 := by
  have hD : toFloat (sqrtDouble (25 * 25)) = 25 := by
    rw [sqrtDouble_sq 25 (by norm_num)]
    exact_mod_cast toFloat_natCast 25 (by norm_num)
  have h1 : toFloat (1 : ℚ) = 1 := by exact_mod_cast toFloat_natCast 1 (by norm_num)
  have h25 : toFloat (25 : ℚ) = 25 := by exact_mod_cast toFloat_natCast 25 (by norm_num)
  rw [hD]
  norm_num
  rw [h1]
  norm_num
  rw [h25]
  norm_num

/-- The horizontal leap of 25: the first tick moves onto the target and leaves
the state LEAPING. -/
theorem leaper_25_tick :
    UpdatePhysics false [] 0 0 (leaper 25 0) = { leaper 25 0 with posX := 25 } := by
  have hdx : (leaper 25 0).targetX - (leaper 25 0).posX = ((25 : ℕ) : ℤ) := by
    simp [leaper, initialGlobals]
  have hdy : (leaper 25 0).targetY - (leaper 25 0).posY = ((0 : ℕ) : ℤ) := by
    simp [leaper, initialGlobals]
  have hn : (distSq (leaper 25 0)).toNat = 25 * 25 := by
    rw [distSq_toNat, hdx, hdy]
    simp
  have h625 : 625 ≤ distSq (leaper 25 0) := by
    unfold distSq
    rw [hdx, hdy]
    norm_num
  rw [UpdatePhysics_leaping_eq [] 0 0 _ rfl,
    leapingTick_move 0 { leaper 25 0 with windowRects := [] } h625
      (by rw [hdx]; simp) (by rw [hdy]; simp)]
  have hn' : (distSq { leaper 25 0 with windowRects := [] }).toNat = 25 * 25 := hn
  have hdx' : ({ leaper 25 0 with windowRects := [] } : Globals).targetX -
      ({ leaper 25 0 with windowRects := [] } : Globals).posX = ((25 : ℕ) : ℤ) := hdx
  have hdy' : ({ leaper 25 0 with windowRects := [] } : Globals).targetY -
      ({ leaper 25 0 with windowRects := [] } : Globals).posY = ((0 : ℕ) : ℤ) := hdy
  rw [hn', hdx', hdy']
  have e1 : Int.natAbs (((25 : ℕ) : ℤ)) = 25 := rfl
  have e2 : Int.sign (((25 : ℕ) : ℤ)) = 1 := rfl
  have e3 : Int.sign (((0 : ℕ) : ℤ)) = 0 := rfl
  have hstep := leaper_25_step
  rw [e1, e2, e3]
  simp only [Nat.cast_ofNat]
  rw [hstep]
  simp [leaper, initialGlobals]

/-- C8 as stated fails.  From the origin to the target `(25, 0)` the distance is
25 and `ceil(25 / 25) = 1`, yet after one tick the character stands on the
target in state LEAPING and is IDLE only after the second tick.  From the origin
to `(400, 400)` the squared distance is 320000, so the distance is at most
`25 * 23` and `ceil(distance / 25) = 23`, yet the state is LEAPING after each of
the first 23 ticks, at `(391, 391)` after the last of them. -/
theorem leap_bound_counterexample :
    (leaper 25 0).currentState = State.LEAPING ∧ distSq (leaper 25 0) = 25 * 25 ∧
      (runPhysics (fun _ => quietInput) 0 (leaper 25 0)).currentState = State.LEAPING ∧
      (runPhysics (fun _ => quietInput) 1 (leaper 25 0)).currentState = State.LEAPING ∧
      (runPhysics (fun _ => quietInput) 1 (leaper 25 0)).posX = 25 ∧
      (runPhysics (fun _ => quietInput) 2 (leaper 25 0)).currentState = State.IDLE ∧
      (leaper 400 400).currentState = State.LEAPING ∧ distSq (leaper 400 400) = 320000 ∧
      (320000 : Int) ≤ (25 * 23) * (25 * 23) ∧
      (∀ k, k ≤ 23 →
        (runPhysics (fun _ => quietInput) k (leaper 400 400)).currentState = State.LEAPING) ∧
      (runPhysics (fun _ => quietInput) 23 (leaper 400 400)).posX = 391 ∧
      (runPhysics (fun _ => quietInput) 23 (leaper 400 400)).posY = 391 := by
  have hq : UpdatePhysics false quietInput.enumerated quietInput.now quietInput.rnd
      (leaper 25 0) = { leaper 25 0 with posX := 25 } := leaper_25_tick
  have h1 : runPhysics (fun _ => quietInput) 1 (leaper 25 0) = { leaper 25 0 with posX := 25 } := by
    simp only [runPhysics]
    rw [hq]
  have h2 : runPhysics (fun _ => quietInput) 2 (leaper 25 0) =
      UpdatePhysics false [] 0 0 { leaper 25 0 with posX := 25 } := by
    simp only [runPhysics]
    rw [hq]
    rfl
  have h3 : (UpdatePhysics false [] 0 0 { leaper 25 0 with posX := 25 }).currentState =
      State.IDLE := by
    rw [UpdatePhysics_leaping_eq [] 0 0 { leaper 25 0 with posX := 25 } rfl,
      leapingTick_arrive 0 _ (by decide)]
    rfl
  have hd : ∀ k, k ≤ 23 → runPhysics (fun _ => quietInput) k (leaper 400 400) =
      diagonalLeaper k := by
    intro k hk
    have := diagonalLeaper_run k 0 (by omega)
    rw [Nat.zero_add] at this
    exact this
  refine ⟨rfl, by decide, rfl, ?_, ?_, ?_, rfl, by decide, by decide, ?_, ?_, ?_⟩
  · rw [h1]
    rfl
  · rw [h1]
  · rw [h2, h3]
  · intro k hk
    rw [hd k hk]
    rfl
  · rw [hd 23 (le_refl _)]
    rfl
  · rw [hd 23 (le_refl _)]
    rfl


/-- Witness of C8: the leap from the origin to `(25, 0)`. -/
theorem leap_terminates_witness :
    (leaper 25 0).currentState = State.LEAPING ∧
      |(leaper 25 0).targetX - (leaper 25 0).posX| ≤ 32767 ∧
      |(leaper 25 0).targetY - (leaper 25 0).posY| ≤ 32767 ∧
      ((∀ (ws : List RECT) (now rnd : Nat),
          (UpdatePhysics false ws now rnd (leaper 25 0)).currentState = State.LEAPING →
            distSq (UpdatePhysics false ws now rnd (leaper 25 0)) < distSq (leaper 25 0)) ∧
        ∃ k, k ≤ Nat.sqrt (distSq (leaper 25 0)).toNat / 23 + 1 ∧
          (runPhysics (fun _ => quietInput) k (leaper 25 0)).currentState = State.IDLE ∧
          (runPhysics (fun _ => quietInput) k (leaper 25 0)).posX = (leaper 25 0).targetX ∧
          (runPhysics (fun _ => quietInput) k (leaper 25 0)).posY = (leaper 25 0).targetY ∧
          ∀ j, j < k →
            (runPhysics (fun _ => quietInput) j (leaper 25 0)).currentState = State.LEAPING) :=
  ⟨rfl, by decide, by decide,
    leap_terminates (fun _ => quietInput) (leaper 25 0) rfl (by decide) (by decide)⟩

/-- C9 as stated fails.  From the origin to the target `(97, 0)` the squared
distance is `97 * 97 ≥ 625` and the unit direction is `(1, 0)`, so the truncated
scaled component is 25.  The code computes `ratio = 25.0f / 97.0f`, which rounds
down to `8648049 / 2^25 = 0.2577319443…` (below `25 / 97 = 0.2577319587…`), and
`97.0f * ratio = 24.9999986…`, which rounds to the float `13107199 / 2^19 =
24.9999981…`; the cast `(int)` gives 24 and the tick ends at x = 24, state
LEAPING.  (In double precision `97 * (25.0 / 97)` is below 25 as well.) -/
theorem UpdatePhysics_leaping_exact_counterexample :
    (leaper 97 0).currentState = State.LEAPING ∧ 625 ≤ distSq (leaper 97 0) ∧
      (distSq (leaper 97 0)).toNat = 97 * 97 ∧
      exactStep ((leaper 97 0).targetX - (leaper 97 0).posX) (97 * 97) = 25 ∧
      (UpdatePhysics false [] 0 0 (leaper 97 0)).currentState = State.LEAPING ∧
      (UpdatePhysics false [] 0 0 (leaper 97 0)).posX = 24 ∧
      (UpdatePhysics false [] 0 0 (leaper 97 0)).posX ≠
        (leaper 97 0).posX + exactStep ((leaper 97 0).targetX - (leaper 97 0).posX) (97 * 97) := by
  have hx : (leaper 97 0).targetX - (leaper 97 0).posX = 97 := by decide
  rw [hx, exactStep_97, leaper_97_tick]
  exact ⟨rfl, by decide, by decide, rfl, rfl, rfl, by decide⟩

/-- Witness of C9: the leap from the origin to `(97, 0)`. -/
theorem UpdatePhysics_leaping_step_witness :
    (leaper 97 0).currentState = State.LEAPING ∧ 625 ≤ distSq (leaper 97 0) ∧
      |(leaper 97 0).targetX - (leaper 97 0).posX| ≤ 32767 ∧
      |(leaper 97 0).targetY - (leaper 97 0).posY| ≤ 32767 ∧
      (UpdatePhysics false [] 0 0 (leaper 97 0)).currentState = State.LEAPING ∧
      |(UpdatePhysics false [] 0 0 (leaper 97 0)).posX - (leaper 97 0).posX -
        exactStep ((leaper 97 0).targetX - (leaper 97 0).posX) (distSq (leaper 97 0)).toNat| ≤ 1 :=
  have h := (UpdatePhysics_leaping_step [] 0 0 (leaper 97 0) rfl).2 (by decide) (by decide)
    (by decide)
  ⟨rfl, by decide, by decide, by decide, h.1, h.2.1⟩

/-- C10: in IDLE, WALKING, SITTING or SLEEPING, when the last state change was at
clock value `t0` and less than `MIN_STATE_TIME` = 2000 ms have elapsed at `now`,
`UpdateAI` returns the globals unchanged (state, facing, leap target and
state-change timestamp included), for every draw sequence, movie flag, window
and monitor list. -/
theorem UpdateAI_dwell (watching : Bool) (now : Nat) (rand : Nat → Nat) (g : Globals) (t0 : Nat)
    (hs : g.currentState = State.IDLE ∨ g.currentState = State.WALKING ∨
      g.currentState = State.SITTING ∨ g.currentState = State.SLEEPING)
    (hlast : g.lastStateChangeTime = t0 % 2 ^ 32) (hle : t0 ≤ now)
    (hd : now - t0 < Config.MIN_STATE_TIME) :
    UpdateAI watching now rand g = g := by
  have hgate : (((now % 2 ^ 32 : Nat) : Int) - (g.lastStateChangeTime : Int)) % 2 ^ 32 <
      (Config.MIN_STATE_TIME : Int) := by
    rw [hlast]
    simp only [Config.MIN_STATE_TIME] at hd ⊢
    omega
  unfold UpdateAI
  rcases hs with h | h | h | h <;>
    rw [if_neg (by simp [h]), if_neg (by simp [h]), if_pos hgate]


/-- Witness of C10: a walker whose state changed at 1000, asked at 2500. -/
theorem UpdateAI_dwell_witness :
    ((standing State.WALKING).currentState = State.IDLE ∨
        (standing State.WALKING).currentState = State.WALKING ∨
        (standing State.WALKING).currentState = State.SITTING ∨
        (standing State.WALKING).currentState = State.SLEEPING) ∧
      ({ standing State.WALKING with lastStateChangeTime := 1000 } : Globals).lastStateChangeTime =
        1000 % 2 ^ 32 ∧
      1000 ≤ 2500 ∧ 2500 - 1000 < Config.MIN_STATE_TIME ∧
      UpdateAI true 2500 (fun _ => 0) { standing State.WALKING with lastStateChangeTime := 1000 } =
        { standing State.WALKING with lastStateChangeTime := 1000 } :=
  ⟨Or.inr (Or.inl rfl), by decide, by decide, by decide,
    UpdateAI_dwell true 2500 (fun _ => 0) { standing State.WALKING with lastStateChangeTime := 1000 }
      1000 (Or.inr (Or.inl rfl)) (by decide) (by decide) (by decide)⟩

/-! ## The behaviour step -/

/-- The dwell timer is the time since the state change at `t0`, as long as that
is less than `2 ^ 32` ms. -/
theorem dwellTime_eq (now t0 : Nat) (g : Globals) (hlast : g.lastStateChangeTime = t0 % 2 ^ 32)
    (hle : t0 ≤ now) (h : now - t0 < 2 ^ 32) : dwellTime now g = ((now - t0 : Nat) : Int) := by
  unfold dwellTime
  rw [hlast]
  omega

/-- Below the minimum dwell time `UpdateAI` returns at the dwell gate, from every
state but PREPARE_JUMP. -/
theorem UpdateAI_gate_closed (watching : Bool) (now : Nat) (rand : Nat → Nat) (g : Globals)
    (h1 : g.currentState ≠ State.PREPARE_JUMP)
    (hgate : dwellTime now g < (Config.MIN_STATE_TIME : Int)) :
    UpdateAI watching now rand g = g := by
  unfold dwellTime at hgate
  unfold UpdateAI
  by_cases h0 : g.currentState = State.FALLING ∨ g.currentState = State.LEAPING
  · rw [if_pos h0]
  · rw [if_neg h0, if_neg h1, if_pos hgate]

/-- Past the dwell gate, `UpdateAI` on an IDLE character is the IDLE branch
followed by the movie detection. -/
theorem UpdateAI_idle_open (watching : Bool) (now : Nat) (rand : Nat → Nat) (g : Globals)
    (hs : g.currentState = State.IDLE)
    (hgate : (Config.MIN_STATE_TIME : Int) ≤ dwellTime now g) :
    UpdateAI watching now rand g =
      movieDetection watching now (idleBranch now (rand 0 % 10000) rand g) := by
  unfold dwellTime at hgate
  unfold UpdateAI
  rw [if_neg (by simp [hs]), if_neg (by simp [hs]), if_neg (not_lt.2 hgate)]
  simp only [hs, if_true]

/-- Past the dwell gate, `UpdateAI` on a WATCHING_MOVIE character is the movie
detection. -/
theorem UpdateAI_movie_open (watching : Bool) (now : Nat) (rand : Nat → Nat) (g : Globals)
    (hs : g.currentState = State.WATCHING_MOVIE)
    (hgate : (Config.MIN_STATE_TIME : Int) ≤ dwellTime now g) :
    UpdateAI watching now rand g = movieDetection watching now g := by
  unfold dwellTime at hgate
  unfold UpdateAI
  rw [if_neg (by simp [hs]), if_neg (by simp [hs]), if_neg (not_lt.2 hgate)]
  simp [hs]

/-- After `ChangeState s` the state is `s`. -/
theorem ChangeState_state (s : State) (now : Nat) (g : Globals) :
    (ChangeState s now g).currentState = s := by
  unfold ChangeState
  split_ifs with h
  · exact h
  · rfl

/-- The jump search keeps the state or enters PREPARE_JUMP. -/
theorem jumpSearch_state (now draw bias pick : Nat) (g : Globals) :
    (jumpSearch now draw bias pick g).currentState = g.currentState ∨
      (jumpSearch now draw bias pick g).currentState = State.PREPARE_JUMP := by
  unfold jumpSearch
  split_ifs with h
  · dsimp only
    split
    · split_ifs
      · split
        · right
          exact ChangeState_state _ _ _
        · left; rfl
      · left; rfl
    · left; rfl
  · left; rfl

/-- The states the IDLE branch can end in. -/
theorem idleBranch_state (now r : Nat) (rand : Nat → Nat) (g : Globals)
    (hs : g.currentState = State.IDLE) :
    (idleBranch now r rand g).currentState = State.IDLE ∨
      (idleBranch now r rand g).currentState = State.WALKING ∨
      (idleBranch now r rand g).currentState = State.SITTING ∨
      (idleBranch now r rand g).currentState = State.SLEEPING ∨
      (idleBranch now r rand g).currentState = State.PREPARE_JUMP := by
  unfold idleBranch
  split_ifs
  · rcases jumpSearch_state now (rand 2) (rand 3) (rand 4)
      (ChangeState State.WALKING now { g with facingRight := decide (rand 1 % 2 = 0) }) with h | h
    · rw [ChangeState_state] at h
      exact Or.inr (Or.inl h)
    · exact Or.inr (Or.inr (Or.inr (Or.inr h)))
  · rcases jumpSearch_state now (rand 1) (rand 2) (rand 3) (ChangeState State.SITTING now g)
      with h | h
    · rw [ChangeState_state] at h
      exact Or.inr (Or.inr (Or.inl h))
    · exact Or.inr (Or.inr (Or.inr (Or.inr h)))
  · rcases jumpSearch_state now (rand 1) (rand 2) (rand 3) (ChangeState State.SLEEPING now g)
      with h | h
    · rw [ChangeState_state] at h
      exact Or.inr (Or.inr (Or.inr (Or.inl h)))
    · exact Or.inr (Or.inr (Or.inr (Or.inr h)))
  · rcases jumpSearch_state now (rand 1) (rand 2) (rand 3) g with h | h
    · rw [hs] at h
      exact Or.inl h
    · exact Or.inr (Or.inr (Or.inr (Or.inr h)))

/-- With the movie signal true the movie detection ends in WATCHING_MOVIE, from
every state it does not exclude. -/
theorem movieDetection_true (now : Nat) (g : Globals)
    (h1 : g.currentState ≠ State.FALLING) (h2 : g.currentState ≠ State.LEAPING)
    (h3 : g.currentState ≠ State.PREPARE_JUMP) :
    (movieDetection true now g).currentState = State.WATCHING_MOVIE := by
  unfold movieDetection
  by_cases h : g.currentState = State.WATCHING_MOVIE
  · simp [h]
  · simp [h, h1, h2, h3, ChangeState_state]

/-- The movie detection leaves PREPARE_JUMP alone. -/
theorem movieDetection_keeps (watching : Bool) (now : Nat) (g : Globals)
    (h : g.currentState = State.PREPARE_JUMP) : movieDetection watching now g = g := by
  unfold movieDetection
  cases watching <;> simp [h]

/-- With the movie signal false the movie detection only acts on WATCHING_MOVIE. -/
theorem movieDetection_false (now : Nat) (g : Globals)
    (h : g.currentState ≠ State.WATCHING_MOVIE) : movieDetection false now g = g := by
  unfold movieDetection
  simp [h]

/-- With the movie signal false WATCHING_MOVIE ends. -/
theorem movieDetection_end (now : Nat) (g : Globals)
    (h : g.currentState = State.WATCHING_MOVIE) :
    movieDetection false now g = ChangeState State.IDLE now g := by
  unfold movieDetection
  simp [h]

/-! ## The jump search -/

/-- Division by two that truncates toward zero stays within one half. -/
theorem tdiv_two_bounds (a : Int) : a - 1 ≤ 2 * a.tdiv 2 ∧ 2 * a.tdiv 2 ≤ a + 1 := by
  rcases le_total 0 a with h0 | h0
  · rw [Int.tdiv_eq_ediv h0 (by decide)]
    omega
  · have h1 : a.tdiv 2 = -((-a) / 2) := by
      rw [← Int.tdiv_eq_ediv (by omega : 0 ≤ -a) (by decide), Int.neg_tdiv, neg_neg]
    rw [h1]
    omega

/-- A well formed window contains its own top-centre point. -/
theorem ledge_covered (w : RECT) (hw : WellFormed w) : Covers w (ledge w).x (ledge w).y := by
  obtain ⟨h1, h2⟩ := hw
  have h := tdiv_two_bounds (w.left + w.right)
  unfold Covers ledge
  dsimp only
  refine ⟨?_, ?_, le_refl _, h2⟩ <;> omega

/-- The full scan of `IsPointObscured` finds every window that covers the point. -/
theorem IsPointObscured_of_mem (ws : List RECT) (w : RECT) (x y : Int) (hmem : w ∈ ws)
    (hc : Covers w x y) : IsPointObscured ws x y (-1) = true := by
  rw [IsPointObscured_all]
  obtain ⟨i, hi, hw⟩ := List.getElem_of_mem hmem
  exact ⟨i, w, hi, by rw [List.getElem?_eq_getElem hi, hw], hc⟩

/-- The candidate loop of the jump search discards a well formed window of the
scanned list: its top-centre point is obscured by the window itself. -/
theorem keepsLedge_false (g : Globals) (w : RECT) (hmem : w ∈ g.windowRects)
    (hw : WellFormed w) : keepsLedge g w = false := by
  have h := IsPointObscured_of_mem g.windowRects w _ _ hmem (ledge_covered w hw)
  unfold keepsLedge
  simp [h]

theorem targets_nil (g : Globals) (hw : ∀ w ∈ g.windowRects, WellFormed w) :
    targetsUp g = [] ∧ targetsDown g = [] := by
  have h : g.windowRects.filter (keepsLedge g) = [] := by
    rw [List.filter_eq_nil_iff]
    intro w hmem
    rw [keepsLedge_false g w hmem (hw w hmem)]
    exact Bool.false_ne_true
  unfold targetsUp targetsDown
  rw [h]
  exact ⟨rfl, rfl⟩

theorem jumpSearch_nil (now draw bias pick : Nat) (g : Globals)
    (hu : targetsUp g = []) (hd : targetsDown g = []) :
    jumpSearch now draw bias pick g = g := by
  unfold jumpSearch
  rw [hu, hd]
  simp [chosenList]

theorem ChangeState_windowRects (s : State) (now : Nat) (g : Globals) :
    (ChangeState s now g).windowRects = g.windowRects := by
  unfold ChangeState
  split_ifs <;> rfl

/-- The IDLE branch when every scanned window is well formed: the jump search
keeps no candidate and the branch is the banded transition alone. -/
theorem idleBranch_wellFormed (now r : Nat) (rand : Nat → Nat) (g : Globals)
    (hw : ∀ w ∈ g.windowRects, WellFormed w) :
    idleBranch now r rand g =
      if r < Config.THRESH_IDLE_TO_WALK then
        ChangeState State.WALKING now { g with facingRight := decide (rand 1 % 2 = 0) }
      else if r < Config.THRESH_IDLE_TO_SIT then ChangeState State.SITTING now g
      else if r < Config.THRESH_IDLE_TO_SLEEP then ChangeState State.SLEEPING now g
      else g := by
  have key : ∀ (d b p : Nat) (g' : Globals), g'.windowRects = g.windowRects →
      jumpSearch now d b p g' = g' := by
    intro d b p g' h
    have hw' : ∀ w ∈ g'.windowRects, WellFormed w := by
      rw [h]
      exact hw
    exact jumpSearch_nil now d b p g' (targets_nil g' hw').1 (targets_nil g' hw').2
  unfold idleBranch
  split_ifs
  · exact key _ _ _ _ (ChangeState_windowRects _ _ _)
  · exact key _ _ _ _ (ChangeState_windowRects _ _ _)
  · exact key _ _ _ _ (ChangeState_windowRects _ _ _)
  · exact key _ _ _ _ rfl

/-! ## Movie detection behind the dwell gate -/

/-- C11 as stated fails.  A character in WATCHING_MOVIE whose state changed at
1000 is asked at 2500 with the movie signal false: the dwell timer is at 1500 ms,
less than 2000 ms, the dwell gate returns before the movie detection and the
state is still WATCHING_MOVIE.  An IDLE character in the same position with the
movie signal true stays IDLE. -/
theorem UpdateAI_movie_gate_counterexample :
    (settled State.WATCHING_MOVIE).currentState = State.WATCHING_MOVIE ∧
      dwellTime 2500 (settled State.WATCHING_MOVIE) = 1500 ∧
      (1500 : Int) < Config.MIN_STATE_TIME ∧
      (UpdateAI false 2500 (fun _ => 0) (settled State.WATCHING_MOVIE)).currentState =
        State.WATCHING_MOVIE ∧
      (UpdateAI false 2500 (fun _ => 0) (settled State.WATCHING_MOVIE)).currentState ≠
        State.IDLE ∧
      (settled State.IDLE).currentState = State.IDLE ∧
      dwellTime 2500 (settled State.IDLE) = 1500 ∧
      (UpdateAI true 2500 (fun _ => 0) (settled State.IDLE)).currentState = State.IDLE ∧
      (UpdateAI true 2500 (fun _ => 0) (settled State.IDLE)).currentState ≠
        State.WATCHING_MOVIE := by
  decide

/-- C11, amended: the movie-driven transitions pass the dwell gate like the
random ones.  While the dwell timer is below `MIN_STATE_TIME` = 2000 ms,
`UpdateAI` leaves a WATCHING_MOVIE character unchanged when the movie signal is
false and an IDLE character unchanged when it is true.  Once the dwell timer has
reached 2000 ms, a WATCHING_MOVIE character with the signal false is IDLE after
that tick, with the state-change timestamp at the clock, and an IDLE character
with the signal true ends that tick in WATCHING_MOVIE, unless the IDLE branch of
that tick entered PREPARE_JUMP, which the movie detection leaves alone. -/
theorem UpdateAI_movie_gated (now : Nat) (rand : Nat → Nat) (g : Globals) :
    (dwellTime now g < Config.MIN_STATE_TIME →
      (g.currentState = State.WATCHING_MOVIE → UpdateAI false now rand g = g) ∧
        (g.currentState = State.IDLE → UpdateAI true now rand g = g)) ∧
      ((Config.MIN_STATE_TIME : Int) ≤ dwellTime now g →
        (g.currentState = State.WATCHING_MOVIE →
          (UpdateAI false now rand g).currentState = State.IDLE ∧
            (UpdateAI false now rand g).lastStateChangeTime = now % 2 ^ 32) ∧
          (g.currentState = State.IDLE →
            ((idleBranch now (rand 0 % 10000) rand g).currentState ≠ State.PREPARE_JUMP →
              (UpdateAI true now rand g).currentState = State.WATCHING_MOVIE) ∧
            ((idleBranch now (rand 0 % 10000) rand g).currentState = State.PREPARE_JUMP →
              (UpdateAI true now rand g).currentState = State.PREPARE_JUMP))) := by
  refine ⟨fun hd => ⟨fun hs => ?_, fun hs => ?_⟩, fun h1 => ⟨fun hs => ?_, fun hs => ?_⟩⟩
  · exact UpdateAI_gate_closed false now rand g (by simp [hs]) hd
  · exact UpdateAI_gate_closed true now rand g (by simp [hs]) hd
  · rw [UpdateAI_movie_open false now rand g hs h1, movieDetection_end now g hs]
    simp [ChangeState, hs]
  · rw [UpdateAI_idle_open true now rand g hs h1]
    constructor
    · intro hp
      refine movieDetection_true now _ ?_ ?_ hp <;>
        rcases idleBranch_state now (rand 0 % 10000) rand g hs with h | h | h | h | h <;>
          simp [h]
    · intro hp
      rw [movieDetection_keeps true now _ hp]
      exact hp

/-- Witness of C11: a WATCHING_MOVIE character whose state changed at 1000, asked
at 3500 with the movie signal false, is IDLE after the tick. -/
theorem UpdateAI_movie_gated_witness :
    (Config.MIN_STATE_TIME : Int) ≤ dwellTime 3500 (settled State.WATCHING_MOVIE) ∧
      (settled State.WATCHING_MOVIE).currentState = State.WATCHING_MOVIE ∧
      (UpdateAI false 3500 (fun _ => 0) (settled State.WATCHING_MOVIE)).currentState =
        State.IDLE :=
  ⟨by decide, rfl,
    (((UpdateAI_movie_gated 3500 (fun _ => 0) (settled State.WATCHING_MOVIE)).2
      (by decide)).1 rfl).1⟩

/-! ## The walking step -/

theorem IsInAnyMonitor_iff (monitors : List RectArea) (x y : Int) :
    IsInAnyMonitor monitors x y = true ↔ InSomeMonitor monitors x y := by
  unfold IsInAnyMonitor InSomeMonitor
  simp only [List.any_eq_true, decide_eq_true_eq, ge_iff_le]

/-- The elevator check and the floor check write the foot height only. -/
theorem elevatorCheck_frame (g : Globals) : ∃ y, (elevatorCheck g).g = { g with posY := y } := by
  unfold elevatorCheck
  cases firstWindow (elevatorTest g.windowRects g.posX g.posY) 0 g.windowRects with
  | none => exact ⟨g.posY, rfl⟩
  | some ir => exact ⟨ir.2.top, rfl⟩

theorem floorCheck_frame (l : Ground) : ∃ y, (floorCheck l).g = { l.g with posY := y } := by
  unfold floorCheck
  split_ifs
  · cases l.g.monitors.find? (floorTest l.g.posX l.g.posY) with
    | none => exact ⟨l.g.posY, rfl⟩
    | some mon => exact ⟨mon.bottom, rfl⟩
  · exact ⟨l.g.posY, rfl⟩

/-- The occlusion logic leaves the globals of a character that is neither
SLEEPING nor WATCHING_MOVIE as they are. -/
theorem occlusionLogic_awake (now rnd : Nat) (l : Ground)
    (h1 : l.g.currentState ≠ State.SLEEPING) (h2 : l.g.currentState ≠ State.WATCHING_MOVIE) :
    (occlusionLogic now rnd l).g = l.g := by
  unfold occlusionLogic
  have h : ¬ (l.g.currentState = State.SLEEPING ∨ l.g.currentState = State.WATCHING_MOVIE) := by
    rintro (h | h)
    · exact h1 h
    · exact h2 h
  simp only [h, if_false]
  split_ifs <;> rfl

/-- The support checks on a WALKING character write the foot height only. -/
theorem supportChecks_walking (now rnd : Nat) (g : Globals)
    (hs : g.currentState = State.WALKING) :
    (supportChecks now rnd g).g = { g with posY := (supportChecks now rnd g).g.posY } := by
  obtain ⟨y1, h1⟩ := elevatorCheck_frame g
  obtain ⟨y2, h2⟩ := floorCheck_frame (elevatorCheck g)
  have h3 : (floorCheck (elevatorCheck g)).g = { g with posY := y2 } := by
    rw [h2, h1]
  have h4 : (supportChecks now rnd g).g = { g with posY := y2 } := by
    unfold supportChecks
    rw [occlusionLogic_awake now rnd _ (by rw [h3]; simp [hs]) (by rw [h3]; simp [hs]), h3]
  rw [h4]

/-- The tick of a WALKING character that the support checks leave supported. -/
theorem UpdatePhysics_walking (ws : List RECT) (now rnd : Nat) (g : Globals)
    (hs : g.currentState = State.WALKING)
    (hsup : (supportChecks now rnd { g with windowRects := ws }).supported = true) :
    UpdatePhysics false ws now rnd g =
      if IsInAnyMonitor g.monitors (if g.facingRight then g.posX + 4 else g.posX - 4)
          ((supportChecks now rnd { g with windowRects := ws }).g.posY - 10) then
        { g with
          windowRects := ws
          posY := (supportChecks now rnd { g with windowRects := ws }).g.posY
          posX := if g.facingRight then g.posX + 4 else g.posX - 4 }
      else
        ChangeState State.IDLE now
          { g with
            windowRects := ws
            posY := (supportChecks now rnd { g with windowRects := ws }).g.posY } := by
  rw [UpdatePhysics_grounded ws now rnd g (Or.inr (Or.inl hs))]
  have hg := supportChecks_walking now rnd { g with windowRects := ws } hs
  generalize (supportChecks now rnd { g with windowRects := ws }).g.posY = y at hg ⊢
  unfold groundedTick fallOrWalk
  unfold supportChecks at hsup hg
  rw [hsup, hg]
  simp [hs, Config.WALK_SPEED]

/-- C12 as stated fails.  The walker of `edgeWalker 1916` stands on the floor of
its only monitor (right edge 1920) at `x = right - 4`, facing right.  The probe
point `(1920, 990)` passes `IsInAnyMonitor`, whose comparisons include the edges,
so the tick moves the walker to `x = 1920` and the state is still WALKING. -/
theorem UpdatePhysics_walk_edge_counterexample :
    (edgeWalker 1916).currentState = State.WALKING ∧ (edgeWalker 1916).facingRight = true ∧
      (edgeWalker 1916).monitors = [⟨0, 0, 1920, 1000⟩] ∧
      (edgeWalker 1916).posX = 1920 - 4 ∧
      (supportChecks 0 0 { edgeWalker 1916 with windowRects := [] }).supported = true ∧
      (UpdatePhysics false [] 0 0 (edgeWalker 1916)).currentState = State.WALKING ∧
      (UpdatePhysics false [] 0 0 (edgeWalker 1916)).currentState ≠ State.IDLE ∧
      (UpdatePhysics false [] 0 0 (edgeWalker 1916)).posX = 1920 ∧
      (UpdatePhysics false [] 0 0 (edgeWalker 1916)).posX ≠ (edgeWalker 1916).posX := by
  decide

/-- C12, amended: a WALKING character facing right on a single monitor `mon`,
still supported after the support checks, with the probe height `foot - 10`
(`foot` the foot after the support checks) inside the monitor's vertical extent.
At `x = right - 4` (and `left ≤ right`) the step lands on the edge: after the tick
`x = right` and the state is still WALKING.  When less than one walk step is left,
`right - 4 < x`, the state after the tick is IDLE and x is unchanged. -/
theorem UpdatePhysics_walk_edge (ws : List RECT) (now rnd : Nat) (g : Globals) (mon : RectArea)
    (hs : g.currentState = State.WALKING) (hf : g.facingRight = true)
    (hm : g.monitors = [mon])
    (hsup : (supportChecks now rnd { g with windowRects := ws }).supported = true)
    (htop : mon.top ≤ (supportChecks now rnd { g with windowRects := ws }).g.posY - 10)
    (hbot : (supportChecks now rnd { g with windowRects := ws }).g.posY - 10 ≤ mon.bottom) :
    (g.posX = mon.right - 4 → mon.left ≤ mon.right →
        (UpdatePhysics false ws now rnd g).posX = mon.right ∧
          (UpdatePhysics false ws now rnd g).currentState = State.WALKING) ∧
      (mon.right - 4 < g.posX →
        (UpdatePhysics false ws now rnd g).posX = g.posX ∧
          (UpdatePhysics false ws now rnd g).currentState = State.IDLE) := by
  rw [UpdatePhysics_walking ws now rnd g hs hsup]
  generalize (supportChecks now rnd { g with windowRects := ws }).g.posY = y at htop hbot ⊢
  simp only [hf, if_true, hm]
  constructor
  · intro hx hlr
    have hin : IsInAnyMonitor [mon] (g.posX + 4) (y - 10) = true := by
      rw [IsInAnyMonitor_iff]
      exact ⟨mon, List.mem_singleton.2 rfl, by omega, by omega, htop, hbot⟩
    rw [if_pos hin]
    exact ⟨by dsimp only; omega, hs⟩
  · intro hx
    have hout : ¬ IsInAnyMonitor [mon] (g.posX + 4) (y - 10) = true := by
      rw [IsInAnyMonitor_iff]
      rintro ⟨m, hmem, _, h2, _, _⟩
      rw [List.mem_singleton] at hmem
      subst hmem
      omega
    rw [if_neg hout]
    simp [ChangeState, hs]

/-- Witness of C12: the walker of `edgeWalker 1917`, three units from the right
edge of its monitor, is IDLE at `x = 1917` after the tick. -/
theorem UpdatePhysics_walk_edge_witness :
    (edgeWalker 1917).currentState = State.WALKING ∧ (edgeWalker 1917).facingRight = true ∧
      (edgeWalker 1917).monitors = [⟨0, 0, 1920, 1000⟩] ∧
      (supportChecks 0 0 { edgeWalker 1917 with windowRects := [] }).supported = true ∧
      (0 : Int) ≤ (supportChecks 0 0 { edgeWalker 1917 with windowRects := [] }).g.posY - 10 ∧
      (supportChecks 0 0 { edgeWalker 1917 with windowRects := [] }).g.posY - 10 ≤ 1000 ∧
      (1920 : Int) - 4 < (edgeWalker 1917).posX ∧
      (UpdatePhysics false [] 0 0 (edgeWalker 1917)).posX = (edgeWalker 1917).posX ∧
      (UpdatePhysics false [] 0 0 (edgeWalker 1917)).currentState = State.IDLE :=
  ⟨rfl, rfl, rfl, by decide, by decide, by decide, by decide,
    (UpdatePhysics_walk_edge [] 0 0 (edgeWalker 1917) ⟨0, 0, 1920, 1000⟩ rfl rfl rfl (by decide)
      (by decide) (by decide)).2 (by decide)⟩

/-- C18: a WALKING character that the support checks (elevator check, floor check
and occlusion logic) leave supported, with `foot` the foot after those checks and
`nextX = x + 4` facing right, `x - 4` facing left.  If the probe point
`(nextX, foot - 10)` lies inside some monitor rectangle, edges inclusive, the
tick ends with `x = nextX` and state WALKING; otherwise with x unchanged and
state IDLE.  The window list enters only through the support checks: no window
rectangle is compared with the probe point. -/
theorem UpdatePhysics_walking_step (ws : List RECT) (now rnd : Nat) (g : Globals)
    (foot nextX : Int) (hs : g.currentState = State.WALKING)
    (hsup : (supportChecks now rnd { g with windowRects := ws }).supported = true)
    (hfoot : foot = (supportChecks now rnd { g with windowRects := ws }).g.posY)
    (hnext : nextX = if g.facingRight then g.posX + 4 else g.posX - 4) :
    (UpdatePhysics false ws now rnd g).posY = foot ∧
      (InSomeMonitor g.monitors nextX (foot - 10) →
        (UpdatePhysics false ws now rnd g).posX = nextX ∧
          (UpdatePhysics false ws now rnd g).currentState = State.WALKING) ∧
      (¬ InSomeMonitor g.monitors nextX (foot - 10) →
        (UpdatePhysics false ws now rnd g).posX = g.posX ∧
          (UpdatePhysics false ws now rnd g).currentState = State.IDLE) := by
  rw [UpdatePhysics_walking ws now rnd g hs hsup, ← hfoot, ← hnext, ← IsInAnyMonitor_iff]
  refine ⟨?_, fun h => ?_, fun h => ?_⟩
  · split_ifs
    · rfl
    · simp [ChangeState, hs]
  · rw [if_pos h]
    exact ⟨rfl, hs⟩
  · rw [if_neg h]
    simp [ChangeState, hs]

/-- Witness of C18: the walker of `edgeWalker 1000`, in the middle of its
monitor, moves to `x = 1004` and keeps walking. -/
theorem UpdatePhysics_walking_step_witness :
    (edgeWalker 1000).currentState = State.WALKING ∧
      (supportChecks 0 0 { edgeWalker 1000 with windowRects := [] }).supported = true ∧
      (1000 : Int) = (supportChecks 0 0 { edgeWalker 1000 with windowRects := [] }).g.posY ∧
      (1004 : Int) = (if (edgeWalker 1000).facingRight then (edgeWalker 1000).posX + 4
        else (edgeWalker 1000).posX - 4) ∧
      InSomeMonitor (edgeWalker 1000).monitors 1004 (1000 - 10) ∧
      (UpdatePhysics false [] 0 0 (edgeWalker 1000)).posX = 1004 ∧
      (UpdatePhysics false [] 0 0 (edgeWalker 1000)).currentState = State.WALKING :=
  have hin : InSomeMonitor (edgeWalker 1000).monitors 1004 (1000 - 10) :=
    ⟨⟨0, 0, 1920, 1000⟩, List.mem_singleton.2 rfl, by decide, by decide, by decide, by decide⟩
  ⟨rfl, by decide, by decide, by decide, hin,
    (UpdatePhysics_walking_step [] 0 0 (edgeWalker 1000) 1000 1004 rfl (by decide) (by decide)
      (by decide)).2.1 hin⟩

/-! ## A ledge in reach -/

/-- The search radius on one monitor of 1920 by 1080: `(int)(1080 * 0.20f)`. -/
theorem maxRange_1080 : maxRange [⟨0, 0, 1920, 1080⟩] = 216 := by
  have hm : minDim [⟨0, 0, 1920, 1080⟩] = 1080 := by decide
  have h1 : toFloat (((1080 : ℤ) : ℚ)) = 1080 := by
    have := toFloat_natCast 1080 (by norm_num)
    exact_mod_cast this
  have hp : toFloat (1 / 5) = (13421773 : ℚ) / 67108864 := by
    rw [toFloat_eval (1 / 5) (-3) 13421773 (by norm_num [abs_of_pos]) (by norm_num [abs_of_pos])
      (by norm_num) (by norm_num)]
    norm_num
  have hv : toFloat ((1080 : ℚ) * ((13421773 : ℚ) / 67108864)) = 216 := by
    rw [toFloat_eval _ 7 14155776 (by norm_num [abs_of_pos]) (by norm_num [abs_of_pos])
      (by norm_num) (by norm_num)]
    norm_num
  unfold maxRange Config.JUMP_RANGE_PCT
  rw [hm, h1, hp, hv, truncToInt_of_nonneg _ (by norm_num)]
  norm_num

/-- The distance from the foot of `ledgeScene` to the ledge is at most 181. -/
theorem ledgeDist_ledgeScene : ledgeDist 350 1080 ⟨200, 980⟩ ≤ 181 := by
  have ha : toDouble ((((200 : ℤ) - 350 : ℤ) : ℚ) ^ 2) = 22500 := by
    have := roundFloat_natCast 53 (by norm_num) 22500 (by norm_num)
    unfold toDouble
    norm_num at this ⊢
    exact this
  have hb : toDouble ((((980 : ℤ) - 1080 : ℤ) : ℚ) ^ 2) = 10000 := by
    have := roundFloat_natCast 53 (by norm_num) 10000 (by norm_num)
    unfold toDouble
    norm_num at this ⊢
    exact this
  have hc : toDouble ((22500 : ℚ) + 10000) = 32500 := by
    have := roundFloat_natCast 53 (by norm_num) 32500 (by norm_num)
    unfold toDouble
    norm_num at this ⊢
    exact this
  unfold ledgeDist
  dsimp only
  rw [ha, hb, hc]
  have hf : ⌊(32500 : ℚ)⌋.toNat = 32500 := by
    have : ⌊(32500 : ℚ)⌋ = 32500 := by
      rw [Int.floor_eq_iff]
      norm_num
    rw [this]
    rfl
  rw [hf]
  have := sqrtDouble_le 32500 181 0 (by norm_num) (by norm_num) (by norm_num)
  simpa using this

/-- C13 at its scenario: the code does not do what the claim says.  In
`ledgeScene` the only window has its top-centre point `(200, 980)` 100 above the
foot, within the search radius (distance at most 181, radius 216), 930 below the
top of the monitor and covered by no other window (the scan of the windows in
front of it finds nothing); the dwell time has elapsed, the jump draw passes
(0 < 500) and the bias draw prefers up (0 < 70).  The candidate filter calls
`IsPointObscured(wx, wy, -1)`, which scans the whole list, the candidate itself
included: the window contains its own top-centre point, the candidate is
dropped, and `UpdateAI` returns the globals unchanged, IDLE with the leap target
still `(0, 0)`. -/
theorem UpdateAI_ledge_self_obscured :
    ledgeScene.currentState = State.IDLE ∧
      ledgeScene.windowRects = [⟨100, 980, 300, 1080⟩] ∧
      ledge ⟨100, 980, 300, 1080⟩ = ⟨200, 980⟩ ∧
      (980 : Int) = ledgeScene.posY - 100 ∧
      ledgeDist ledgeScene.posX ledgeScene.posY ⟨200, 980⟩ ≤ (maxRange ledgeScene.monitors : ℚ) ∧
      (∀ mon ∈ ledgeScene.monitors, mon.top + 50 ≤ 980) ∧
      IsPointObscured ledgeScene.windowRects 200 980 0 = false ∧
      (Config.MIN_STATE_TIME : Int) ≤ dwellTime 5000 ledgeScene ∧
      ledgeDraws 1 % 10000 < Config.CHANCE_CHECK_JUMP ∧
      ledgeDraws 2 % 100 < Config.JUMP_UP_BIAS ∧
      IsPointObscured ledgeScene.windowRects 200 980 (-1) = true ∧
      keepsLedge ledgeScene ⟨100, 980, 300, 1080⟩ = false ∧
      UpdateAI false 5000 ledgeDraws ledgeScene = ledgeScene ∧
      (UpdateAI false 5000 ledgeDraws ledgeScene).currentState ≠ State.PREPARE_JUMP ∧
      (UpdateAI false 5000 ledgeDraws ledgeScene).targetX ≠ 200 := by
  have hwf : ∀ w ∈ ledgeScene.windowRects, WellFormed w := by
    intro w hw
    have : w = ⟨100, 980, 300, 1080⟩ := List.mem_singleton.1 hw
    subst this
    exact ⟨by decide, by decide⟩
  have hgate : (Config.MIN_STATE_TIME : Int) ≤ dwellTime 5000 ledgeScene := by decide
  have hrun : UpdateAI false 5000 ledgeDraws ledgeScene = ledgeScene := by
    rw [UpdateAI_idle_open false 5000 ledgeDraws ledgeScene rfl hgate,
      idleBranch_wellFormed 5000 _ ledgeDraws ledgeScene hwf]
    have hr : ledgeDraws 0 % 10000 = 5000 := by decide
    rw [hr]
    simp only [Config.THRESH_IDLE_TO_WALK, Config.THRESH_IDLE_TO_SIT,
      Config.THRESH_IDLE_TO_SLEEP]
    norm_num
    exact movieDetection_false 5000 ledgeScene (by decide)
  have hdist : ledgeDist ledgeScene.posX ledgeScene.posY ⟨200, 980⟩ ≤
      (maxRange ledgeScene.monitors : ℚ) := by
    have h1 : maxRange ledgeScene.monitors = 216 := maxRange_1080
    rw [h1]
    refine le_trans ledgeDist_ledgeScene ?_
    norm_num
  refine ⟨rfl, rfl, by decide, by decide, hdist, ?_, by decide, by decide, by decide, by decide,
    by decide, keepsLedge_false ledgeScene _ (List.mem_singleton.2 rfl) ⟨by decide, by decide⟩,
    hrun, ?_, ?_⟩
  · intro mon hmon
    have : mon = ⟨0, 0, 1920, 1080⟩ := List.mem_singleton.1 hmon
    subst this
    decide
  · rw [hrun]
    decide
  · rw [hrun]
    decide

/-! ## The frame of the state manager -/

/-- C14 as stated fails for a clock value that does not fit the 32 bit
`unsigned long` that holds the timestamp: at the clock value `2 ^ 32 + 5` (what
`GetTickCount64()` returns 5 ms after `2 ^ 32` ms of uptime) a change from
FALLING to IDLE stores the timestamp 5. -/
theorem ChangeState_timestamp_counterexample :
    initialGlobals.currentState ≠ State.IDLE ∧
      (ChangeState State.IDLE (2 ^ 32 + 5) initialGlobals).currentState = State.IDLE ∧
      (ChangeState State.IDLE (2 ^ 32 + 5) initialGlobals).lastStateChangeTime = 5 ∧
      (ChangeState State.IDLE (2 ^ 32 + 5) initialGlobals).lastStateChangeTime ≠ 2 ^ 32 + 5 := by
  decide

/-- C14, amended: for every state `s` and clock value `t`, `ChangeState s` on a
character already in state `s` changes nothing; on a character in another state
it sets the state to `s`, the state-change timestamp to `t % 2 ^ 32` (the clock
value as the 32 bit timestamp holds it, `t` itself when `t < 2 ^ 32`) and the
animation frame index to 0; in both cases position, velocity, facing and leap
target are unchanged. -/
theorem ChangeState_frame (s : State) (t : Nat) (g : Globals) :
    (g.currentState = s → ChangeState s t g = g) ∧
      (g.currentState ≠ s →
        (ChangeState s t g).currentState = s ∧
          (ChangeState s t g).lastStateChangeTime = t % 2 ^ 32 ∧
          (t < 2 ^ 32 → (ChangeState s t g).lastStateChangeTime = t) ∧
          (ChangeState s t g).currentFrameIndex = 0) ∧
      (ChangeState s t g).posX = g.posX ∧ (ChangeState s t g).posY = g.posY ∧
      (ChangeState s t g).velX = g.velX ∧ (ChangeState s t g).velY = g.velY ∧
      (ChangeState s t g).facingRight = g.facingRight ∧
      (ChangeState s t g).targetX = g.targetX ∧ (ChangeState s t g).targetY = g.targetY := by
  unfold ChangeState
  refine ⟨fun h => if_pos h, fun h => ?_, ?_⟩
  · rw [if_neg h]
    exact ⟨rfl, rfl, fun ht => Nat.mod_eq_of_lt ht, rfl⟩
  · split_ifs <;> exact ⟨rfl, rfl, rfl, rfl, rfl, rfl, rfl⟩

/-- Witness of C14: a change from FALLING to IDLE at the clock value 7000. -/
theorem ChangeState_frame_witness :
    catchFaller.currentState ≠ State.IDLE ∧
      (ChangeState State.IDLE 7000 catchFaller).currentState = State.IDLE ∧
      (ChangeState State.IDLE 7000 catchFaller).lastStateChangeTime = 7000 % 2 ^ 32 ∧
      (ChangeState State.IDLE 7000 catchFaller).lastStateChangeTime = 7000 ∧
      (ChangeState State.IDLE 7000 catchFaller).currentFrameIndex = 0 :=
  have h := (ChangeState_frame State.IDLE 7000 catchFaller).2.1 (by decide)
  ⟨by decide, h.1, h.2.1, h.2.2.1 (by decide), h.2.2.2⟩

/-! ## Airborne states -/

/-- C15: in FALLING or LEAPING, `UpdateAI` returns the globals unchanged, for
every movie signal, clock value and draw sequence, whatever the window list, the
monitor list and the state-change timestamp of the character are. -/
theorem UpdateAI_airborne (watching : Bool) (now : Nat) (rand : Nat → Nat) (g : Globals)
    (hs : g.currentState = State.FALLING ∨ g.currentState = State.LEAPING) :
    UpdateAI watching now rand g = g := by
  unfold UpdateAI
  rw [if_pos hs]

/-- Witness of C15: the falling character of `catchFaller`, movie signal true,
long after its last state change. -/
theorem UpdateAI_airborne_witness :
    (catchFaller.currentState = State.FALLING ∨ catchFaller.currentState = State.LEAPING) ∧
      Config.MIN_STATE_TIME ≤ 1000000 - catchFaller.lastStateChangeTime ∧
      UpdateAI true 1000000 (fun _ => 0) catchFaller = catchFaller :=
  ⟨Or.inl rfl, by decide, UpdateAI_airborne true 1000000 (fun _ => 0) catchFaller (Or.inl rfl)⟩

/-! ## Falling without a floor -/

/-- A FALLING tick with no window and no monitor: the state stays FALLING, the
monitor list stays empty, the foot is the 32 bit sum of foot and speed, and the
new speed is `min (vy + 3) 25`. -/
theorem UpdatePhysics_void (now rnd : Nat) (g : Globals)
    (hs : g.currentState = State.FALLING) (hm : g.monitors = []) (hv : 0 ≤ g.velY) :
    (UpdatePhysics false [] now rnd g).currentState = State.FALLING ∧
      (UpdatePhysics false [] now rnd g).monitors = [] ∧
      (UpdatePhysics false [] now rnd g).posY = wrapInt32 (g.posY + g.velY) ∧
      (UpdatePhysics false [] now rnd g).velY = min (g.velY + 3) 25 := by
  rw [UpdatePhysics_falling [] now rnd g hs, fallingTick_eq]
  have hpos : 0 < min (g.velY + 3) 25 := by
    rcases le_total (g.velY + 3) 25 with h | h
    · rw [min_eq_left h]
      omega
    · rw [min_eq_right h]
      decide
  simp only [hpos, if_true, firstWindow, hm, List.find?_nil]
  exact ⟨hs, trivial, trivial, trivial⟩

/-- The run of a FALLING character with no window and no monitor: it stays
FALLING, and the foot does not decrease in a tick whose sum fits an `int`. -/
theorem runPhysics_void (inputs : Nat → TickInput) (g : Globals)
    (hs : g.currentState = State.FALLING) (hm : g.monitors = []) (hv : 0 ≤ g.velY)
    (hw : ∀ i, (inputs i).enumerated = []) (n : Nat) :
    (runPhysics inputs n g).currentState = State.FALLING ∧
      (runPhysics inputs n g).monitors = [] ∧ 0 ≤ (runPhysics inputs n g).velY ∧
      (runPhysics inputs (n + 1) g).posY =
        wrapInt32 ((runPhysics inputs n g).posY + (runPhysics inputs n g).velY) ∧
      (runPhysics inputs (n + 1) g).velY = min ((runPhysics inputs n g).velY + 3) 25 := by
  have step : ∀ n, (runPhysics inputs n g).currentState = State.FALLING ∧
      (runPhysics inputs n g).monitors = [] ∧ 0 ≤ (runPhysics inputs n g).velY := by
    intro n
    induction n with
    | zero => exact ⟨hs, hm, hv⟩
    | succ n ih =>
      obtain ⟨h1, h2, h3⟩ := ih
      rw [runPhysics_succ, hw n]
      obtain ⟨k1, k2, _, k4⟩ := UpdatePhysics_void (inputs n).now (inputs n).rnd _ h1 h2 h3
      refine ⟨k1, k2, ?_⟩
      rw [k4]
      exact le_min (by omega) (by decide)
  obtain ⟨h1, h2, h3⟩ := step n
  obtain ⟨_, _, k3, k4⟩ := UpdatePhysics_void (inputs n).now (inputs n).rnd _ h1 h2 h3
  refine ⟨h1, h2, h3, ?_, ?_⟩
  · rw [runPhysics_succ, hw n, k3]
  · rw [runPhysics_succ, hw n, k4]

/-- While `y + 25 * n` fits an `int`, the foot after `n` ticks of the fall with
no window and no monitor lies between `y` and `y + 25 * n`, at a speed from 0 to
25. -/
theorem runPhysics_void_range (inputs : Nat → TickInput) (g : Globals)
    (hs : g.currentState = State.FALLING) (hm : g.monitors = []) (hv : 0 ≤ g.velY)
    (hv25 : g.velY ≤ 25) (hy : -2147483648 ≤ g.posY)
    (hw : ∀ i, (inputs i).enumerated = []) (n : Nat)
    (hn : g.posY + 25 * (n : Int) ≤ 2147483647) :
    g.posY ≤ (runPhysics inputs n g).posY ∧
      (runPhysics inputs n g).posY ≤ g.posY + 25 * (n : Int) ∧
      (runPhysics inputs n g).velY ≤ 25 := by
  induction n with
  | zero => exact ⟨le_refl _, by simp [runPhysics], hv25⟩
  | succ n ih =>
    obtain ⟨i1, i2, i3⟩ := ih (by push_cast at hn; omega)
    obtain ⟨_, _, h3, h4, h5⟩ := runPhysics_void inputs g hs hm hv hw n
    have hfit : wrapInt32 ((runPhysics inputs n g).posY + (runPhysics inputs n g).velY) =
        (runPhysics inputs n g).posY + (runPhysics inputs n g).velY := by
      apply wrapInt32_of_range
      · omega
      · push_cast at hn
        omega
    rw [h4, h5, hfit]
    push_cast
    refine ⟨by omega, by omega, min_le_right _ _⟩

/-- C16 as stated fails for the foot.  The initial globals are FALLING with
`vy = 0` and an empty monitor list, and no tick enumerates a window.  After
85899351 ticks the state is still FALLING, but the foot, 2147483633 one tick
earlier, is -2147483638: the sum `posY += velY` did not fit the 32 bit `int`, and
the foot y has decreased. -/
theorem UpdatePhysics_no_monitor_counterexample :
    initialGlobals.currentState = State.FALLING ∧ initialGlobals.monitors = [] ∧
      (0 : Int) ≤ initialGlobals.velY ∧ quietInput.enumerated = [] ∧
      (runPhysics (fun _ => quietInput) 85899351 initialGlobals).currentState = State.FALLING ∧
      (runPhysics (fun _ => quietInput) 85899350 initialGlobals).posY = 2147483633 ∧
      (runPhysics (fun _ => quietInput) 85899351 initialGlobals).posY = -2147483638 ∧
      (runPhysics (fun _ => quietInput) 85899351 initialGlobals).posY <
        (runPhysics (fun _ => quietInput) 85899350 initialGlobals).posY := by
  rw [fall_run_last, fall_run_wrapped]
  decide

/-- C16, amended: a FALLING character with an empty monitor list.  When its speed
is not negative and every tick enumerates no window, it is FALLING after any
number `n` of `UpdatePhysics` ticks; its foot does not decrease in a tick whose
sum `y + vy` fits an `int`; and with a start speed of at most 25 and a start foot
`y ≥ -2147483648`, as long as `y + 25 * (n + 1) ≤ 2147483647` the foot after `n`
ticks is at least the start foot and the foot after tick `n + 1` is at least the
foot after tick `n`.  And whatever the windows and the speed are, a tick that ends in IDLE landed
on a window: the front-most landing spot, at whose top the foot then is. -/
theorem UpdatePhysics_no_monitor (g : Globals) (hs : g.currentState = State.FALLING)
    (hm : g.monitors = []) :
    (0 ≤ g.velY → ∀ (inputs : Nat → TickInput), (∀ i, (inputs i).enumerated = []) →
        ∀ n, (runPhysics inputs n g).currentState = State.FALLING ∧
          (-2147483648 ≤ (runPhysics inputs n g).posY →
            (runPhysics inputs n g).posY + (runPhysics inputs n g).velY ≤ 2147483647 →
              (runPhysics inputs n g).posY ≤ (runPhysics inputs (n + 1) g).posY) ∧
          (g.velY ≤ 25 → -2147483648 ≤ g.posY → g.posY + 25 * ((n : Int) + 1) ≤ 2147483647 →
            g.posY ≤ (runPhysics inputs n g).posY ∧
              (runPhysics inputs n g).posY ≤ (runPhysics inputs (n + 1) g).posY)) ∧
      ∀ (ws : List RECT) (now rnd : Nat),
        (UpdatePhysics false ws now rnd g).currentState = State.IDLE →
          ∃ (k : Nat) (r : RECT),
            FrontMost (LandingSpot ws g.posX (wrapInt32 (g.posY + g.velY))
              (min (g.velY + 3) 25)) k r ∧
              (UpdatePhysics false ws now rnd g).posY = r.top := by
  constructor
  · intro hv inputs hw n
    obtain ⟨h1, _, h3, h4, _⟩ := runPhysics_void inputs g hs hm hv hw n
    refine ⟨h1, fun a b => ?_, fun hv25 hy hn => ?_⟩
    · rw [h4, wrapInt32_of_range _ (by omega) b]
      omega
    · obtain ⟨i1, i2, i3⟩ := runPhysics_void_range inputs g hs hm hv hv25 hy hw n (by omega)
      refine ⟨i1, ?_⟩
      rw [h4, wrapInt32_of_range _ (by omega) (by omega)]
      omega
  · intro ws now rnd
    rw [UpdatePhysics_falling ws now rnd g hs, fallingTick_eq]
    dsimp only
    intro hidle
    split_ifs at hidle ⊢ with hpos
    · cases hf : firstWindow
          (landingTest ws g.posX (wrapInt32 (g.posY + g.velY)) (min (g.velY + 3) 25)) 0 ws with
      | none =>
        rw [hf] at hidle
        simp only [hm, List.find?_nil] at hidle
        rw [hs] at hidle
        exact absurd hidle (by decide)
      | some kr =>
        obtain ⟨k, r⟩ := kr
        refine ⟨k, r, (firstWindow_frontMost _ _ ws (landingTest_iff ws _ _ _) k r).1 hf, ?_⟩
        simp [ChangeState, hs]
    · rw [hs] at hidle
      exact absurd hidle (by decide)

/-- Witness of C16: `catchFaller`, which has no monitor, is FALLING after three
ticks without a window, with a foot that has not decreased, and lands on the
window of `catchWindows` when it is there. -/
theorem UpdatePhysics_no_monitor_witness :
    catchFaller.currentState = State.FALLING ∧ catchFaller.monitors = [] ∧
      (0 : Int) ≤ catchFaller.velY ∧ catchFaller.velY ≤ 25 ∧
      (-2147483648 : Int) ≤ catchFaller.posY ∧
      catchFaller.posY + 25 * (((3 : Nat) : Int) + 1) ≤ 2147483647 ∧
      (runPhysics (fun _ => quietInput) 3 catchFaller).currentState = State.FALLING ∧
      catchFaller.posY ≤ (runPhysics (fun _ => quietInput) 3 catchFaller).posY ∧
      (runPhysics (fun _ => quietInput) 3 catchFaller).posY ≤
        (runPhysics (fun _ => quietInput) 4 catchFaller).posY ∧
      (UpdatePhysics false catchWindows 0 0 catchFaller).currentState = State.IDLE ∧
      ∃ (k : Nat) (r : RECT),
        FrontMost (LandingSpot catchWindows catchFaller.posX
          (wrapInt32 (catchFaller.posY + catchFaller.velY)) (min (catchFaller.velY + 3) 25)) k r ∧
          (UpdatePhysics false catchWindows 0 0 catchFaller).posY = r.top :=
  have h := (UpdatePhysics_no_monitor catchFaller rfl rfl).1 (by decide) (fun _ => quietInput)
    (fun _ => rfl) 3
  have hr := h.2.2 (by decide) (by decide) (by decide)
  ⟨rfl, rfl, by decide, by decide, by decide, by decide, h.1, hr.1, hr.2, by decide,
    (UpdatePhysics_no_monitor catchFaller rfl rfl).2 catchWindows 0 0 (by decide)⟩

/-! ## The bands of the IDLE branch -/

/-- The jump search does nothing when its draw does not pass. -/
theorem jumpSearch_skip (now draw bias pick : Nat) (g : Globals)
    (h : Config.CHANCE_CHECK_JUMP ≤ draw % 10000) : jumpSearch now draw bias pick g = g := by
  unfold jumpSearch
  rw [if_neg (by omega)]

/-- C17: an IDLE character whose dwell timer has reached `MIN_STATE_TIME` =
2000 ms, with the movie signal false and the jump draw of the tick not passing
(the call of `rand()` after the shared draw, or after the facing draw of the walk
band, gives at least 500 modulo 10000).  With `r = rand() % 10000` the shared
draw: `r < 10000`; `r < 150` gives WALKING, `150 ≤ r < 300` SITTING,
`300 ≤ r < 350` SLEEPING, and `350 ≤ r` leaves the globals as they are, IDLE. -/
theorem UpdateAI_idle_bands (now : Nat) (rand : Nat → Nat) (g : Globals) (r : Nat)
    (hs : g.currentState = State.IDLE)
    (hopen : (Config.MIN_STATE_TIME : Int) ≤ dwellTime now g)
    (hr : r = rand 0 % 10000)
    (hjump : Config.CHANCE_CHECK_JUMP ≤ rand (if r < 150 then 2 else 1) % 10000) :
    r < 10000 ∧
      (r < 150 → (UpdateAI false now rand g).currentState = State.WALKING) ∧
      (150 ≤ r → r < 300 → (UpdateAI false now rand g).currentState = State.SITTING) ∧
      (300 ≤ r → r < 350 → (UpdateAI false now rand g).currentState = State.SLEEPING) ∧
      (350 ≤ r → (UpdateAI false now rand g).currentState = State.IDLE ∧
        UpdateAI false now rand g = g) := by
  rw [UpdateAI_idle_open false now rand g hs hopen, ← hr]
  refine ⟨by omega, fun h => ?_, fun h h' => ?_, fun h h' => ?_, fun h => ?_⟩
  · rw [if_pos h] at hjump
    have e : idleBranch now r rand g =
        ChangeState State.WALKING now { g with facingRight := decide (rand 1 % 2 = 0) } := by
      unfold idleBranch
      rw [if_pos (by simpa [Config.THRESH_IDLE_TO_WALK] using h), jumpSearch_skip _ _ _ _ _ hjump]
    rw [e, movieDetection_false now _ (by simp [ChangeState_state]), ChangeState_state]
  · rw [if_neg (by omega)] at hjump
    have e : idleBranch now r rand g = ChangeState State.SITTING now g := by
      unfold idleBranch
      rw [if_neg (by simp only [Config.THRESH_IDLE_TO_WALK]; omega),
        if_pos (by simp only [Config.THRESH_IDLE_TO_SIT]; omega), jumpSearch_skip _ _ _ _ _ hjump]
    rw [e, movieDetection_false now _ (by simp [ChangeState_state]), ChangeState_state]
  · rw [if_neg (by omega)] at hjump
    have e : idleBranch now r rand g = ChangeState State.SLEEPING now g := by
      unfold idleBranch
      rw [if_neg (by simp only [Config.THRESH_IDLE_TO_WALK]; omega),
        if_neg (by simp only [Config.THRESH_IDLE_TO_SIT]; omega),
        if_pos (by simp only [Config.THRESH_IDLE_TO_SLEEP]; omega),
        jumpSearch_skip _ _ _ _ _ hjump]
    rw [e, movieDetection_false now _ (by simp [ChangeState_state]), ChangeState_state]
  · rw [if_neg (by omega)] at hjump
    have e : idleBranch now r rand g = g := by
      unfold idleBranch
      rw [if_neg (by simp only [Config.THRESH_IDLE_TO_WALK]; omega),
        if_neg (by simp only [Config.THRESH_IDLE_TO_SIT]; omega),
        if_neg (by simp only [Config.THRESH_IDLE_TO_SLEEP]; omega),
        jumpSearch_skip _ _ _ _ _ hjump]
    rw [e, movieDetection_false now g (by simp [hs])]
    exact ⟨hs, rfl⟩

/-- Witness of C17: the shared draw 200 makes the settled IDLE character sit. -/
theorem UpdateAI_idle_bands_witness :
    (settled State.IDLE).currentState = State.IDLE ∧
      (Config.MIN_STATE_TIME : Int) ≤ dwellTime 3500 (settled State.IDLE) ∧
      200 = bandDraws 0 % 10000 ∧
      Config.CHANCE_CHECK_JUMP ≤ bandDraws (if 200 < 150 then 2 else 1) % 10000 ∧
      (UpdateAI false 3500 bandDraws (settled State.IDLE)).currentState = State.SITTING :=
  ⟨rfl, by decide, by decide, by decide,
    (UpdateAI_idle_bands 3500 bandDraws (settled State.IDLE) 200 rfl (by decide) (by decide)
      (by decide)).2.2.1 (by decide) (by decide)⟩

/-! ## What the calls keep -/

@[simp] theorem ChangeState_velX (s : State) (now : Nat) (g : Globals) :
    (ChangeState s now g).velX = g.velX := by
  unfold ChangeState
  split_ifs <;> rfl

@[simp] theorem ChangeState_velY (s : State) (now : Nat) (g : Globals) :
    (ChangeState s now g).velY = g.velY := by
  unfold ChangeState
  split_ifs <;> rfl

@[simp] theorem ChangeState_targetX (s : State) (now : Nat) (g : Globals) :
    (ChangeState s now g).targetX = g.targetX := by
  unfold ChangeState
  split_ifs <;> rfl

@[simp] theorem ChangeState_targetY (s : State) (now : Nat) (g : Globals) :
    (ChangeState s now g).targetY = g.targetY := by
  unfold ChangeState
  split_ifs <;> rfl

/-- The movie detection is at most one state change. -/
theorem movieDetection_cases (watching : Bool) (now : Nat) (g : Globals) :
    movieDetection watching now g = g ∨
      movieDetection watching now g = ChangeState State.WATCHING_MOVIE now g ∨
      movieDetection watching now g = ChangeState State.IDLE now g := by
  unfold movieDetection
  cases watching
  · simp only [Bool.false_eq_true, false_and, if_false, Bool.not_false, true_and]
    split_ifs
    · exact Or.inr (Or.inr rfl)
    · exact Or.inl rfl
  · simp only [true_and, Bool.not_true, Bool.false_eq_true, false_and, if_false]
    split_ifs
    · exact Or.inr (Or.inl rfl)
    · exact Or.inl rfl

/-- The jump search is nothing or a new target followed by a state change. -/
theorem jumpSearch_cases (now draw bias pick : Nat) (g : Globals) :
    jumpSearch now draw bias pick g = g ∨
      ∃ pt : POINT, jumpSearch now draw bias pick g =
        ChangeState State.PREPARE_JUMP now { g with targetX := pt.x, targetY := pt.y } := by
  unfold jumpSearch
  split_ifs with h
  · dsimp only
    split
    · split_ifs
      · split
        · exact Or.inr ⟨_, rfl⟩
        · exact Or.inl rfl
      · exact Or.inl rfl
    · exact Or.inl rfl
  · exact Or.inl rfl

/-- Neither speed is written by `UpdateAI`, nor the window list. -/
theorem jumpSearch_keeps (now draw bias pick : Nat) (g : Globals) :
    (jumpSearch now draw bias pick g).velX = g.velX ∧
      (jumpSearch now draw bias pick g).velY = g.velY ∧
      (jumpSearch now draw bias pick g).windowRects = g.windowRects := by
  rcases jumpSearch_cases now draw bias pick g with h | ⟨pt, h⟩ <;> rw [h]
  · exact ⟨rfl, rfl, rfl⟩
  · simp [ChangeState_windowRects]

theorem idleBranch_keeps (now r : Nat) (rand : Nat → Nat) (g : Globals) :
    (idleBranch now r rand g).velX = g.velX ∧ (idleBranch now r rand g).velY = g.velY ∧
      (idleBranch now r rand g).windowRects = g.windowRects := by
  unfold idleBranch
  split_ifs
  · obtain ⟨h1, h2, h3⟩ := jumpSearch_keeps now (rand 2) (rand 3) (rand 4)
      (ChangeState State.WALKING now { g with facingRight := decide (rand 1 % 2 = 0) })
    rw [h1, h2, h3]
    simp [ChangeState_windowRects]
  · obtain ⟨h1, h2, h3⟩ := jumpSearch_keeps now (rand 1) (rand 2) (rand 3)
      (ChangeState State.SITTING now g)
    rw [h1, h2, h3]
    simp [ChangeState_windowRects]
  · obtain ⟨h1, h2, h3⟩ := jumpSearch_keeps now (rand 1) (rand 2) (rand 3)
      (ChangeState State.SLEEPING now g)
    rw [h1, h2, h3]
    simp [ChangeState_windowRects]
  · exact jumpSearch_keeps now (rand 1) (rand 2) (rand 3) g

theorem movieDetection_frame (watching : Bool) (now : Nat) (g : Globals) :
    (movieDetection watching now g).velX = g.velX ∧
      (movieDetection watching now g).velY = g.velY ∧
      (movieDetection watching now g).windowRects = g.windowRects ∧
      (movieDetection watching now g).targetX = g.targetX ∧
      (movieDetection watching now g).targetY = g.targetY := by
  rcases movieDetection_cases watching now g with h | h | h <;> rw [h] <;>
    simp [ChangeState_windowRects]

/-- The shapes of the result of `UpdateAI`. -/
theorem UpdateAI_cases (watching : Bool) (now : Nat) (rand : Nat → Nat) (g : Globals) :
    UpdateAI watching now rand g = g ∨
      (g.currentState = State.PREPARE_JUMP ∧ ∃ fr : Bool,
        UpdateAI watching now rand g = ChangeState State.LEAPING now { g with facingRight := fr }) ∨
      (g.currentState ≠ State.FALLING ∧ g.currentState ≠ State.LEAPING ∧
        g.currentState ≠ State.PREPARE_JUMP ∧
        ∃ g1, UpdateAI watching now rand g = movieDetection watching now g1 ∧
          ((g.currentState = State.IDLE ∧ g1 = idleBranch now (rand 0 % 10000) rand g) ∨
            (g.currentState ≠ State.IDLE ∧ (g1 = ChangeState State.IDLE now g ∨ g1 = g)))) := by
  unfold UpdateAI
  by_cases h0 : g.currentState = State.FALLING ∨ g.currentState = State.LEAPING
  · rw [if_pos h0]
    exact Or.inl rfl
  rw [if_neg h0]
  by_cases h1 : g.currentState = State.PREPARE_JUMP
  · rw [if_pos h1]
    split_ifs
    · exact Or.inr (Or.inl ⟨h1, _, rfl⟩)
    · exact Or.inl rfl
  rw [if_neg h1]
  by_cases hgate : (((now % 2 ^ 32 : Nat) : Int) - (g.lastStateChangeTime : Int)) % 2 ^ 32 <
      (Config.MIN_STATE_TIME : Int)
  · rw [if_pos hgate]
    exact Or.inl rfl
  rw [if_neg hgate]
  dsimp only
  refine Or.inr (Or.inr ⟨fun h => h0 (Or.inl h), fun h => h0 (Or.inr h), h1, _, rfl, ?_⟩)
  by_cases hi : g.currentState = State.IDLE
  · left
    exact ⟨hi, by rw [if_pos hi]⟩
  · right
    refine ⟨hi, ?_⟩
    rw [if_neg hi]
    split_ifs
    all_goals first
      | exact Or.inl rfl
      | exact Or.inr rfl

theorem UpdateAI_keeps (watching : Bool) (now : Nat) (rand : Nat → Nat) (g : Globals) :
    (UpdateAI watching now rand g).velX = g.velX ∧
      (UpdateAI watching now rand g).velY = g.velY ∧
      (UpdateAI watching now rand g).windowRects = g.windowRects := by
  rcases UpdateAI_cases watching now rand g with h | ⟨_, fr, h⟩ | ⟨_, _, _, g1, h, hg1⟩ <;> rw [h]
  · exact ⟨rfl, rfl, rfl⟩
  · simp [ChangeState_windowRects]
  · obtain ⟨h1, h2, h3, _, _⟩ := movieDetection_frame watching now g1
    rw [h1, h2, h3]
    rcases hg1 with ⟨_, e⟩ | ⟨_, e | e⟩ <;> rw [e]
    · exact idleBranch_keeps now (rand 0 % 10000) rand g
    · simp [ChangeState_windowRects]
    · exact ⟨rfl, rfl, rfl⟩

theorem Kept_refl (g : Globals) : Kept g g :=
  ⟨rfl, rfl, rfl, rfl, rfl, Or.inl rfl⟩

theorem Kept_trans (g g' g'' : Globals) (h : Kept g g') (h' : Kept g' g'') : Kept g g'' := by
  obtain ⟨a1, a2, a3, a4, a5, a6⟩ := h
  obtain ⟨b1, b2, b3, b4, b5, b6⟩ := h'
  refine ⟨b1.trans a1, b2.trans a2, b3.trans a3, b4.trans a4, b5.trans a5, ?_⟩
  rcases b6 with b | b | b
  · rw [b]
    exact a6
  · exact Or.inr (Or.inl b)
  · exact Or.inr (Or.inr b)

theorem Kept_posX (g : Globals) (x : Int) : Kept g { g with posX := x } :=
  ⟨rfl, rfl, rfl, rfl, rfl, Or.inl rfl⟩

theorem Kept_posY (g : Globals) (y : Int) : Kept g { g with posY := y } :=
  ⟨rfl, rfl, rfl, rfl, rfl, Or.inl rfl⟩

theorem Kept_idle (now : Nat) (g : Globals) : Kept g (ChangeState State.IDLE now g) := by
  unfold ChangeState
  split_ifs
  · exact Kept_refl g
  · exact ⟨rfl, rfl, rfl, rfl, rfl, Or.inr (Or.inl rfl)⟩

theorem Kept_falling (now : Nat) (g : Globals) : Kept g (ChangeState State.FALLING now g) := by
  unfold ChangeState
  split_ifs
  · exact Kept_refl g
  · exact ⟨rfl, rfl, rfl, rfl, rfl, Or.inr (Or.inr rfl)⟩

/-- The occlusion logic keeps the speeds and what `Kept` lists. -/
theorem occlusionLogic_kept (now rnd : Nat) (l : Ground) :
    Kept l.g (occlusionLogic now rnd l).g ∧ (occlusionLogic now rnd l).g.velY = l.g.velY := by
  unfold occlusionLogic
  split_ifs
  all_goals first
    | exact ⟨Kept_refl _, rfl⟩
    | exact ⟨Kept_trans _ _ _ (Kept_idle now l.g) (Kept_posX _ _), by simp⟩

theorem fallOrWalk_kept (now : Nat) (l : Ground) :
    Kept l.g (fallOrWalk now l) ∧ (fallOrWalk now l).velY = l.g.velY := by
  unfold fallOrWalk
  dsimp only
  split_ifs
  all_goals first
    | exact ⟨Kept_refl _, rfl⟩
    | exact ⟨Kept_falling now l.g, by simp⟩
    | exact ⟨Kept_idle now l.g, by simp⟩

theorem groundedTick_kept (now rnd : Nat) (g : Globals) :
    Kept g (groundedTick now rnd g) ∧ (groundedTick now rnd g).velY = g.velY := by
  obtain ⟨y1, h1⟩ := elevatorCheck_frame g
  obtain ⟨y2, h2⟩ := floorCheck_frame (elevatorCheck g)
  have h3 : (floorCheck (elevatorCheck g)).g = { g with posY := y2 } := by
    rw [h2, h1]
  obtain ⟨k1, k2⟩ := occlusionLogic_kept now rnd (floorCheck (elevatorCheck g))
  obtain ⟨k3, k4⟩ := fallOrWalk_kept now (occlusionLogic now rnd (floorCheck (elevatorCheck g)))
  unfold groundedTick
  rw [h3] at k1 k2
  exact ⟨Kept_trans _ _ _ (Kept_posY g y2) (Kept_trans _ _ _ k1 k3), by rw [k4, k2]⟩

theorem leapingTick_kept (now : Nat) (g : Globals) :
    Kept g (leapingTick now g) ∧ (leapingTick now g).velY = g.velY := by
  unfold leapingTick
  dsimp only
  split_ifs
  · exact ⟨Kept_trans _ _ _
      (Kept_trans _ _ _ (Kept_posX g g.targetX) (Kept_posY _ g.targetY)) (Kept_idle now _),
      by simp⟩
  · exact ⟨⟨rfl, rfl, rfl, rfl, rfl, Or.inl rfl⟩, rfl⟩

/-- The FALLING branch: what it keeps, and the speed it leaves, 0 with state IDLE
or `min (vy + 3) 25` with state FALLING. -/
theorem fallingTick_kept (now : Nat) (g : Globals) (hs : g.currentState = State.FALLING) :
    Kept g (fallingTick now g) ∧
      (((fallingTick now g).currentState = State.IDLE ∧ (fallingTick now g).velY = 0) ∨
        ((fallingTick now g).currentState = State.FALLING ∧
          (fallingTick now g).velY = min (g.velY + 3) 25)) := by
  rw [fallingTick_eq]
  dsimp only
  split_ifs
  · split
    · refine ⟨Kept_trans _ _ _ ⟨rfl, rfl, rfl, rfl, rfl, Or.inl rfl⟩ (Kept_idle now _), Or.inl ?_⟩
      simp [ChangeState, hs]
    · split
      · refine ⟨Kept_trans _ _ _ ⟨rfl, rfl, rfl, rfl, rfl, Or.inl rfl⟩ (Kept_idle now _),
          Or.inl ?_⟩
        simp [ChangeState, hs]
      · exact ⟨⟨rfl, rfl, rfl, rfl, rfl, Or.inl rfl⟩, Or.inr ⟨hs, rfl⟩⟩
  · exact ⟨⟨rfl, rfl, rfl, rfl, rfl, Or.inl rfl⟩, Or.inr ⟨hs, rfl⟩⟩

/-- `UpdatePhysics` with the exit key up: the window list is the enumerated one,
and the rest of what `Kept` lists is kept. -/
theorem UpdatePhysics_kept (ws : List RECT) (now rnd : Nat) (g : Globals) :
    Kept { g with windowRects := ws } (UpdatePhysics false ws now rnd g) ∧
      (g.currentState ≠ State.FALLING → (UpdatePhysics false ws now rnd g).velY = g.velY) ∧
      (g.currentState = State.FALLING →
        ((UpdatePhysics false ws now rnd g).currentState = State.IDLE ∧
            (UpdatePhysics false ws now rnd g).velY = 0) ∨
          ((UpdatePhysics false ws now rnd g).currentState = State.FALLING ∧
            (UpdatePhysics false ws now rnd g).velY = min (g.velY + 3) 25)) := by
  unfold UpdatePhysics
  simp only [Bool.false_eq_true, if_false]
  by_cases h1 : g.currentState = State.FALLING
  · rw [if_pos h1]
    obtain ⟨k1, k2⟩ := fallingTick_kept now { g with windowRects := ws } h1
    exact ⟨k1, fun h => absurd h1 h, fun _ => k2⟩
  rw [if_neg h1]
  by_cases h2 : g.currentState = State.LEAPING
  · rw [if_pos h2]
    obtain ⟨k1, k2⟩ := leapingTick_kept now { g with windowRects := ws }
    exact ⟨k1, fun _ => k2, fun h => absurd h h1⟩
  rw [if_neg h2]
  split_ifs
  · obtain ⟨k1, k2⟩ := groundedTick_kept now rnd { g with windowRects := ws }
    exact ⟨k1, fun _ => k2, fun h => absurd h h1⟩
  · exact ⟨Kept_refl _, fun _ => rfl, fun h => absurd h h1⟩

/-! ## Invariants of the runs -/

theorem wWinMain_init (monitors : List RectArea) :
    (wWinMain monitors).currentState = State.FALLING ∧ (wWinMain monitors).velX = 0 ∧
      (wWinMain monitors).velY = 0 ∧ (wWinMain monitors).windowRects = [] ∧
      (wWinMain monitors).targetX = 0 ∧ (wWinMain monitors).targetY = 0 := by
  unfold wWinMain UpdateEnvironment
  cases monitors <;> exact ⟨rfl, rfl, rfl, rfl, rfl, rfl⟩

theorem VelocityInv_physics (escDown : Bool) (ws : List RECT) (now rnd : Nat) (g : Globals)
    (h : VelocityInv g) : VelocityInv (UpdatePhysics escDown ws now rnd g) := by
  cases escDown with
  | true => exact h
  | false =>
    obtain ⟨h1, h2, h3, h4⟩ := h
    obtain ⟨⟨k1, _⟩, k2, k3⟩ := UpdatePhysics_kept ws now rnd g
    refine ⟨k1.trans h1, ?_⟩
    by_cases hs : g.currentState = State.FALLING
    · rcases k3 hs with ⟨a, b⟩ | ⟨a, b⟩
      · rw [b]
        exact ⟨le_refl _, by decide, fun _ => rfl⟩
      · rw [b]
        exact ⟨le_min (by omega) (by decide), min_le_right _ _, fun hne => absurd a hne⟩
    · rw [k2 hs, h4 hs]
      exact ⟨le_refl _, by decide, fun _ => rfl⟩

theorem VelocityInv_behaviour (watching : Bool) (now : Nat) (rand : Nat → Nat) (g : Globals)
    (h : VelocityInv g) : VelocityInv (UpdateAI watching now rand g) := by
  obtain ⟨h1, h2, h3, h4⟩ := h
  obtain ⟨k1, k2, _⟩ := UpdateAI_keeps watching now rand g
  refine ⟨k1.trans h1, by rw [k2]; exact h2, by rw [k2]; exact h3, ?_⟩
  intro hne
  rw [k2]
  by_cases hs : g.currentState = State.FALLING
  · have e : UpdateAI watching now rand g = g := by
      unfold UpdateAI
      rw [if_pos (Or.inl hs)]
    rw [e] at hne
    exact absurd hs hne
  · exact h4 hs

theorem VelocityInv_run (calls : List Call) : ∀ (g : Globals), VelocityInv g →
    VelocityInv (runCalls calls g) := by
  induction calls with
  | nil =>
    intro g h
    exact h
  | cons c rest ih =>
    intro g h
    have hstep : VelocityInv (c.run g) := by
      cases c with
      | physics escDown ws now rnd => exact VelocityInv_physics escDown ws now rnd g h
      | behaviour watching now rand => exact VelocityInv_behaviour watching now rand g h
      | environment ms => exact h
    exact ih (c.run g) hstep

/-- C19: from the globals `wWinMain` starts with (state FALLING, both speeds 0),
for every monitor list at the start and after every sequence of calls of
`UpdatePhysics`, `UpdateAI` and `UpdateEnvironment`, in any order and with any
exit key, window list, monitor list, clock value, draw and movie signal: the fall
speed is from 0 to 25, it is 0 in every state other than FALLING, and the
horizontal speed is 0. -/
theorem velocity_invariant (monitors : List RectArea) (calls : List Call) :
    0 ≤ (runCalls calls (wWinMain monitors)).velY ∧
      (runCalls calls (wWinMain monitors)).velY ≤ 25 ∧
      ((runCalls calls (wWinMain monitors)).currentState ≠ State.FALLING →
        (runCalls calls (wWinMain monitors)).velY = 0) ∧
      (runCalls calls (wWinMain monitors)).velX = 0 := by
  obtain ⟨i1, i2, i3, _⟩ := wWinMain_init monitors
  have h0 : VelocityInv (wWinMain monitors) := by
    exact ⟨i2, by omega, by omega, fun _ => i3⟩
  obtain ⟨h1, h2, h3, h4⟩ := VelocityInv_run calls (wWinMain monitors) h0
  exact ⟨h2, h3, h4, h1⟩

/-- `UpdateAI` on a well formed window list: the leap target is kept and no
state other than PREPARE_JUMP leads to PREPARE_JUMP or LEAPING. -/
theorem UpdateAI_wellFormed (watching : Bool) (now : Nat) (rand : Nat → Nat) (g : Globals)
    (hw : ∀ w ∈ g.windowRects, WellFormed w) :
    (UpdateAI watching now rand g).targetX = g.targetX ∧
      (UpdateAI watching now rand g).targetY = g.targetY ∧
      (g.currentState ≠ State.PREPARE_JUMP →
        (UpdateAI watching now rand g).currentState ≠ State.PREPARE_JUMP ∧
          (g.currentState ≠ State.LEAPING →
            (UpdateAI watching now rand g).currentState ≠ State.LEAPING)) := by
  rcases UpdateAI_cases watching now rand g with h | ⟨hp, fr, h⟩ | ⟨_, h2, h3, g1, h, hg1⟩ <;>
    rw [h]
  · exact ⟨rfl, rfl, fun hp => ⟨hp, fun hl => hl⟩⟩
  · exact ⟨by simp, by simp, fun hne => absurd hp hne⟩
  · obtain ⟨_, _, _, m1, m2⟩ := movieDetection_frame watching now g1
    have hg : g1.targetX = g.targetX ∧ g1.targetY = g.targetY ∧
        g1.currentState ≠ State.PREPARE_JUMP ∧ g1.currentState ≠ State.LEAPING := by
      rcases hg1 with ⟨hi, e⟩ | ⟨_, e | e⟩
      · rw [e, idleBranch_wellFormed now _ rand g hw]
        split_ifs <;> simp [ChangeState_state, hi]
      · rw [e]
        simp [ChangeState_state]
      · rw [e]
        exact ⟨rfl, rfl, h3, h2⟩
    obtain ⟨t1, t2, s1, s2⟩ := hg
    refine ⟨m1.trans t1, m2.trans t2, fun _ => ?_⟩
    rcases movieDetection_cases watching now g1 with e | e | e <;> rw [e]
    · exact ⟨s1, fun _ => s2⟩
    · simp [ChangeState_state]
    · simp [ChangeState_state]

theorem NoJump_physics (escDown : Bool) (ws : List RECT) (now rnd : Nat) (g : Globals)
    (hws : ∀ w ∈ ws, WellFormed w) (h : NoJump g) :
    NoJump (UpdatePhysics escDown ws now rnd g) := by
  cases escDown with
  | true => exact h
  | false =>
    obtain ⟨h1, h2, h3, h4, _⟩ := h
    obtain ⟨⟨_, k2, k3, k4, _, k6⟩, _, _⟩ := UpdatePhysics_kept ws now rnd g
    refine ⟨?_, ?_, k2.trans h3, k3.trans h4, ?_⟩
    · rcases k6 with e | e | e <;> rw [e]
      · exact h1
      · decide
      · decide
    · rcases k6 with e | e | e <;> rw [e]
      · exact h2
      · decide
      · decide
    · rw [k4]
      exact hws

theorem NoJump_behaviour (watching : Bool) (now : Nat) (rand : Nat → Nat) (g : Globals)
    (h : NoJump g) : NoJump (UpdateAI watching now rand g) := by
  obtain ⟨h1, h2, h3, h4, h5⟩ := h
  obtain ⟨k1, k2, k3⟩ := UpdateAI_wellFormed watching now rand g h5
  obtain ⟨_, _, k4⟩ := UpdateAI_keeps watching now rand g
  refine ⟨(k3 h1).1, (k3 h1).2 h2, k1.trans h3, k2.trans h4, ?_⟩
  rw [k4]
  exact h5

theorem NoJump_run (calls : List Call) : ∀ (g : Globals), (∀ c ∈ calls, c.WindowsWellFormed) →
    NoJump g → NoJump (runCalls calls g) := by
  induction calls with
  | nil =>
    intro g _ h
    exact h
  | cons c rest ih =>
    intro g hc h
    have hstep : NoJump (c.run g) := by
      have hwf := hc c (List.mem_cons_self c rest)
      cases c with
      | physics escDown ws now rnd => exact NoJump_physics escDown ws now rnd g hwf h
      | behaviour watching now rand => exact NoJump_behaviour watching now rand g h
      | environment ms => exact h
    exact ih (c.run g) (fun c' hc' => hc c' (List.mem_cons_of_mem c hc')) hstep

/-- C20: (1) in a list of well formed windows, `IsPointObscured` with the cutoff
-1 reports the top-centre point of every window of the list as obscured; (2) on
globals whose window list is well formed, the jump search keeps no candidate
(both target lists are empty) and returns the globals as they are, and `UpdateAI`
keeps the leap target and enters PREPARE_JUMP from no other state; (3) from the
globals `wWinMain` starts with, after every sequence of calls of `UpdatePhysics`,
`UpdateAI` and `UpdateEnvironment` whose enumerated windows are well formed, the
state is neither PREPARE_JUMP nor LEAPING and the leap target is still `(0, 0)`. -/
theorem jump_unreachable :
    (∀ (ws : List RECT), (∀ w ∈ ws, WellFormed w) →
        ∀ w ∈ ws, IsPointObscured ws (ledge w).x (ledge w).y (-1) = true) ∧
      (∀ (g : Globals), (∀ w ∈ g.windowRects, WellFormed w) →
        targetsUp g = [] ∧ targetsDown g = [] ∧
          (∀ (now draw bias pick : Nat), jumpSearch now draw bias pick g = g) ∧
          ∀ (watching : Bool) (now : Nat) (rand : Nat → Nat),
            (UpdateAI watching now rand g).targetX = g.targetX ∧
              (UpdateAI watching now rand g).targetY = g.targetY ∧
              (g.currentState ≠ State.PREPARE_JUMP →
                (UpdateAI watching now rand g).currentState ≠ State.PREPARE_JUMP)) ∧
      ∀ (monitors : List RectArea) (calls : List Call), (∀ c ∈ calls, c.WindowsWellFormed) →
        (runCalls calls (wWinMain monitors)).currentState ≠ State.PREPARE_JUMP ∧
          (runCalls calls (wWinMain monitors)).currentState ≠ State.LEAPING ∧
          (runCalls calls (wWinMain monitors)).targetX = 0 ∧
          (runCalls calls (wWinMain monitors)).targetY = 0 := by
  refine ⟨fun ws hws w hw => ?_, fun g hw => ?_, fun monitors calls hc => ?_⟩
  · exact IsPointObscured_of_mem ws w _ _ hw (ledge_covered w (hws w hw))
  · obtain ⟨hu, hd⟩ := targets_nil g hw
    refine ⟨hu, hd, fun now draw bias pick => jumpSearch_nil now draw bias pick g hu hd, ?_⟩
    intro watching now rand
    obtain ⟨k1, k2, k3⟩ := UpdateAI_wellFormed watching now rand g hw
    exact ⟨k1, k2, fun h => (k3 h).1⟩
  · obtain ⟨i1, _, _, i4, i5, i6⟩ := wWinMain_init monitors
    have h0 : NoJump (wWinMain monitors) := by
      refine ⟨by rw [i1]; decide, by rw [i1]; decide, i5, i6, ?_⟩
      rw [i4]
      intro w hw
      exact absurd hw (List.not_mem_nil w)
    obtain ⟨h1, h2, h3, h4, _⟩ := NoJump_run calls (wWinMain monitors) hc h0
    exact ⟨h1, h2, h3, h4⟩

/-- Witness of C20: the six calls of `jumpyCalls`, three ticks under a window
whose ledge is in reach, with draws that pass the jump draw, end in a state that
is neither PREPARE_JUMP nor LEAPING. -/
theorem jump_unreachable_witness :
    (∀ c ∈ jumpyCalls, c.WindowsWellFormed) ∧
      (runCalls jumpyCalls (wWinMain [⟨0, 0, 1920, 1080⟩])).currentState ≠ State.PREPARE_JUMP ∧
      (runCalls jumpyCalls (wWinMain [⟨0, 0, 1920, 1080⟩])).currentState ≠ State.LEAPING :=
  have hc : ∀ c ∈ jumpyCalls, c.WindowsWellFormed := by
    intro c hc
    simp only [jumpyCalls, List.mem_cons, List.mem_singleton, List.not_mem_nil, or_false] at hc
    rcases hc with rfl | rfl | rfl | rfl | rfl | rfl
    all_goals first
      | trivial
      | (intro w hw
         have : w = ⟨860, 980, 1060, 1080⟩ := List.mem_singleton.1 hw
         subst this
         exact ⟨by decide, by decide⟩)
  have h := jump_unreachable.2.2 [⟨0, 0, 1920, 1080⟩] jumpyCalls hc
  ⟨hc, h.1, h.2.1⟩

end DesktopWalker
